import Mathlib

/-!
Verification of the deqp-runner core against its specification.

The Rust sources are shallowly embedded: pure functions become Lean
functions, stateful code becomes explicit state passing, machine integers
become `Nat` with explicit `% 2^w` where wrap-around matters, fallible code
returns `Except`/`Option`, and a Rust `panic!`/`unwrap` failure is an extra
`none`/dedicated constructor.  Rust `String`/`str` values are modelled at
the code-point level as `List Char` (the claims under study do not depend
on multi-byte UTF-8 encoding details).
-/

namespace DeqpRunner

/-- Strings are modelled as lists of characters. -/
abbrev Str := List Char

/-! ## Build manager (src/pti/builds.rs)

`OffsetDateTime` and its `.date()` projection are modelled by a single
opaque `Nat` timestamp: `apply_log_entry` only ever stores
`log_entry.time.date()`, so the distinction is irrelevant to the claims.
`tokio::sync::Notify` fields are omitted (pure synchronisation handles with
no influence on the state transitions under study).  `HashMap` fields are
modelled as function maps. -/

/-- Module revision, from src/pti/sut.rs: the only variant is a 20-byte git
hash (bytes as `Nat`). -/
inductive ModuleRevision where
  | git (hash : List Nat)
deriving DecidableEq, Repr

/-- A revision of the software under test, from src/pti/sut.rs. -/
structure Revision where
  top : ModuleRevision
  submodule_overrides : List (Str × ModuleRevision)
deriving DecidableEq, Repr

/-- Build status, from src/pti/builds.rs. -/
inductive BuildStatus where
  | Pending
  | Building
  | Ok
  | Fail
deriving DecidableEq, Repr

/-- One build record (src/pti/builds.rs `Build`); the `status_notify`
handle is omitted. -/
structure Build where
  id : Nat
  rev : Revision
  last_used : Nat
  status : BuildStatus

/-- Contents of one build log entry (src/pti/builds.rs `BuildLogContents`). -/
inductive BuildLogContents where
  | Create (rev : Revision)
  | Complete (success : Bool)
  | Use
  | ClearFail

/-- One build log entry (src/pti/builds.rs `BuildLogEntry`). -/
structure BuildLogEntry where
  id : Nat
  time : Nat
  contents : BuildLogContents

/-- In-memory state of the build manager (src/pti/builds.rs
`BuildMgrState`).  The two hash maps are modelled as function maps. -/
@[ext]
structure BuildMgrState where
  builds_by_id : Nat → Option Build
  builds_by_rev : Revision → Option Nat
  next_build : Nat

instance : Inhabited BuildMgrState :=
  ⟨{ builds_by_id := fun _ => none
     builds_by_rev := fun _ => none
     next_build := 1 }⟩

/-- `Default for BuildMgrState`: empty maps, `next_build = 1`. -/
def BuildMgrState.default : BuildMgrState := Inhabited.default

def BuildLogContents.isCreate : BuildLogContents → Bool
  | .Create _ => true
  | _ => false

/-- `BuildMgrState::apply_log_entry`.  `id.wrapping_add(1)` on `u64` is
`(id + 1) % 2^64`.  The error message strings are irrelevant to the claims,
so errors carry no payload. -/
def BuildMgrState.apply_log_entry (st : BuildMgrState) (e : BuildLogEntry) :
    Except Unit BuildMgrState :=
  let is_vacant : Bool := (st.builds_by_id e.id).isNone
  let is_create : Bool := e.contents.isCreate
  if is_vacant ≠ is_create then
    .error ()
  else
    match e.contents with
    | .Create rev =>
        .ok { st with
          builds_by_rev := fun r => if r = rev then some e.id else st.builds_by_rev r
          next_build := max st.next_build ((e.id + 1) % 2 ^ 64)
          builds_by_id := fun i =>
            if i = e.id then
              -- `or_insert`: the entry is vacant here, so this inserts.
              some { id := e.id, rev := rev, last_used := e.time, status := .Pending }
            else st.builds_by_id i }
    | .Complete success =>
        .ok { st with
          builds_by_id := fun i =>
            if i = e.id then
              (st.builds_by_id i).map fun b =>
                { b with
                  status := if success then .Ok else .Fail
                  last_used := e.time }
            else st.builds_by_id i }
    | .Use =>
        .ok { st with
          builds_by_id := fun i =>
            if i = e.id then
              (st.builds_by_id i).map fun b => { b with last_used := e.time }
            else st.builds_by_id i }
    | .ClearFail =>
        .ok { st with
          builds_by_id := fun i =>
            if i = e.id then
              (st.builds_by_id i).map fun b =>
                if b.status = .Fail then { b with status := .Pending } else b
            else st.builds_by_id i }

/-- One line of `buildlog.json` as seen by `BuildMgr::new` after
`serde_json::from_str`: either a parse error or a parsed entry. -/
abbrev LogLine := Except Unit BuildLogEntry

/-- The log-reading loop inside `BuildMgr::new` (src/pti/builds.rs lines
157-171): entries are applied in order to the state; the first parse or
apply error stops the loop and sets the `truncate` flag, leaving the state
as already mutated.  Returns the resulting state and the `truncate` flag. -/
def readBuildLog (st : BuildMgrState) : List LogLine → BuildMgrState × Bool
  | [] => (st, false)
  | .error _ :: _ => (st, true)
  | .ok e :: rest =>
      match st.apply_log_entry e with
      | .error _ => (st, true)
      | .ok st' => readBuildLog st' rest

/-- `BuildMgr::new` state recovery: start from the default state and read
the log. -/
def buildMgrNewState (lines : List LogLine) : BuildMgrState × Bool :=
  readBuildLog BuildMgrState.default lines

/-- Clean replay of a list of entries (no parse errors), failing on the
first apply error.  This is the specification-side "applying the written
log to a fresh state" notion. -/
def applyAll (st : BuildMgrState) : List BuildLogEntry → Except Unit BuildMgrState
  | [] => .ok st
  | e :: rest =>
      match st.apply_log_entry e with
      | .error err => .error err
      | .ok st' => applyAll st' rest

/-- Specification-side restatement of the log-apply rules, following the
amended claim C8 sentence by sentence: a `Create` entry is accepted exactly
when its id is not yet known and any other entry exactly when it is; an
accepted `Create` installs a `Pending` record for the id, maps the revision
to the id and sets `next_build` to the maximum of its old value and the
entry id plus one reduced modulo `2^64`; `Complete` sets the status to `Ok`
or `Fail` according to `success` and updates `last_used` to the entry time;
`Use` updates `last_used`; `ClearFail` turns a `Fail` status into `Pending`
and leaves any other status unchanged. -/
def applyLogEntrySpec (st : BuildMgrState) (e : BuildLogEntry) :
    Except Unit BuildMgrState :=
  match e.contents with
  | .Create rev =>
      if (st.builds_by_id e.id).isSome then .error () else
      .ok { st with
        builds_by_id := Function.update st.builds_by_id e.id
          (some { id := e.id, rev := rev, last_used := e.time, status := .Pending })
        builds_by_rev := Function.update st.builds_by_rev rev (some e.id)
        next_build := max st.next_build ((e.id + 1) % 2 ^ 64) }
  | c =>
      match st.builds_by_id e.id with
      | none => .error ()
      | some b =>
          let b' : Build :=
            match c with
            | .Complete success =>
                { b with status := if success then .Ok else .Fail, last_used := e.time }
            | .Use => { b with last_used := e.time }
            | _ =>
                if b.status = .Fail then { b with status := .Pending } else b
          .ok { st with builds_by_id := Function.update st.builds_by_id e.id (some b') }

/-- A concrete revision used by counterexamples and witnesses. -/
def rev0 : Revision := { top := .git (List.replicate 20 0), submodule_overrides := [] }

/-- A concrete one-entry log prefix used by counterexamples and witnesses. -/
def preC3 : List BuildLogEntry := [{ id := 1, time := 5, contents := .Create rev0 }]

/-- The state reached after applying `preC3` to the default state. -/
def stC3val : BuildMgrState :=
  { builds_by_rev := fun r => if r = rev0 then some 1 else BuildMgrState.default.builds_by_rev r
    next_build := max BuildMgrState.default.next_build ((1 + 1) % 2 ^ 64)
    builds_by_id := fun i =>
      if i = 1 then some { id := 1, rev := rev0, last_used := 5, status := .Pending }
      else BuildMgrState.default.builds_by_id i }

/-! ## Subprocess runner (src/rundeqp.rs)

The runner races four event sources in a `tokio::select!` loop: the next
stdout line, the next stderr line, the child exit, and the per-test
timeout.  An execution is modelled by the list of select events in the
order they fire.  Wall-clock times (`OffsetDateTime::now_utc()`) are
supplied as `Nat` values carried by the events.  The timeout `Sleep`
future, logger, and the kill task are real-time/IO handles with no effect
on the state transitions under study and are not part of the state; an
`Option` reader/child handle is modelled by a `Bool` (present or not).
A Rust panic (a failing `unwrap`) is the `none`/`panic` outcome. -/

/-- Modelled from the spec: `TestResultType` is declared in the crate root,
which is not among the provided sources; §3 of the spec lists its ten
variants, matching the `RESULT_VARIANTS` table in src/rundeqp.rs. -/
inductive TestResultType where
  | Pass
  | CompatibilityWarning
  | QualityWarning
  | NotSupported
  | Fail
  | ResourceError
  | InternalError
  | Crash
  | Timeout
  | Waiver
deriving DecidableEq, Repr

/-- Modelled from the spec: `TestResult` is declared in the crate root,
which is not among the provided sources; the fields are those constructed
in src/rundeqp.rs (`stdout`, `full_stdout`, `stderr`, `variant`). -/
structure TestResult where
  stdout : Str
  full_stdout : Str
  stderr : Str
  variant : TestResultType
deriving DecidableEq, Repr

/-- Modelled from the spec: `DeqpError` is declared in the crate root,
which is not among the provided sources; §7 of the spec lists the variants
`SpawnFailed`, `ReadFailed`, `WaitFailed`, `Crash{exit_status}`, `Timeout`,
`DeqpFatalError`, `NoTestsRun`, `Incomplete`, `ParseError`.  Error payloads
that are mere messages (the io error inside `SpawnFailed`/`ReadFailed`/
`WaitFailed`, the `ParseError` message) are dropped; the `Crash` exit
status is kept. -/
inductive DeqpError where
  | SpawnFailed
  | ReadFailed
  | WaitFailed
  | Crash (exit_status : Option Int)
  | Timeout
  | DeqpFatalError
  | NoTestsRun
  | Incomplete
  | ParseError
deriving DecidableEq, Repr

/-- Events of the runner stream (src/rundeqp.rs `DeqpEvent`). -/
inductive DeqpEvent where
  | Launch (pid : Nat)
  | Test (name : Str) (start : Nat) (duration : Nat) (result : TestResult)
  | Finished (error : Option DeqpError) (stdout : Str) (stderr : Str)
deriving DecidableEq, Repr

def DeqpEvent.isLaunch : DeqpEvent → Bool
  | .Launch _ => true
  | _ => false

def DeqpEvent.isTest : DeqpEvent → Bool
  | .Test _ _ _ _ => true
  | _ => false

def DeqpEvent.isFinishedEv : DeqpEvent → Bool
  | .Finished _ _ _ => true
  | _ => false

/-- Runner state (src/rundeqp.rs `RunDeqpState`).  Reader and child handles
are modelled by presence flags. -/
structure RunDeqpState where
  stdout_reader : Bool
  stderr_reader : Bool
  stdout : Str
  stderr : Str
  crash : Option DeqpError
  current_test : Option (Str × Nat)
  tests_done : Bool
  tests_run : Bool
  child : Bool
deriving DecidableEq, Repr

/-- The state right after a successful spawn (src/rundeqp.rs
`RunDeqpState::new`). -/
def initialRunDeqpState : RunDeqpState :=
  { stdout_reader := true
    stderr_reader := true
    stdout := []
    stderr := []
    crash := none
    current_test := none
    tests_done := false
    tests_run := false
    child := true }

/-- Rust `str::strip_prefix`. -/
def stripLead (pre s : Str) : Option Str :=
  if pre.isPrefixOf s then some (s.drop pre.length) else none

/-- Rust `str::strip_suffix`. -/
def stripTrail (suf s : Str) : Option Str :=
  if suf.isSuffixOf s then some (s.take (s.length - suf.length)) else none

/-- Rust `str::trim`.  Rust trims Unicode whitespace; the claims only
involve ASCII, where `Char.isWhitespace` agrees. -/
def trimStr (s : Str) : Str :=
  ((s.dropWhile Char.isWhitespace).reverse.dropWhile Char.isWhitespace).reverse

/-- Rust `str::contains` with a literal substring pattern. -/
def containsSub (hay sub : Str) : Bool :=
  hay.tails.any fun t => sub.isPrefixOf t

/-- The apostrophe character (used by the `Test case '<name>'..` markers). -/
def apos : Char := Char.ofNat 39

/-- The `"  "` marker opening a result line. -/
def twoSpaces : Str := "  ".toList

/-- The `"TEST: "` test-start marker. -/
def testMarker : Str := "TEST: ".toList

/-- The opening of the `Test case '<name>'..` test-start marker. -/
def testCasePre : Str := "Test case ".toList ++ [apos]

/-- The closing of the `Test case '<name>'..` test-start marker. -/
def testCaseSuf : Str := [apos] ++ "..".toList

/-- The `"DONE!"` marker. -/
def doneMarker : Str := "DONE!".toList

/-- The `"FATAL ERROR: "` stderr marker. -/
def fatalMarker : Str := "FATAL ERROR: ".toList

/-- The `RESULT_VARIANTS` table from src/rundeqp.rs.  The source iterates a
`HashMap` in arbitrary order; the tokens are mutually prefix-free, so at
most one of them can match a given line and the iteration order is
immaterial.  We fix the insertion order. -/
def resultVariants : List (Str × TestResultType) :=
  [("Pass".toList, .Pass),
   ("CompatibilityWarning".toList, .CompatibilityWarning),
   ("QualityWarning".toList, .QualityWarning),
   ("NotSupported".toList, .NotSupported),
   ("Fail".toList, .Fail),
   ("ResourceError".toList, .ResourceError),
   ("InternalError".toList, .InternalError),
   ("Crash".toList, .Crash),
   ("Timeout".toList, .Timeout),
   ("Waiver".toList, .Waiver)]

/-- Find the variant token that prefixes `report` and return it together
with the remainder of the line (the `for (s, res) in &*RESULT_VARIANTS`
loop body entry condition). -/
def findVariant (report : Str) : Option (TestResultType × Str) :=
  match resultVariants.findSome?
      (fun p => (stripLead p.1 report).map fun rest => (p.2, rest)) with
  | some r => some r
  | none => none

/-- A result of `Lines::next_line`: a read error, end of stream, or one
line (with the trailing newline already stripped). -/
abbrev LineResult := Except Unit (Option Str)

/-- `RunDeqpState::handle_stdout_error`: drop the stdout reader and latch
the cause if none is latched yet. -/
def handleStdoutError (st : RunDeqpState) (e : DeqpError) : RunDeqpState :=
  { st with
    stdout_reader := false
    crash := if st.crash.isNone then some e else st.crash }

/-- The tail of `RunDeqpState::handle_stdout_line` after the result-line
block: test-start markers, then plain accumulation and the `DONE!` flag. -/
def handleStdoutRest (st : RunDeqpState) (now : Nat) (l : Str) :
    RunDeqpState × Option DeqpEvent :=
  match (stripLead testMarker l).orElse
      (fun _ => (stripLead testCasePre l).bind (stripTrail testCaseSuf)) with
  | some name =>
      let ev := st.current_test.map fun p =>
        DeqpEvent.Test p.1 p.2 (now - p.2)
          { stdout := [], full_stdout := st.stdout, stderr := [], variant := .InternalError }
      ({ st with
          stdout := l ++ ['\n']
          current_test := some (name, now)
          tests_run := true }, ev)
  | none =>
      let st := { st with stdout := st.stdout ++ l ++ ['\n'] }
      if l = doneMarker then ({ st with tests_done := true }, none) else (st, none)

/-- `RunDeqpState::handle_stdout_line`.  The timeout refresh
(`self.timeout = sleep(..)`) touches only the real-time handle and has no
counterpart in the state. -/
def handleStdoutLine (st : RunDeqpState) (now : Nat) (l : LineResult) :
    RunDeqpState × Option DeqpEvent :=
  match l with
  | .ok none => ({ st with stdout_reader := false }, none)
  | .error _ => (handleStdoutError st .ReadFailed, none)
  | .ok (some l) =>
      if st.tests_done then
        ({ st with stdout := st.stdout ++ l ++ ['\n'] }, none)
      else
        match stripLead twoSpaces l with
        | some report0 =>
            match findVariant report0 with
            | some (res, rest) =>
                let report := trimStr rest
                let report :=
                  if report.head? = some '(' ∧ report.getLast? = some ')' then
                    (report.drop 1).dropLast
                  else report
                let st := { st with stdout := st.stdout ++ l ++ ['\n'] }
                match st.current_test with
                | none => (handleStdoutError st .ParseError, none)
                | some (name, start) =>
                    ({ st with current_test := none, stdout := [] },
                     some (.Test name start (now - start)
                       { stdout := report
                         full_stdout := st.stdout
                         stderr := []
                         variant := res }))
            | none => handleStdoutRest st now l
        | none => handleStdoutRest st now l

/-- `RunDeqpState::handle_stderr_line`. -/
def handleStderrLine (st : RunDeqpState) (l : LineResult) : RunDeqpState :=
  match l with
  | .ok none => { st with stderr_reader := false }
  | .error _ =>
      { st with
        stderr_reader := false
        crash := if st.crash.isNone then some .ReadFailed else st.crash }
  | .ok (some l) =>
      let st :=
        if containsSub l fatalMarker then
          { st with crash := if st.crash.isNone then some .DeqpFatalError else st.crash }
        else st
      { st with stderr := st.stderr ++ l ++ ['\n'] }

/-- Exit status of the child process: `success()` and `code()`. -/
structure ExitStatus where
  success : Bool
  code : Option Int
deriving DecidableEq, Repr

/-- One firing of a `tokio::select!` arm, with the wall-clock time where
the handler reads it. -/
inductive SelectEvent where
  | stdoutLine (now : Nat) (l : LineResult)
  | stderrLine (l : LineResult)
  | childExit (r : Except Unit ExitStatus)
  | timeout

/-- An arm can only fire when its handle is present
(`unwrap_or_never`: an absent handle yields a never-completing future).
The timeout arm can always fire. -/
def canFire (st : RunDeqpState) : SelectEvent → Bool
  | .stdoutLine _ _ => st.stdout_reader
  | .stderrLine _ => st.stderr_reader
  | .childExit _ => st.child
  | .timeout => true

/-- One iteration of the select loop body (src/rundeqp.rs lines 245-289).
`none` is a panic: the timeout arm does `self.child.take().unwrap()`, which
panics when the child handle has already been cleared. -/
def stepSelect (st : RunDeqpState) : SelectEvent → Option (RunDeqpState × Option DeqpEvent)
  | .stdoutLine now l => some (handleStdoutLine st now l)
  | .stderrLine l => some (handleStderrLine st l, none)
  | .childExit r =>
      let st := { st with child := false }
      match r with
      | .ok status =>
          if status.success then some (st, none)
          else some ({ st with crash := some (.Crash status.code) }, none)
      | .error _ =>
          some ({ st with crash := if st.crash.isNone then some .WaitFailed else st.crash }, none)
  | .timeout =>
      if st.child then
        -- child.take().unwrap() succeeds; the kill is spawned as a detached
        -- task; readers are detached; Timeout is latched unconditionally.
        some ({ st with
          child := false
          stdout_reader := false
          stderr_reader := false
          crash := some .Timeout }, none)
      else
        none

/-- The `while` condition of `RunDeqpState::next`. -/
def loopCond (st : RunDeqpState) : Bool :=
  st.stdout_reader || st.stderr_reader || st.child

/-- The code after the select loop of `RunDeqpState::next`
(src/rundeqp.rs lines 292-331). -/
def loopExit (st : RunDeqpState) (exitNow : Nat) : RunDeqpState × DeqpEvent :=
  match st.current_test with
  | some (name, start) =>
      let error := st.crash.getD (.Crash none)
      ({ st with
          current_test := none
          crash := if error = .Timeout then some .Timeout else some .Incomplete
          stdout := []
          stderr := [] },
       .Test name start (exitNow - start)
         { stdout := []
           full_stdout := st.stdout
           stderr := st.stderr
           variant := if error = .Timeout then .Timeout else .Crash })
  | none =>
      let crash :=
        if st.crash.isNone then
          if !st.tests_run then some .NoTestsRun
          else if !st.tests_done then some .Incomplete
          else none
        else st.crash
      ({ st with crash := none, stdout := [], stderr := [] },
       .Finished crash st.stdout st.stderr)

/-- Outcome of one `RunDeqpState::next` call driven by a list of select
events: a panic, a stuck execution (the event list ran out with the loop
condition still true — the real select would keep waiting), or the next
`DeqpEvent` together with the state and the remaining events. -/
inductive NextOutcome where
  | panic
  | stuck (st : RunDeqpState)
  | event (st : RunDeqpState) (e : DeqpEvent) (rest : List SelectEvent)

/-- `RunDeqpState::next`, driven by the event interleaving `evs`;
`exitNow` is the wall-clock time sampled after the loop exits.  Events
whose handle is absent cannot fire and are skipped (they do not occur in
real executions). -/
def runNext (st : RunDeqpState) (evs : List SelectEvent) (exitNow : Nat) : NextOutcome :=
  if loopCond st then
    match evs with
    | [] => .stuck st
    | e :: rest =>
        if canFire st e then
          match stepSelect st e with
          | none => .panic
          | some (st', some ev) => .event st' ev rest
          | some (st', none) => runNext st' rest exitNow
        else runNext st rest exitNow
  else
    let (st', ev) := loopExit st exitNow
    .event st' ev evs

/-- The event loop of `run_deqp`'s generator after `Launch`: repeatedly call
`next` and yield its event until a `Finished` event ends the stream.  The
fuel bounds the number of yielded events; `none` means panic, stuck, or
out of fuel. -/
def runStream : Nat → RunDeqpState → List SelectEvent → Nat → Option (List DeqpEvent)
  | 0, _, _, _ => none
  | fuel + 1, st, evs, exitNow =>
      match runNext st evs exitNow with
      | .panic => none
      | .stuck _ => none
      | .event st' e rest =>
          match e with
          | .Finished err so se => some [.Finished err so se]
          | _ => (runStream fuel st' rest exitNow).map (e :: ·)

/-- The full `run_deqp` stream: a failed spawn yields a single `Finished`
event; a successful spawn yields `Launch` followed by the event loop. -/
def runDeqpGen (spawn : Except DeqpError (Nat × RunDeqpState)) (fuel : Nat)
    (evs : List SelectEvent) (exitNow : Nat) : Option (List DeqpEvent) :=
  match spawn with
  | .error e => some [.Finished (some e) [] []]
  | .ok (pid, st) => (runStream fuel st evs exitNow).map (.Launch pid :: ·)

/-- A state where the child handle is still present while an error cause is
already latched and the timeout is about to fire (the "timeout races the
crashing child" scenario of C4). -/
def stC4race : RunDeqpState :=
  { initialRunDeqpState with crash := some .DeqpFatalError, tests_run := true }

/-- The same state after the child's non-zero exit has already been reaped:
the exit arm cleared the child handle and latched `Crash` (C4's failing
input). -/
def stC4reaped : RunDeqpState :=
  { stC4race with child := false, crash := some (.Crash (some 137)) }

/-- A state in which the child already exited (handle cleared, `Crash`
latched) while the stderr reader is still draining (C6's failing input). -/
def stC6 : RunDeqpState :=
  { stdout_reader := false
    stderr_reader := true
    stdout := []
    stderr := []
    crash := some (.Crash (some 137))
    current_test := none
    tests_done := false
    tests_run := true
    child := false }

/-- Concrete select-event interleaving for the C9 witness: one test with a
pass result, `DONE!`, both readers reaching end of stream, clean exit. -/
def evsC9 : List SelectEvent :=
  [.stdoutLine 0 (.ok (some ("TEST: a.b".toList))),
   .stdoutLine 1 (.ok (some ("  Pass (ok)".toList))),
   .stdoutLine 2 (.ok (some ("DONE!".toList))),
   .stdoutLine 2 (.ok none),
   .stderrLine (.ok none),
   .childExit (.ok { success := true, code := some 0 })]

/-- The event stream produced by `evsC9`. -/
def outC9 : List DeqpEvent :=
  [.Launch 42,
   .Test ("a.b".toList) 0 1
     { stdout := "ok".toList
       full_stdout := "TEST: a.b\n  Pass (ok)\n".toList
       stderr := []
       variant := .Pass },
   .Finished none ("DONE!\n".toList) []]

/-- A pre-state for the C10 witness: result line arriving with no open
test and no latched cause. -/
def stC10 : RunDeqpState := { initialRunDeqpState with tests_run := true }

/-- A post-loop state for the C10 witness: readers and child gone,
`ParseError` latched, no open test. -/
def stC10b : RunDeqpState :=
  { stdout_reader := false
    stderr_reader := false
    stdout := "x\n".toList
    stderr := []
    crash := some .ParseError
    current_test := none
    tests_done := false
    tests_run := true
    child := false }

/-! ## String pool (src/pti/string_pool.rs)

The pool owns a byte buffer and an open-addressed hash table.  Strings are
modelled at the code-point level (`Str`), so `Ref` ranges and lengths count
code points where the source counts bytes; the claims do not depend on
multi-byte encoding.  `DefaultHasher` is an unspecified hash: the model is
parametrised by an arbitrary hash function `hf : Str → Nat` (equal strings
hash equally by function extensionality, as in Rust).  `Idx` is a plain
`Nat` (0 = the empty string).  The `unwrap` in `probe_first_empty` can fail
if the probe sequence has no empty slot; that panic is the `panic`
outcome. -/

/-- `string_pool::Ref`: a `(begin, end)` range into the pool buffer. -/
structure PoolRef where
  begin_ : Nat
  end_ : Nat
deriving DecidableEq, Repr

/-- `Ref::is_empty`: `end <= begin`. -/
def PoolRef.isEmptyRef (r : PoolRef) : Bool := r.end_ ≤ r.begin_

/-- `Ref::num_bytes`. -/
def PoolRef.num_bytes (r : PoolRef) : Nat := r.end_ - r.begin_

instance : Inhabited PoolRef := ⟨⟨0, 0⟩⟩

/-- One slot of the open-addressed table (`string_pool::MapEntry`). -/
structure MapEntry where
  r : PoolRef
  hash : Nat
  idx : Nat
deriving DecidableEq, Repr

instance : Inhabited MapEntry := ⟨⟨⟨0, 0⟩, 0, 0⟩⟩

/-- `Pool::make_map`. -/
def makeMap (size : Nat) : List MapEntry := List.replicate size default

/-- `string_pool::Pool`. -/
structure Pool where
  pool : Str
  map : List MapEntry
  strings : List PoolRef
deriving DecidableEq, Repr

/-- `Pool::new`: empty buffer, 1024 empty slots, the reserved empty-string
ref at index 0. -/
def Pool.new : Pool :=
  { pool := [], map := makeMap 1024, strings := [⟨0, 0⟩] }

/-- `Pool::string_count`. -/
def Pool.string_count (σ : Pool) : Nat := σ.strings.length - 1

/-- `Pool::get`: the characters of `pool[r.begin..r.end]`.  (The source
panics on an out-of-range slice; refs produced by this pool are always in
range by the invariant.) -/
def Pool.get (σ : Pool) (r : PoolRef) : Str :=
  (σ.pool.drop r.begin_).take (r.end_ - r.begin_)

/-- `Pool::ref_by_idx`: `self.strings[idx]` (out-of-range panics in the
source; always in range under the invariant). -/
def Pool.ref_by_idx (σ : Pool) (idx : Nat) : PoolRef := σ.strings.getD idx default

/-- The quadratic probe iterator (`Pool::probe`): starting at `idx` with
step counter `i`, yield `idx` and advance by `i + 1` modulo `m`.  The
source iterator stops as soon as `m / 2 ≤ i`; starting from `i = 0` it
therefore yields exactly `m / 2` probes, which is the structural fuel
here. -/
def probeIter (m : Nat) : Nat → Nat → Nat → List Nat
  | 0, _, _ => []
  | fuel + 1, idx, i => idx :: probeIter m fuel ((idx + (i + 1)) % m) (i + 1)

/-- The probe sequence of `hash` in a table of `m` slots. -/
def probeList (m hash : Nat) : List Nat := probeIter m (m / 2) (hash % m) 0

/-- The entry stored at slot `q` (empty slots hold the default entry). -/
def entryAt (m : List MapEntry) (q : Nat) : MapEntry := m.getD q default

/-- Result of the probe loop in `Pool::put`: an entry holding the string
was found; the first empty slot was found (string absent); or the probe
sequence was exhausted (`found_idx = None`). -/
inductive ProbeFind where
  | hit (r : PoolRef) (idx : Nat)
  | firstEmpty (q : Nat)
  | exhausted
deriving DecidableEq, Repr

/-- The `for probe_idx in self.probe(hash)` loop of `Pool::put`: stop at
the first empty slot; return the entry when hash and characters match. -/
def lookupIn (σ : Pool) (hash : Nat) (s : Str) : List Nat → ProbeFind
  | [] => .exhausted
  | q :: rest =>
      let e := entryAt σ.map q
      if e.r.isEmptyRef then .firstEmpty q
      else if e.hash = hash ∧ σ.get e.r = s then .hit e.r e.idx
      else lookupIn σ hash s rest

/-- `Pool::probe_first_empty` without the `unwrap`: `none` is the panic. -/
def probeFirstEmpty (m : List MapEntry) (size hash : Nat) : Option Nat :=
  (probeList size hash).find? fun q => (entryAt m q).r.isEmptyRef

/-- The rehash loop inside `Pool::put`'s grow branch: reinsert every
non-empty entry of the old map into the new map at the first empty slot of
its probe sequence; `none` is the `unwrap` panic. -/
def rehashFold (newMap : List MapEntry) : List MapEntry → Option (List MapEntry)
  | [] => some newMap
  | e :: rest =>
      if e.r.isEmptyRef then rehashFold newMap rest
      else
        match probeFirstEmpty newMap newMap.length e.hash with
        | none => none
        | some q => rehashFold (newMap.set q e) rest

/-- Result of `Pool::put`: the `unwrap` panic, an overflow error (state
unchanged), or the interned `(Ref, Idx)` with the updated pool. -/
inductive PutResult where
  | panic
  | error (σ : Pool)
  | ok (r : PoolRef) (idx : Nat) (σ : Pool)
deriving DecidableEq, Repr

/-- `Pool::put`, parametrised by the hash function `hf`. -/
def Pool.put (hf : Str → Nat) (σ : Pool) (s : Str) : PutResult :=
  if 2 ^ 32 - 1 ≤ s.length then .error σ
  else if s = [] then .ok ⟨0, 0⟩ 0 σ
  else
    let hash := hf s
    match lookupIn σ hash s (probeList σ.map.length hash) with
    | .hit r idx => .ok r idx σ
    | res =>
        -- `found_idx` as left by the loop.
        let found_idx : Option Nat :=
          match res with
          | .firstEmpty q => some q
          | _ => none
        if 2 ^ 32 - 1 - σ.pool.length ≤ s.length
            ∨ 2 ^ 32 - 1 - 1 ≤ σ.strings.length then
          .error σ
        else
          let grown : Option (Nat × List MapEntry) :=
            if found_idx.isNone ∨ σ.map.length / 8 * 5 ≤ σ.strings.length then
              -- Grow the map and reinsert all live entries.
              match rehashFold (makeMap (σ.map.length / 8 * 11)) σ.map with
              | none => none
              | some m' =>
                  match probeFirstEmpty m' m'.length hash with
                  | none => none
                  | some q => some (q, m')
            else
              match found_idx with
              | some q => some (q, σ.map)
              | none => none  -- unreachable: found_idx is some in this branch
          match grown with
          | none => .panic
          | some (map_idx, map') =>
              let begin_ := σ.pool.length
              let pool' := σ.pool ++ s
              let r : PoolRef := ⟨begin_, pool'.length⟩
              let idx := σ.strings.length
              .ok r idx
                { pool := pool'
                  map := map'.set map_idx ⟨r, hash, idx⟩
                  strings := σ.strings ++ [r] }

/-- The string stored at index `j` of the pool's `strings` vector. -/
def stringAt (σ : Pool) (j : Nat) : PoolRef := σ.strings.getD j default

/-- A slot value `q` is findable for probe sequence `P` in map `m`: it
occurs in `P` and every slot probed before it is occupied. -/
def FindableIn (m : List MapEntry) (P : List Nat) (q : Nat) : Prop :=
  ∃ pre post, P = pre ++ q :: post
    ∧ ∀ x ∈ pre, (entryAt m x).r.isEmptyRef = false

/-- The pool invariant, for reachable pools under hash function `hf`:
index 0 is the reserved empty ref; the buffer and table sizes are bounded;
every interned ref is a non-empty in-range slice; distinct indices hold
distinct strings; every occupied slot points back to a `strings` entry with
the right hash; and every interned string's entry can be found by probing
before hitting an empty slot. -/
structure PoolInv (hf : Str → Nat) (σ : Pool) : Prop where
  strings_ne : σ.strings ≠ []
  strings_zero : stringAt σ 0 = ⟨0, 0⟩
  map_big : 1024 ≤ σ.map.length
  pool_bound : σ.pool.length < 2 ^ 32 - 1
  strings_bound : σ.strings.length < 2 ^ 32 - 1
  ref_ok : ∀ j, 1 ≤ j → j < σ.strings.length →
    (stringAt σ j).begin_ < (stringAt σ j).end_
    ∧ (stringAt σ j).end_ ≤ σ.pool.length
  distinct : ∀ j j', 1 ≤ j → j < σ.strings.length → 1 ≤ j' → j' < σ.strings.length →
    j ≠ j' → σ.get (stringAt σ j) ≠ σ.get (stringAt σ j')
  entries_sound : ∀ q, q < σ.map.length → (entryAt σ.map q).r.isEmptyRef = false →
    1 ≤ (entryAt σ.map q).idx
    ∧ (entryAt σ.map q).idx < σ.strings.length
    ∧ (entryAt σ.map q).r = stringAt σ (entryAt σ.map q).idx
    ∧ (entryAt σ.map q).hash = hf (σ.get (entryAt σ.map q).r)
  findable : ∀ j, 1 ≤ j → j < σ.strings.length →
    ∃ q, q < σ.map.length
      ∧ entryAt σ.map q = ⟨stringAt σ j, hf (σ.get (stringAt σ j)), j⟩
      ∧ FindableIn σ.map (probeList σ.map.length (hf (σ.get (stringAt σ j)))) q

/-- The pool associates string `s` to `(r, i)`: index `i` holds ref `r`
whose characters are `s`. -/
def PoolContains (σ : Pool) (s : Str) (r : PoolRef) (i : Nat) : Prop :=
  1 ≤ i ∧ i < σ.strings.length ∧ stringAt σ i = r ∧ σ.get r = s

/-- The pool produced by the insertion tail of `Pool.put`: append the
characters, record the new ref, and fill table slot `q` (of the possibly
regrown table `base`). -/
def insertPool (σ : Pool) (s : Str) (base : List MapEntry) (q hash : Nat) : Pool :=
  { pool := σ.pool ++ s
    map := base.set q ⟨⟨σ.pool.length, (σ.pool ++ s).length⟩, hash, σ.strings.length⟩
    strings := σ.strings ++ [⟨σ.pool.length, (σ.pool ++ s).length⟩] }

/-- Repeated interning of a list of strings, keeping the pool across
successful and failed calls; `none` if any call panics. -/
def putMany (hf : Str → Nat) (σ : Pool) : List Str → Option Pool
  | [] => some σ
  | t :: rest =>
      match Pool.put hf σ t with
      | .panic => none
      | .error σ' => putMany hf σ' rest
      | .ok _ _ σ' => putMany hf σ' rest

/-- The pool carried by a `put` result (for naming intermediate pools in
concrete computations). -/
def poolAfter (res : PutResult) : Pool :=
  match res with
  | .ok _ _ σ => σ
  | .error σ => σ
  | .panic => Pool.new

/-- A concrete hash function for witnesses (hash functions are arbitrary
in the model). -/
def hfW : Str → Nat := fun _ => 0

/-- The pool after interning `"a"` into a fresh pool. -/
def σC7a : Pool := poolAfter (Pool.put hfW Pool.new ("a".toList))

/-- The pool after then interning `"b"`. -/
def σC7b : Pool := poolAfter (Pool.put hfW σC7a ("b".toList))

/-! ## Suite (src/pti/suite.rs)

A rooted tree of groups and tests over the string pool.  Child references
are stored packed in a `u32` (modelled as `Nat`): values `< 2^31` are test
indices, `2^32 - 1` is `None`, anything else is `2^31 +` a group index.
`assert!` failures in `pack` (note: the source's `1 << 31 - 1` parses as
`1 << 30`) and the `panic!()` on a `None` child are panic outcomes.  The
parent-pointer iterator of the source walks until it reaches the root; in
the model it carries `s.groups.length` fuel, which suffices because parent
indices strictly decrease in reachable suites. -/

/-- `suite::AnyRef`. -/
inductive AnyRef where
  | none
  | test (i : Nat)
  | group (i : Nat)
deriving DecidableEq, Repr

/-- `AnyRef::pack` (`Into<AnyRefPacked>`), with the source asserts. -/
def AnyRef.pack : AnyRef → Option Nat
  | .none => some (2 ^ 32 - 1)
  | .test i => if i < 2 ^ 31 then some i else Option.none
  | .group i => if i < 2 ^ 30 then some (2 ^ 31 + i) else Option.none

/-- `AnyRefPacked::unpack`. -/
def unpack (x : Nat) : AnyRef :=
  if x < 2 ^ 31 then .test x
  else if x ≠ 2 ^ 32 - 1 then .group (x - 2 ^ 31)
  else .none

/-- `suite::Test`. -/
structure SuiteTest where
  parent : Nat
  name : Nat
deriving DecidableEq, Repr

/-- `suite::Group`. -/
structure SuiteGroup where
  children : List Nat
  parent : Nat
  name : Nat
deriving DecidableEq, Repr

instance : Inhabited SuiteTest := ⟨⟨2 ^ 32 - 1, 0⟩⟩

instance : Inhabited SuiteGroup := ⟨⟨[], 2 ^ 32 - 1, 0⟩⟩

/-- `suite::Suite`. -/
structure Suite where
  separator : Str
  tests : List SuiteTest
  groups : List SuiteGroup
  name_pool : Pool
deriving DecidableEq, Repr

/-- `Suite::new`: one root group whose parent is the packed `None` and
whose name is the empty index. -/
def Suite.new (separator : Str) : Suite :=
  { separator := separator
    tests := []
    groups := [{ children := [], parent := 2 ^ 32 - 1, name := 0 }]
    name_pool := Pool.new }

/-- Rust `str::split_once`: split at the first occurrence of `sep`. -/
def splitOnce (sep : Str) : Str → Option (Str × Str)
  | [] => if sep.isPrefixOf ([] : Str) then some ([], []) else Option.none
  | c :: rest =>
      if sep.isPrefixOf (c :: rest) then some ([], (c :: rest).drop sep.length)
      else (splitOnce sep rest).map fun p => (c :: p.1, p.2)

/-- All separator-split segments of a path (the fuel bounds the number of
splits; `p.length + 1` suffices for a non-empty separator). -/
def splitSegs (sep : Str) : Nat → Str → List Str
  | 0, p => [p]
  | fuel + 1, p =>
      match splitOnce sep p with
      | some (n, r) => n :: splitSegs sep fuel r
      | Option.none => [p]

/-- The segments of a path. -/
def splitFull (sep p : Str) : List Str := splitSegs sep (p.length + 1) p

/-- Outcome of the child scan for a non-terminal segment: a child test
with the same name (conflict), an existing subgroup, no match, or the
`panic!()` on a `None` child. -/
inductive ChildScan where
  | conflict
  | foundGroup (i : Nat)
  | notFound
  | panicked
deriving DecidableEq, Repr

/-- The `for child in &group.children` loop of `Suite::put` for a
non-terminal segment. -/
def scanNonTerminal (s : Suite) (nameIdx : Nat) : List Nat → ChildScan
  | [] => .notFound
  | c :: rest =>
      match unpack c with
      | .test ci =>
          if (s.tests.getD ci default).name = nameIdx then .conflict
          else scanNonTerminal s nameIdx rest
      | .group ci =>
          if (s.groups.getD ci default).name = nameIdx then .foundGroup ci
          else scanNonTerminal s nameIdx rest
      | .none => .panicked

/-- Outcome of the child scan for the terminal segment. -/
inductive TermScan where
  | okTest (i : Nat)
  | conflict
  | notFound
  | panicked
deriving DecidableEq, Repr

/-- The terminal-segment child loop of `Suite::put`. -/
def scanTerminal (s : Suite) (nameIdx : Nat) : List Nat → TermScan
  | [] => .notFound
  | c :: rest =>
      match unpack c with
      | .test ci =>
          if (s.tests.getD ci default).name = nameIdx then .okTest ci
          else scanTerminal s nameIdx rest
      | .group ci =>
          if (s.groups.getD ci default).name = nameIdx then .conflict
          else scanTerminal s nameIdx rest
      | .none => .panicked

/-- Append a packed child to group `gi`. -/
def pushChild (gs : List SuiteGroup) (gi : Nat) (c : Nat) : List SuiteGroup :=
  gs.set gi
    (let g := gs.getD gi default
     { g with children := g.children ++ [c] })

/-- Result of `Suite::put`: panic, error (with the suite as mutated so
far), or the test index with the updated suite. -/
inductive SPutResult where
  | panic
  | error (s : Suite)
  | ok (t : Nat) (s : Suite)
deriving DecidableEq, Repr

/-- The `while let Some((name, remainder)) = test.split_once(..)` loop of
`Suite::put`, from group `groupIdx`.  The fuel decreases per split;
`test.length + 1` suffices for a non-empty separator, because each split
consumes the non-empty segment or errors out. -/
def Suite.putAux (hf : Str → Nat) : Nat → Suite → Nat → Str → SPutResult
  | 0, _, _, _ => .panic
  | fuel + 1, s, groupIdx, test =>
      match splitOnce s.separator test with
      | some (name, remainder) =>
          if name = [] then .error s
          else
            match Pool.put hf s.name_pool name with
            | .panic => .panic
            | .error p' => .error { s with name_pool := p' }
            | .ok _ nameIdx p' =>
                let s := { s with name_pool := p' }
                match scanNonTerminal s nameIdx (s.groups.getD groupIdx default).children with
                | .panicked => .panic
                | .conflict => .error s
                | .foundGroup childIdx => Suite.putAux hf fuel s childIdx remainder
                | .notFound =>
                    let childIdx := s.groups.length
                    if childIdx = 2 ^ 32 - 1 then .error s
                    else
                      match AnyRef.pack (.group childIdx), AnyRef.pack (.group groupIdx) with
                      | some packedChild, some packedParent =>
                          Suite.putAux hf fuel
                            { s with groups :=
                                pushChild s.groups groupIdx packedChild
                                  ++ [{ children := [], parent := packedParent,
                                        name := nameIdx }] }
                            childIdx remainder
                      | _, _ => .panic
      | Option.none =>
          match Pool.put hf s.name_pool test with
          | .panic => .panic
          | .error p' => .error { s with name_pool := p' }
          | .ok _ nameIdx p' =>
              let s := { s with name_pool := p' }
              match scanTerminal s nameIdx (s.groups.getD groupIdx default).children with
              | .panicked => .panic
              | .okTest ti => .ok ti s
              | .conflict => .error s
              | .notFound =>
                  let testIdx := s.tests.length
                  if testIdx = 2 ^ 32 - 1 then .error s
                  else
                    match AnyRef.pack (.test testIdx), AnyRef.pack (.group groupIdx) with
                    | some packedTest, some packedParent =>
                        .ok testIdx
                          { s with
                            groups := pushChild s.groups groupIdx packedTest
                            tests := s.tests
                              ++ [{ parent := packedParent, name := nameIdx }] }
                    | _, _ => .panic

/-- `Suite::put`, starting from the root group. -/
def Suite.put (hf : Str → Nat) (s : Suite) (test : Str) : SPutResult :=
  Suite.putAux hf (test.length + 1) s 0 test

/-- The parent chain of group indices starting from `a` (the source's
unbounded parent iterator, with fuel). -/
def ancestorsFuel (s : Suite) : Nat → AnyRef → List Nat
  | 0, _ => []
  | fuel + 1, a =>
      match a with
      | .group gi => gi :: ancestorsFuel s fuel (unpack (s.groups.getD gi default).parent)
      | _ => []

/-- `Suite::iter_ancestors`: the chain of ancestor group indices of `a`,
starting from its parent (fuel `s.groups.length` suffices in reachable
suites where parent indices strictly decrease). -/
def Suite.iterAncestors (s : Suite) (a : AnyRef) : List Nat :=
  let start : AnyRef :=
    match a with
    | .test ti => unpack (s.tests.getD ti default).parent
    | .group gi => unpack (s.groups.getD gi default).parent
    | .none => .none
  ancestorsFuel s s.groups.length start

/-- The own-name plus ancestor-name index chain of `a` (child to root),
before the empty-name filter. -/
def nameChainIdx (s : Suite) (a : AnyRef) : List Nat :=
  (match a with
   | .test ti => [(s.tests.getD ti default).name]
   | .group gi => [(s.groups.getD gi default).name]
   | .none => []) ++
  (s.iterAncestors a).map fun gi => (s.groups.getD gi default).name

/-- `Suite::iter_name_indices`: the chain with empty names filtered out. -/
def Suite.iterNameIndices (s : Suite) (a : AnyRef) : List Nat :=
  (nameChainIdx s a).filter fun n => n != 0

/-- `Suite::iter_name_refs`. -/
def Suite.iterNameRefs (s : Suite) (a : AnyRef) : List PoolRef :=
  (s.iterNameIndices a).map fun idx => s.name_pool.ref_by_idx idx

/-- One `copy_from_slice` into the output buffer. -/
def writeAt (buf : Str) (pos : Nat) (str : Str) : Str :=
  buf.take pos ++ str ++ buf.drop (pos + str.length)

/-- The right-to-left fill loop of `Suite::get_name`. -/
def fillLoop : Str → Nat → List Str → Str
  | buf, _, [] => buf
  | buf, end_, part :: rest => fillLoop (writeAt buf (end_ - part.length) part) (end_ - part.length) rest

/-- `Suite::get_name`: compute the total byte count of the interspersed
names, then fill the buffer right to left.  (The source's final
`assert!(end == 0)` holds by `fillLoop_spec` and is not modelled.) -/
def Suite.get_name (s : Suite) (t : Nat) : Str :=
  let nameBytes := (s.iterNameRefs (.test t)).map fun r => r.num_bytes
  let numBytes := (List.intersperse s.separator.length nameBytes).sum
  let names := (s.iterNameRefs (.test t)).map fun r => s.name_pool.get r
  fillLoop (List.replicate numBytes (Char.ofNat 0)) numBytes
    (List.intersperse s.separator names)

/-- The string interned at index `i` of a pool. -/
def resolveP (σ : Pool) (i : Nat) : Str := σ.get (stringAt σ i)

/-- The string interned at index `i` of the suite's pool. -/
def resolve (s : Suite) (i : Nat) : Str := resolveP s.name_pool i

/-- The name index of a packed child (tests and groups store their name
in the respective vector; the `None` child does not occur in reachable
suites). -/
def childNameIdx (s : Suite) (c : Nat) : Nat :=
  match unpack c with
  | .test ti => (s.tests.getD ti default).name
  | .group ci => (s.groups.getD ci default).name
  | .none => 0

/-- The suite invariant for reachable suites under hash function `hf`:
the pool invariant holds; the root group exists with `None` parent and the
empty name; non-root groups have a strictly smaller parent group and a
non-empty interned name; test names are interned; every packed child of a
group is a valid test or a valid (larger-index) group whose parent pointer
returns to that group; and the children of a group have pairwise distinct
name indices. -/
structure SuiteInv (hf : Str → Nat) (s : Suite) : Prop where
  pool_inv : PoolInv hf s.name_pool
  groups_ne : 0 < s.groups.length
  root_parent : (s.groups.getD 0 default).parent = 2 ^ 32 - 1
  root_name : (s.groups.getD 0 default).name = 0
  group_parent : ∀ gi, 1 ≤ gi → gi < s.groups.length →
    ∃ pg, unpack (s.groups.getD gi default).parent = .group pg ∧ pg < gi
  group_name : ∀ gi, 1 ≤ gi → gi < s.groups.length →
    1 ≤ (s.groups.getD gi default).name
    ∧ (s.groups.getD gi default).name < s.name_pool.strings.length
  test_name : ∀ ti, ti < s.tests.length →
    (s.tests.getD ti default).name < s.name_pool.strings.length
  children_sound : ∀ g, g < s.groups.length →
    ∀ c ∈ (s.groups.getD g default).children,
      (∃ ti, c = ti ∧ ti < 2 ^ 31 ∧ ti < s.tests.length
        ∧ unpack (s.tests.getD ti default).parent = .group g)
      ∨ (∃ ci, c = 2 ^ 31 + ci ∧ ci < 2 ^ 30 ∧ g < ci ∧ ci < s.groups.length
        ∧ unpack (s.groups.getD ci default).parent = .group g)
  children_names : ∀ g, g < s.groups.length →
    (s.groups.getD g default).children.Pairwise
      fun c c' => childNameIdx s c ≠ childNameIdx s c'

/-- `put` only extends a suite: the separator is kept, group and string
counts grow, interned strings keep their index, and the name chain of an
existing group is unchanged. -/
structure SuiteStep (s s' : Suite) : Prop where
  sep_eq : s'.separator = s.separator
  groups_mono : s.groups.length ≤ s'.groups.length
  strings_mono : s.name_pool.strings.length ≤ s'.name_pool.strings.length
  resolve_stable : ∀ i, i < s.name_pool.strings.length →
    resolveP s'.name_pool i = resolveP s.name_pool i
  chain_stable : ∀ gi, gi < s.groups.length →
    nameChainIdx s' (.group gi) = nameChainIdx s (.group gi)

/-- The suite resulting from the group-creation step of `Suite.put`
(push the packed child onto `g`, then append the fresh group). -/
def createGroup (s : Suite) (g nameIdx : Nat) : Suite :=
  { s with groups := pushChild s.groups g (2 ^ 31 + s.groups.length)
      ++ [{ children := [], parent := 2 ^ 31 + g, name := nameIdx }] }

/-- The suite resulting from the test-creation step of `Suite.put`
(push the packed test onto `g`, then append the fresh test). -/
def createTest (s : Suite) (g nameIdx : Nat) : Suite :=
  { s with
    groups := pushChild s.groups g s.tests.length
    tests := s.tests ++ [{ parent := 2 ^ 31 + g, name := nameIdx }] }

/-- The suite carried by a `Suite.put` result (for naming concrete result
suites). -/
def suiteAfter (r : SPutResult) (dflt : Suite) : Suite :=
  match r with
  | .ok _ s => s
  | .error s => s
  | .panic => dflt

/-- The suite after inserting `"a.b"` into a fresh suite with separator
`"."`. -/
def sW : Suite :=
  suiteAfter (Suite.put hfW (Suite.new ([Char.ofNat 46])) ("a.b".toList))
    (Suite.new ([Char.ofNat 46]))

/-- The suite after inserting the quirky path `"a."` (empty terminal
segment) into a fresh suite with separator `"."`. -/
def sCE1 : Suite :=
  suiteAfter (Suite.put hfW (Suite.new ([Char.ofNat 46])) ("a.".toList))
    (Suite.new ([Char.ofNat 46]))

/-- The same quirky-path suite, named separately for the error-condition
analysis. -/
def sCE2 : Suite :=
  suiteAfter (Suite.put hfW (Suite.new ([Char.ofNat 46])) ("a.".toList))
    (Suite.new ([Char.ofNat 46]))

/-- Group `g` has a child test `ti` whose name reads `n`. -/
def ChildTestStr (s : Suite) (g : Nat) (n : Str) (ti : Nat) : Prop :=
  ∃ c ∈ (s.groups.getD g default).children,
    unpack c = .test ti ∧ resolve s (s.tests.getD ti default).name = n

/-- Group `g` has a child group `ci` whose name reads `n`. -/
def ChildGroupStr (s : Suite) (g : Nat) (n : Str) (ci : Nat) : Prop :=
  ∃ c ∈ (s.groups.getD g default).children,
    unpack c = .group ci ∧ resolve s (s.groups.getD ci default).name = n

/-- Some non-terminal split segment of `p` is empty. -/
inductive LaterEmpty (sep : Str) : Str → Prop where
  | here {p n r} : splitOnce sep p = some (n, r) → n = [] → LaterEmpty sep p
  | there {p n r} : splitOnce sep p = some (n, r) → LaterEmpty sep r → LaterEmpty sep p

/-- The declarative error condition of `Suite::put` on the *initial*
suite: walking `p`'s segments from group `g` through existing subgroups,
either a non-terminal segment is empty, or a non-terminal segment names an
existing child test of the current group (a proper prefix of the path is
the path of an existing test), or the walk descends into an existing
subgroup and fails there, or it leaves the existing tree and a later
non-terminal segment is empty, or the terminal segment names an existing
child group (the path is the path of an existing group). -/
inductive ErrWalk (s : Suite) : Nat → Str → Prop where
  | emptySeg {g p n r} : splitOnce s.separator p = some (n, r) → n = [] →
      ErrWalk s g p
  | testConflict {g p n r ti} : splitOnce s.separator p = some (n, r) → n ≠ [] →
      ChildTestStr s g n ti → ErrWalk s g p
  | descend {g p n r ci} : splitOnce s.separator p = some (n, r) → n ≠ [] →
      (∀ ti, ¬ChildTestStr s g n ti) → ChildGroupStr s g n ci → ErrWalk s ci r →
      ErrWalk s g p
  | freshEmpty {g p n r} : splitOnce s.separator p = some (n, r) → n ≠ [] →
      (∀ ti, ¬ChildTestStr s g n ti) → (∀ ci, ¬ChildGroupStr s g n ci) →
      LaterEmpty s.separator r → ErrWalk s g p
  | groupConflict {g p ci} : splitOnce s.separator p = none →
      ChildGroupStr s g p ci → ErrWalk s g p

/-- The declarative success-by-lookup condition: `p`'s segments walk from
group `g` through existing subgroups and the terminal segment names an
existing child test `ti` (i.e. `p` is the path of the existing test
`ti` relative to `g`). -/
inductive TestAtWalk (s : Suite) : Nat → Str → Nat → Prop where
  | here {g p ti} : splitOnce s.separator p = none → ChildTestStr s g p ti →
      TestAtWalk s g p ti
  | descend {g p n r ci ti} : splitOnce s.separator p = some (n, r) → n ≠ [] →
      ChildGroupStr s g n ci → TestAtWalk s ci r ti → TestAtWalk s g p ti

/-! ## Claim theorems -/

lemma readBuildLog_append_ok :
    ∀ (pre : List BuildLogEntry) (st₀ st : BuildMgrState) (rest : List LogLine),
      applyAll st₀ pre = .ok st →
      readBuildLog st₀ (pre.map .ok ++ rest) = readBuildLog st rest := by
  intro pre
  induction pre with
  | nil =>
      intro st₀ st rest h
      simp only [applyAll] at h
      cases h
      simp
  | cons e pre ih =>
      intro st₀ st rest h
      simp only [applyAll] at h
      cases he : st₀.apply_log_entry e with
      | error err => rw [he] at h; exact absurd h (by simp)
      | ok st₁ =>
          rw [he] at h
          simpa only [List.map_cons, List.cons_append, readBuildLog, he] using
            ih st₁ st rest h


/-- C3, counterexample: reading a log whose first line is a valid `Create`
for id 1 and whose second line fails to parse sets the truncate flag, but
the in-memory state still contains build 1 — it is *not* the default empty
state the claim requires. -/
theorem claim_C3_counterexample :
    (buildMgrNewState (preC3.map .ok ++ [.error ()])).2 = true
    ∧ ((buildMgrNewState (preC3.map .ok ++ [.error ()])).1.builds_by_id 1).isSome = true
    ∧ (BuildMgrState.default.builds_by_id 1).isSome = false := by
  refine ⟨rfl, rfl, rfl⟩

/-- C3, amended: if `BuildMgr::new` encounters a parse error or an apply
error while reading `buildlog.json`, the in-memory state *retains* the
successfully applied prefix of the log (the entries before the first
failing line), and the log file is opened with truncation. -/
theorem claim_C3 (pre : List BuildLogEntry) (st : BuildMgrState) (rest : List LogLine)
    (happly : applyAll BuildMgrState.default pre = .ok st)
    (hfail : (∃ tail, rest = .error () :: tail)
      ∨ (∃ e tail, rest = .ok e :: tail ∧ st.apply_log_entry e = .error ())) :
    buildMgrNewState (pre.map .ok ++ rest) = (st, true) := by
  unfold buildMgrNewState
  rw [readBuildLog_append_ok pre _ st rest happly]
  rcases hfail with ⟨tail, rfl⟩ | ⟨e, tail, rfl, he⟩
  · rfl
  · simp [readBuildLog, he]

/-- C3, witness: instantiating the amended claim at the concrete log
`[Create id 1, parse error]`. -/
theorem claim_C3_witness :
    buildMgrNewState (preC3.map .ok ++ [.error ()]) = (stC3val, true) :=
  claim_C3 preC3 stC3val [.error ()] rfl (Or.inl ⟨[], rfl⟩)

/-- C8, counterexample: applying `Create` with id `2^64 - 1` to the default
state is accepted, but `next_build` afterwards is 1, which is not past the
entry id — `wrapping_add` wraps to 0, refuting the claim's "advances
next_build past the id". -/
theorem claim_C8_counterexample :
    (BuildMgrState.default.apply_log_entry
        { id := 2 ^ 64 - 1, time := 0, contents := .Create rev0 }).map
      BuildMgrState.next_build = .ok 1
    ∧ (1 : Nat) < 2 ^ 64 - 1 := by
  constructor
  · have h : ((2 : Nat) ^ 64 - 1 + 1) % 2 ^ 64 = 0 := by norm_num
    simp [BuildMgrState.apply_log_entry, BuildMgrState.default, Inhabited.default,
      BuildLogContents.isCreate, h, Except.map]
  · norm_num

/-- C8, amended: `apply_log_entry` accepts a `Create` entry iff its id is
unknown and any other entry iff its id is known; `Create` installs a
`Pending` record, maps the revision to the id and sets `next_build` to
`max next_build ((id + 1) % 2^64)` (past the id except when the id is
`2^64 - 1`, where the successor wraps to 0); `Complete` sets status
`Ok`/`Fail` by `success` and bumps `last_used`; `Use` bumps `last_used`;
`ClearFail` turns `Fail` into `Pending` and leaves other statuses
unchanged.  Stated as equality with the specification-side
`applyLogEntrySpec`. -/
theorem claim_C8 (st : BuildMgrState) (e : BuildLogEntry) :
    st.apply_log_entry e = applyLogEntrySpec st e := by
  obtain ⟨eid, etime, contents⟩ := e
  cases contents with
  | Create rev =>
      cases h : st.builds_by_id eid with
      | none =>
          simp only [BuildMgrState.apply_log_entry, applyLogEntrySpec,
            BuildLogContents.isCreate, h, Option.isNone_none, Option.isSome_none,
            ne_eq, not_true_eq_false, Bool.false_eq_true, if_false, if_neg,
            reduceIte]
          refine congrArg Except.ok (BuildMgrState.ext ?_ ?_ rfl)
          · funext i
            by_cases hi : i = eid <;> simp [hi, Function.update_apply]
          · funext r
            by_cases hr : r = rev <;> simp [hr, Function.update_apply]
      | some b =>
          simp [BuildMgrState.apply_log_entry, applyLogEntrySpec,
            BuildLogContents.isCreate, h]
  | Complete success =>
      cases h : st.builds_by_id eid with
      | none =>
          simp [BuildMgrState.apply_log_entry, applyLogEntrySpec,
            BuildLogContents.isCreate, h]
      | some b =>
          simp only [BuildMgrState.apply_log_entry, applyLogEntrySpec,
            BuildLogContents.isCreate, h, Option.isNone_some, ne_eq,
            Bool.false_eq_true, not_false_eq_true, if_true, reduceIte]
          refine congrArg Except.ok (BuildMgrState.ext ?_ rfl rfl)
          funext i
          by_cases hi : i = eid <;> simp [hi, Function.update_apply, h]
  | Use =>
      cases h : st.builds_by_id eid with
      | none =>
          simp [BuildMgrState.apply_log_entry, applyLogEntrySpec,
            BuildLogContents.isCreate, h]
      | some b =>
          simp only [BuildMgrState.apply_log_entry, applyLogEntrySpec,
            BuildLogContents.isCreate, h, Option.isNone_some, ne_eq,
            Bool.false_eq_true, not_false_eq_true, if_true, reduceIte]
          refine congrArg Except.ok (BuildMgrState.ext ?_ rfl rfl)
          funext i
          by_cases hi : i = eid <;> simp [hi, Function.update_apply, h]
  | ClearFail =>
      cases h : st.builds_by_id eid with
      | none =>
          simp [BuildMgrState.apply_log_entry, applyLogEntrySpec,
            BuildLogContents.isCreate, h]
      | some b =>
          simp only [BuildMgrState.apply_log_entry, applyLogEntrySpec,
            BuildLogContents.isCreate, h, Option.isNone_some, ne_eq,
            Bool.false_eq_true, not_false_eq_true, if_true, reduceIte]
          refine congrArg Except.ok (BuildMgrState.ext ?_ rfl rfl)
          funext i
          by_cases hi : i = eid <;> simp [hi, Function.update_apply, h]

lemma entryAt_set_self (m : List MapEntry) (q : Nat) (e : MapEntry)
    (h : q < m.length) : entryAt (m.set q e) q = e := by
  unfold entryAt
  rw [List.getD_eq_getElem _ _ (by simpa using h)]
  simp [List.getElem_set_self]

lemma entryAt_set_ne (m : List MapEntry) (q x : Nat) (e : MapEntry)
    (h : x ≠ q) : entryAt (m.set q e) x = entryAt m x := by
  unfold entryAt
  simp [List.getD_eq_getD_get?, List.getElem?_set_ne h.symm]

lemma entryAt_makeMap (n q : Nat) : entryAt (makeMap n) q = default := by
  unfold entryAt makeMap
  simp [List.getD_eq_getD_get?]

lemma default_empty : (default : MapEntry).r.isEmptyRef = true := rfl

lemma probeIter_lt (m : Nat) :
    ∀ (fuel i idx : Nat), idx < m → ∀ x ∈ probeIter m fuel idx i, x < m := by
  intro fuel
  induction fuel with
  | zero =>
      intro i idx _ x hx
      simp [probeIter] at hx
  | succ fuel ih =>
      intro i idx hidx x hx
      rw [probeIter] at hx
      rcases List.mem_cons.1 hx with rfl | hx
      · exact hidx
      · exact ih (i + 1) _ (Nat.mod_lt _ (by omega)) x hx

lemma probeList_lt (m h : Nat) (hm : 0 < m) : ∀ x ∈ probeList m h, x < m :=
  probeIter_lt m (m / 2) 0 (h % m) (Nat.mod_lt _ hm)

lemma find?_decomp {α : Type} (p : α → Bool) :
    ∀ (l : List α) (a : α), l.find? p = some a →
      ∃ pre post, l = pre ++ a :: post ∧ (∀ x ∈ pre, p x = false) ∧ p a = true := by
  intro l
  induction l with
  | nil => intro a h; simp [List.find?] at h
  | cons x xs ih =>
      intro a h
      by_cases hp : p x
      · rw [List.find?_cons_of_pos _ hp] at h
        cases h
        exact ⟨[], xs, rfl, by simp, hp⟩
      · rw [List.find?_cons_of_neg _ (by simpa using hp)] at h
        obtain ⟨pre, post, rfl, hpre, hpa⟩ := ih a h
        refine ⟨x :: pre, post, rfl, ?_, hpa⟩
        intro y hy
        rcases List.mem_cons.1 hy with rfl | hy
        · simpa using hp
        · exact hpre y hy

lemma lookupIn_firstEmpty_decomp (σ : Pool) (h : Nat) (s : Str) :
    ∀ (P : List Nat) (q : Nat), lookupIn σ h s P = .firstEmpty q →
      ∃ pre post, P = pre ++ q :: post
        ∧ (∀ x ∈ pre, (entryAt σ.map x).r.isEmptyRef = false)
        ∧ (entryAt σ.map q).r.isEmptyRef = true := by
  intro P
  induction P with
  | nil => intro q hq; simp [lookupIn] at hq
  | cons x xs ih =>
      intro q hq
      rw [lookupIn] at hq
      by_cases he : (entryAt σ.map x).r.isEmptyRef
      · rw [if_pos he] at hq
        cases hq
        exact ⟨[], xs, rfl, by simp, he⟩
      · rw [if_neg he] at hq
        by_cases hm : (entryAt σ.map x).hash = h ∧ σ.get (entryAt σ.map x).r = s
        · rw [if_pos hm] at hq; cases hq
        · rw [if_neg hm] at hq
          obtain ⟨pre, post, rfl, hpre, hemp⟩ := ih q hq
          refine ⟨x :: pre, post, rfl, ?_, hemp⟩
          intro y hy
          rcases List.mem_cons.1 hy with rfl | hy
          · simpa using he
          · exact hpre y hy

lemma lookupIn_exhausted_occupied (σ : Pool) (h : Nat) (s : Str) :
    ∀ (P : List Nat), lookupIn σ h s P = .exhausted →
      ∀ x ∈ P, (entryAt σ.map x).r.isEmptyRef = false := by
  intro P
  induction P with
  | nil => intro _ x hx; simp at hx
  | cons x xs ih =>
      intro hq y hy
      rw [lookupIn] at hq
      by_cases he : (entryAt σ.map x).r.isEmptyRef
      · rw [if_pos he] at hq; cases hq
      · rw [if_neg he] at hq
        by_cases hm : (entryAt σ.map x).hash = h ∧ σ.get (entryAt σ.map x).r = s
        · rw [if_pos hm] at hq; cases hq
        · rw [if_neg hm] at hq
          rcases List.mem_cons.1 hy with rfl | hy
          · simpa using he
          · exact ih hq y hy

lemma lookupIn_hit_sound (σ : Pool) (h : Nat) (s : Str) :
    ∀ (P : List Nat) (r : PoolRef) (i : Nat), lookupIn σ h s P = .hit r i →
      ∃ q ∈ P, (entryAt σ.map q).r.isEmptyRef = false
        ∧ (entryAt σ.map q).r = r ∧ (entryAt σ.map q).idx = i
        ∧ (entryAt σ.map q).hash = h ∧ σ.get r = s := by
  intro P
  induction P with
  | nil => intro r i hq; simp [lookupIn] at hq
  | cons x xs ih =>
      intro r i hq
      rw [lookupIn] at hq
      by_cases he : (entryAt σ.map x).r.isEmptyRef
      · rw [if_pos he] at hq; cases hq
      · rw [if_neg he] at hq
        by_cases hm : (entryAt σ.map x).hash = h ∧ σ.get (entryAt σ.map x).r = s
        · rw [if_pos hm] at hq
          cases hq
          exact ⟨x, by simp, by simpa using he, rfl, rfl, hm.1, hm.2⟩
        · rw [if_neg hm] at hq
          obtain ⟨q, hq1, hrest⟩ := ih r i hq
          exact ⟨q, List.mem_cons_of_mem _ hq1, hrest⟩

lemma drop_take_append (l t : List Char) (b e : Nat) (h : e ≤ l.length) :
    ((l ++ t).drop b).take (e - b) = (l.drop b).take (e - b) := by
  by_cases hb : b ≤ l.length
  · rw [List.drop_append_of_le_length hb]
    rw [List.take_append_of_le_length (by simp; omega)]
  · have he0 : e - b = 0 := by omega
    simp [he0]

lemma take_drop_self (l t : List Char) :
    ((l ++ t).drop l.length).take ((l ++ t).length - l.length) = t := by
  simp

lemma stringAt_isEmptyRef_false (hf : Str → Nat) (σ : Pool) (hInv : PoolInv hf σ)
    (i : Nat) (h1 : 1 ≤ i) (h2 : i < σ.strings.length) :
    (stringAt σ i).isEmptyRef = false := by
  have := hInv.ref_ok i h1 h2
  simp [PoolRef.isEmptyRef]
  omega

lemma lookupIn_hit_of_contains (hf : Str → Nat) (σ : Pool) (hInv : PoolInv hf σ)
    (i : Nat) (s : Str) (h1 : 1 ≤ i) (h2 : i < σ.strings.length)
    (hs : σ.get (stringAt σ i) = s) :
    ∀ (pre post : List Nat) (q : Nat),
      (∀ x ∈ pre, x < σ.map.length ∧ (entryAt σ.map x).r.isEmptyRef = false) →
      entryAt σ.map q = ⟨stringAt σ i, hf s, i⟩ →
      lookupIn σ (hf s) s (pre ++ q :: post) = .hit (stringAt σ i) i := by
  intro pre
  induction pre with
  | nil =>
      intro post q _ hq
      rw [List.nil_append, lookupIn]
      simp only [hq]
      rw [if_neg (by simp [stringAt_isEmptyRef_false hf σ hInv i h1 h2])]
      simp [hs]
  | cons x pre ih =>
      intro post q hpre hq
      obtain ⟨hxlt, hxocc⟩ := hpre x (by simp)
      rw [List.cons_append, lookupIn]
      rw [if_neg (by simp [hxocc])]
      by_cases hm : (entryAt σ.map x).hash = hf s ∧ σ.get (entryAt σ.map x).r = s
      · rw [if_pos hm]
        obtain ⟨hi1, hi2, hr, _⟩ := hInv.entries_sound x hxlt hxocc
        have hsx : σ.get (stringAt σ (entryAt σ.map x).idx) = s := by
          rw [← hr]; exact hm.2
        have hidx : (entryAt σ.map x).idx = i := by
          by_contra hne
          exact hInv.distinct _ _ hi1 hi2 h1 h2 hne (by rw [hsx, hs])
        rw [hr, hidx]
      · rw [if_neg hm]
        exact ih post q (fun y hy => hpre y (List.mem_cons_of_mem _ hy)) hq

lemma get_length (hf : Str → Nat) (σ : Pool) (hInv : PoolInv hf σ) (i : Nat)
    (h1 : 1 ≤ i) (h2 : i < σ.strings.length) :
    (σ.get (stringAt σ i)).length = (stringAt σ i).end_ - (stringAt σ i).begin_ := by
  have := hInv.ref_ok i h1 h2
  simp [Pool.get]
  omega

/-- A present string is returned by `put` with its existing ref and index,
leaving the pool untouched. -/
lemma put_hit (hf : Str → Nat) (σ : Pool) (s : Str) (r : PoolRef) (i : Nat)
    (hInv : PoolInv hf σ) (hc : PoolContains σ s r i) :
    Pool.put hf σ s = .ok r i σ := by
  obtain ⟨h1, h2, hr, hs⟩ := hc
  have hro := hInv.ref_ok i h1 h2
  have hslen : s.length = (stringAt σ i).end_ - (stringAt σ i).begin_ := by
    rw [← hs, ← hr]; exact get_length hf σ hInv i h1 h2
  have hlt : s.length < 2 ^ 32 - 1 := by
    have := hInv.pool_bound; omega
  have hne : s ≠ [] := by
    have : 0 < s.length := by omega
    intro h0; rw [h0] at this; simp at this
  obtain ⟨q, hqlt, hqe, pre, post, hP, hpre⟩ := hInv.findable i h1 h2
  have hs' : σ.get (stringAt σ i) = s := by rw [hr, hs]
  rw [hs'] at hqe
  have hhit :
      lookupIn σ (hf s) s (probeList σ.map.length (hf s)) = .hit (stringAt σ i) i := by
    rw [← hs', hP, hs']
    refine lookupIn_hit_of_contains hf σ hInv i s h1 h2 hs' pre post q ?_ hqe
    intro x hx
    have hxP : x ∈ probeList σ.map.length (hf (σ.get (stringAt σ i))) := by
      rw [hP]; exact List.mem_append_left _ hx
    refine ⟨probeList_lt _ _ (by have := hInv.map_big; omega) x hxP, hpre x hx⟩
  unfold Pool.put
  rw [if_neg (by omega)]
  rw [if_neg hne]
  simp only [hhit]
  rw [hr]

lemma FindableIn_mono (base mplus : List MapEntry) (P : List Nat) (p : Nat)
    (hocc : ∀ x, (entryAt base x).r.isEmptyRef = false →
      (entryAt mplus x).r.isEmptyRef = false)
    (h : FindableIn base P p) : FindableIn mplus P p := by
  obtain ⟨pre, post, hP, hpre⟩ := h
  exact ⟨pre, post, hP, fun x hx => hocc x (hpre x hx)⟩

lemma occupied_set (base : List MapEntry) (q : Nat) (e : MapEntry)
    (hq : q < base.length) (he : e.r.isEmptyRef = false) :
    ∀ x, (entryAt base x).r.isEmptyRef = false →
      (entryAt (base.set q e) x).r.isEmptyRef = false := by
  intro x hx
  by_cases hxq : x = q
  · subst hxq; rw [entryAt_set_self _ _ _ hq]; exact he
  · rw [entryAt_set_ne _ _ _ _ hxq]; exact hx

lemma probeList_pos_of_find (m : List MapEntry) (size hash q : Nat)
    (h : probeFirstEmpty m size hash = some q) : 0 < size := by
  by_contra h0
  have hsz : size = 0 := by omega
  subst hsz
  simp [probeFirstEmpty, probeList, probeIter] at h

lemma probeFirstEmpty_spec (m : List MapEntry) (size hash q : Nat)
    (h : probeFirstEmpty m size hash = some q) :
    q < size ∧ (entryAt m q).r.isEmptyRef = true
      ∧ FindableIn m (probeList size hash) q := by
  have hpos := probeList_pos_of_find m size hash q h
  obtain ⟨pre, post, hP, hpre, hq⟩ := find?_decomp _ _ _ h
  refine ⟨?_, by simpa using hq, pre, post, hP, ?_⟩
  · exact probeList_lt size hash hpos q (by rw [hP]; simp)
  · intro x hx
    simpa using hpre x hx

lemma rehashFold_spec :
    ∀ (entries mcur m' : List MapEntry),
      rehashFold mcur entries = some m' →
      m'.length = mcur.length
      ∧ (∀ q, (entryAt mcur q).r.isEmptyRef = false → entryAt m' q = entryAt mcur q)
      ∧ (∀ q, (entryAt m' q).r.isEmptyRef = false →
          (entryAt mcur q).r.isEmptyRef = false ∨ entryAt m' q ∈ entries)
      ∧ (∀ e ∈ entries, e.r.isEmptyRef = false →
          ∃ q, q < m'.length ∧ entryAt m' q = e
            ∧ FindableIn m' (probeList m'.length e.hash) q) := by
  intro entries
  induction entries with
  | nil =>
      intro mcur m' h
      rw [rehashFold] at h
      cases h
      exact ⟨rfl, fun _ _ => rfl, fun q hq => Or.inl hq, by simp⟩
  | cons e rest ih =>
      intro mcur m' h
      rw [rehashFold] at h
      by_cases he : e.r.isEmptyRef
      · rw [if_pos he] at h
        obtain ⟨hlen, hpers, hocc, hfind⟩ := ih mcur m' h
        refine ⟨hlen, hpers, ?_, ?_⟩
        · intro q hq
          rcases hocc q hq with h1 | h1
          · exact Or.inl h1
          · exact Or.inr (List.mem_cons_of_mem _ h1)
        · intro e' he' hocc'
          rcases List.mem_cons.1 he' with rfl | he'
          · rw [he] at hocc'; cases hocc'
          · exact hfind e' he' hocc'
      · rw [if_neg he] at h
        cases hpf : probeFirstEmpty mcur mcur.length e.hash with
        | none => rw [hpf] at h; cases h
        | some q0 =>
            rw [hpf] at h
            obtain ⟨hq0lt, hq0e, hq0find⟩ := probeFirstEmpty_spec _ _ _ _ hpf
            obtain ⟨hlen, hpers, hocc, hfind⟩ := ih (mcur.set q0 e) m' h
            have hset_len : (mcur.set q0 e).length = mcur.length := by simp
            have heB : e.r.isEmptyRef = false := by simpa using he
            have hmono := occupied_set mcur q0 e hq0lt heB
            refine ⟨hlen.trans hset_len, ?_, ?_, ?_⟩
            · -- occupied entries of mcur persist
              intro q hq
              have hqne : q ≠ q0 := by
                intro hqq; subst hqq; rw [hq0e] at hq; cases hq
              rw [hpers q (by rw [entryAt_set_ne _ _ _ _ hqne]; exact hq),
                entryAt_set_ne _ _ _ _ hqne]
            · -- occupied entries of m' come from mcur or the entry list
              intro q hq
              rcases hocc q hq with h1 | h1
              · by_cases hqq : q = q0
                · subst hqq
                  rw [entryAt_set_self _ _ _ hq0lt] at h1
                  refine Or.inr ?_
                  rw [hpers _ (by rw [entryAt_set_self _ _ _ hq0lt]; exact heB),
                    entryAt_set_self _ _ _ hq0lt]
                  simp
                · rw [entryAt_set_ne _ _ _ _ hqq] at h1
                  exact Or.inl h1
              · exact Or.inr (List.mem_cons_of_mem _ h1)
            · -- every occupied entry of the list is findable in the result
              intro e' he' hocc'
              rcases List.mem_cons.1 he' with rfl | he'
              · refine ⟨q0, ?_, ?_, ?_⟩
                · rw [hlen.trans hset_len]; exact hq0lt
                · rw [hpers q0 (by rw [entryAt_set_self _ _ _ hq0lt]; exact hocc'),
                    entryAt_set_self _ _ _ hq0lt]
                · rw [hlen.trans hset_len]
                  refine FindableIn_mono (mcur.set q0 e') m' _ _ ?_ ?_
                  · intro x hx
                    rw [hpers x hx]; exact hx
                  · exact FindableIn_mono mcur _ _ _ hmono hq0find
              · exact hfind e' he' hocc'

lemma entryAt_oob (m : List MapEntry) (x : Nat) (h : m.length ≤ x) :
    entryAt m x = default :=
  List.getD_eq_default _ _ h

lemma stringAt_insert_lt (σ : Pool) (s : Str) (base : List MapEntry) (q h j : Nat)
    (hj : j < σ.strings.length) :
    stringAt (insertPool σ s base q h) j = stringAt σ j := by
  unfold insertPool stringAt
  exact List.getD_append _ _ _ _ hj

lemma stringAt_insert_self (σ : Pool) (s : Str) (base : List MapEntry) (q h : Nat) :
    stringAt (insertPool σ s base q h) σ.strings.length
      = ⟨σ.pool.length, (σ.pool ++ s).length⟩ := by
  unfold insertPool stringAt
  rw [List.getD_append_right _ _ _ _ (le_refl _)]
  simp

lemma get_insert_old (σ : Pool) (s : Str) (base : List MapEntry) (q h : Nat)
    (r₀ : PoolRef) (hr : r₀.end_ ≤ σ.pool.length) :
    (insertPool σ s base q h).get r₀ = σ.get r₀ := by
  unfold insertPool Pool.get
  exact drop_take_append _ _ _ _ hr

lemma get_insert_new (σ : Pool) (s : Str) (base : List MapEntry) (q h : Nat) :
    (insertPool σ s base q h).get ⟨σ.pool.length, (σ.pool ++ s).length⟩ = s := by
  unfold insertPool Pool.get
  simp

lemma newRef_occupied (σ : Pool) (s : Str) (hs : s ≠ []) :
    (⟨σ.pool.length, (σ.pool ++ s).length⟩ : PoolRef).isEmptyRef = false := by
  have h0 : 0 < s.length := List.length_pos.2 hs
  simp only [PoolRef.isEmptyRef, List.length_append, decide_eq_false_iff_not, not_le]
  omega

/-- The insertion tail of `Pool.put`, done on a table `base` (either the
original map or the regrown map) at an empty, findable slot `q`, preserves
the invariant, associates the new string, and keeps all old
associations. -/
lemma insert_spec (hf : Str → Nat) (σ : Pool) (s : Str) (base : List MapEntry) (q : Nat)
    (hInv : PoolInv hf σ)
    (hs_ne : s ≠ [])
    (hpool : σ.pool.length + s.length < 2 ^ 32 - 1)
    (hstr : σ.strings.length + 1 < 2 ^ 32 - 1)
    (habsent : ∀ j, 1 ≤ j → j < σ.strings.length → σ.get (stringAt σ j) ≠ s)
    (hbase_len : 1024 ≤ base.length)
    (hq : q < base.length)
    (hq_empty : (entryAt base q).r.isEmptyRef = true)
    (hsound : ∀ x, (entryAt base x).r.isEmptyRef = false →
        1 ≤ (entryAt base x).idx ∧ (entryAt base x).idx < σ.strings.length
        ∧ (entryAt base x).r = stringAt σ (entryAt base x).idx
        ∧ (entryAt base x).hash = hf (σ.get (entryAt base x).r))
    (hfind : ∀ j, 1 ≤ j → j < σ.strings.length →
        ∃ p, p < base.length
          ∧ entryAt base p = ⟨stringAt σ j, hf (σ.get (stringAt σ j)), j⟩
          ∧ FindableIn base (probeList base.length (hf (σ.get (stringAt σ j)))) p)
    (hq_find : FindableIn base (probeList base.length (hf s)) q) :
    PoolInv hf (insertPool σ s base q (hf s))
    ∧ PoolContains (insertPool σ s base q (hf s)) s
        ⟨σ.pool.length, (σ.pool ++ s).length⟩ σ.strings.length
    ∧ ∀ s₀ r₀ i₀, PoolContains σ s₀ r₀ i₀ →
        PoolContains (insertPool σ s base q (hf s)) s₀ r₀ i₀ := by
  have hL1 : 1 ≤ σ.strings.length := List.length_pos.2 hInv.strings_ne
  have hsl : 0 < s.length := List.length_pos.2 hs_ne
  set r : PoolRef := ⟨σ.pool.length, (σ.pool ++ s).length⟩ with hr_def
  set σ' : Pool := insertPool σ s base q (hf s) with hinsdef
  have hrocc : r.isEmptyRef = false := newRef_occupied σ s hs_ne
  have hlen' : σ'.strings.length = σ.strings.length + 1 := by
    simp [hinsdef, insertPool]
  have hmap' : σ'.map = base.set q ⟨r, hf s, σ.strings.length⟩ := rfl
  have hmaplen' : σ'.map.length = base.length := by simp [hinsdef, insertPool]
  have hpoollen' : σ'.pool.length = σ.pool.length + s.length := by
    simp [hinsdef, insertPool]
  have hmono : ∀ x, (entryAt base x).r.isEmptyRef = false →
      (entryAt σ'.map x).r.isEmptyRef = false := by
    rw [hmap']
    exact occupied_set base q _ hq hrocc
  have hstrAt : ∀ j, j < σ.strings.length → stringAt σ' j = stringAt σ j :=
    fun j hj => stringAt_insert_lt σ s base q (hf s) j hj
  have hstrSelf : stringAt σ' σ.strings.length = r :=
    stringAt_insert_self σ s base q (hf s)
  have hget_old : ∀ j, 1 ≤ j → j < σ.strings.length →
      σ'.get (stringAt σ j) = σ.get (stringAt σ j) := by
    intro j h1 h2
    exact get_insert_old σ s base q (hf s) _ (hInv.ref_ok j h1 h2).2
  have hget_new : σ'.get r = s := get_insert_new σ s base q (hf s)
  have hsound' : ∀ x, x ≠ q → (entryAt σ'.map x).r.isEmptyRef = false →
      entryAt σ'.map x = entryAt base x := by
    intro x hxq _
    rw [hmap', entryAt_set_ne _ _ _ _ hxq]
  have hatq : entryAt σ'.map q = ⟨r, hf s, σ.strings.length⟩ := by
    rw [hmap', entryAt_set_self _ _ _ hq]
  refine ⟨⟨?_, ?_, ?_, ?_, ?_, ?_, ?_, ?_, ?_⟩, ⟨hL1, by omega, hstrSelf, hget_new⟩, ?_⟩
  · -- strings_ne
    simp [hinsdef, insertPool]
  · -- strings_zero
    rw [hstrAt 0 (by omega)]
    exact hInv.strings_zero
  · -- map_big
    rw [hmaplen']; exact hbase_len
  · -- pool_bound
    rw [hpoollen']; exact hpool
  · -- strings_bound
    rw [hlen']; exact hstr
  · -- ref_ok
    intro j h1 h2
    rw [hlen'] at h2
    rcases Nat.lt_or_ge j σ.strings.length with hj | hj
    · rw [hstrAt j hj]
      have := hInv.ref_ok j h1 hj
      rw [hpoollen']
      omega
    · have hjL : j = σ.strings.length := by omega
      subst hjL
      rw [hstrSelf, hpoollen']
      simp only [hr_def, List.length_append]
      omega
  · -- distinct
    intro j j' h1 h2 h1' h2' hne
    rw [hlen'] at h2 h2'
    rcases Nat.lt_or_ge j σ.strings.length with hj | hj <;>
      rcases Nat.lt_or_ge j' σ.strings.length with hj' | hj'
    · rw [hstrAt j hj, hstrAt j' hj', hget_old j h1 hj, hget_old j' h1' hj']
      exact hInv.distinct j j' h1 hj h1' hj' hne
    · have hj'L : j' = σ.strings.length := by omega
      subst hj'L
      rw [hstrAt j hj, hstrSelf, hget_old j h1 hj, hget_new]
      exact habsent j h1 hj
    · have hjL : j = σ.strings.length := by omega
      subst hjL
      rw [hstrAt j' hj', hstrSelf, hget_old j' h1' hj', hget_new]
      exact fun hh => habsent j' h1' hj' hh.symm
    · omega
  · -- entries_sound
    intro x hxlt hxocc
    by_cases hxq : x = q
    · subst hxq
      rw [hatq] at hxocc ⊢
      refine ⟨hL1, by rw [hlen']; exact Nat.lt_succ_self _, hstrSelf.symm, ?_⟩
      show hf s = hf (σ'.get r)
      rw [hget_new]
    · have heq := hsound' x hxq hxocc
      rw [heq] at hxocc ⊢
      obtain ⟨a, b, c, d⟩ := hsound x hxocc
      refine ⟨a, by rw [hlen']; omega, ?_, ?_⟩
      · rw [hstrAt _ b]; exact c
      · rw [d, c, hget_old _ a b, ← c]
  · -- findable
    intro j h1 h2
    rw [hlen'] at h2
    rcases Nat.lt_or_ge j σ.strings.length with hj | hj
    · obtain ⟨p, hplt, hpe, hpfind⟩ := hfind j h1 hj
      have hpocc : (entryAt base p).r.isEmptyRef = false := by
        rw [hpe]
        exact stringAt_isEmptyRef_false hf σ hInv j h1 hj
      have hpq : p ≠ q := by
        intro hpq; subst hpq
        rw [hq_empty] at hpocc; cases hpocc
      refine ⟨p, by rw [hmaplen']; exact hplt, ?_, ?_⟩
      · rw [hsound' p hpq (hmono p hpocc), hpe, hstrAt j hj, hget_old j h1 hj]
      · rw [hstrAt j hj, hget_old j h1 hj, hmaplen']
        exact FindableIn_mono base σ'.map _ _ hmono hpfind
    · have hjL : j = σ.strings.length := by omega
      subst hjL
      refine ⟨q, by rw [hmaplen']; exact hq, ?_, ?_⟩
      · rw [hatq, hstrSelf, hget_new]
      · rw [hstrSelf, hget_new, hmaplen']
        exact FindableIn_mono base σ'.map _ _ hmono hq_find
  · -- preservation of existing associations
    intro s₀ r₀ i₀ ⟨a, b, c, d⟩
    refine ⟨a, by omega, by rw [hstrAt i₀ b]; exact c, ?_⟩
    rw [← c] at d ⊢
    rw [hget_old i₀ a b]
    exact d

lemma entryAt_mem (m : List MapEntry) (k : Nat) (hk : k < m.length) :
    entryAt m k ∈ m := by
  unfold entryAt
  rw [List.getD_eq_getElem _ _ hk]
  exact List.getElem_mem _

lemma mem_entry (m : List MapEntry) (e : MapEntry) (he : e ∈ m) :
    ∃ k, k < m.length ∧ entryAt m k = e := by
  obtain ⟨k, hk, hke⟩ := List.mem_iff_getElem.1 he
  exact ⟨k, hk, by unfold entryAt; rw [List.getD_eq_getElem _ _ hk]; exact hke⟩

lemma makeMap_length (n : Nat) : (makeMap n).length = n := by
  unfold makeMap; simp

/-- If the probe loop did not return an entry, the string is absent from
the pool. -/
lemma absent_of_not_hit (hf : Str → Nat) (σ : Pool) (s : Str) (hInv : PoolInv hf σ)
    (hnohit : ∀ r0 i0,
      lookupIn σ (hf s) s (probeList σ.map.length (hf s)) ≠ .hit r0 i0) :
    ∀ j, 1 ≤ j → j < σ.strings.length → σ.get (stringAt σ j) ≠ s := by
  intro j h1 h2 heq
  obtain ⟨q, hqlt, hqe, pre, post, hP, hpre⟩ := hInv.findable j h1 h2
  rw [heq] at hqe hP
  refine hnohit (stringAt σ j) j ?_
  rw [hP]
  refine lookupIn_hit_of_contains hf σ hInv j s h1 h2 heq pre post q ?_ hqe
  intro x hx
  have hxP : x ∈ probeList σ.map.length (hf s) := by
    rw [hP]; exact List.mem_append_left _ hx
  exact ⟨probeList_lt _ _ (by have := hInv.map_big; omega) x hxP, hpre x hx⟩

/-- Soundness and findability facts about the original map, in the
position-free form `insert_spec` consumes. -/
lemma own_base_facts (hf : Str → Nat) (σ : Pool) (hInv : PoolInv hf σ) :
    (∀ x, (entryAt σ.map x).r.isEmptyRef = false →
        1 ≤ (entryAt σ.map x).idx ∧ (entryAt σ.map x).idx < σ.strings.length
        ∧ (entryAt σ.map x).r = stringAt σ (entryAt σ.map x).idx
        ∧ (entryAt σ.map x).hash = hf (σ.get (entryAt σ.map x).r))
    ∧ (∀ j, 1 ≤ j → j < σ.strings.length →
        ∃ p, p < σ.map.length
          ∧ entryAt σ.map p = ⟨stringAt σ j, hf (σ.get (stringAt σ j)), j⟩
          ∧ FindableIn σ.map (probeList σ.map.length (hf (σ.get (stringAt σ j)))) p) := by
  constructor
  · intro x hx
    rcases Nat.lt_or_ge x σ.map.length with hlt | hge
    · exact hInv.entries_sound x hlt hx
    · rw [entryAt_oob _ _ hge] at hx
      cases hx
  · exact hInv.findable

/-- The regrown map keeps soundness and findability of all interned
strings. -/
lemma grow_base_facts (hf : Str → Nat) (σ : Pool) (m₂ : List MapEntry)
    (hInv : PoolInv hf σ)
    (hre : rehashFold (makeMap (σ.map.length / 8 * 11)) σ.map = some m₂) :
    1024 ≤ m₂.length
    ∧ (∀ x, (entryAt m₂ x).r.isEmptyRef = false →
        1 ≤ (entryAt m₂ x).idx ∧ (entryAt m₂ x).idx < σ.strings.length
        ∧ (entryAt m₂ x).r = stringAt σ (entryAt m₂ x).idx
        ∧ (entryAt m₂ x).hash = hf (σ.get (entryAt m₂ x).r))
    ∧ (∀ j, 1 ≤ j → j < σ.strings.length →
        ∃ p, p < m₂.length
          ∧ entryAt m₂ p = ⟨stringAt σ j, hf (σ.get (stringAt σ j)), j⟩
          ∧ FindableIn m₂ (probeList m₂.length (hf (σ.get (stringAt σ j)))) p) := by
  obtain ⟨hlen, _, hocc, hfind⟩ := rehashFold_spec σ.map _ m₂ hre
  have hm₂len : m₂.length = σ.map.length / 8 * 11 := by
    rw [hlen, makeMap_length]
  have hsound := (own_base_facts hf σ hInv).1
  refine ⟨?_, ?_, ?_⟩
  · have := hInv.map_big
    rw [hm₂len]
    omega
  · intro x hx
    rcases hocc x hx with hold | hmem
    · rw [entryAt_makeMap] at hold
      cases hold
    · obtain ⟨k, hk, hke⟩ := mem_entry σ.map _ hmem
      have := hsound k (by rw [hke]; exact hx)
      rw [hke] at this
      exact this
  · intro j h1 h2
    obtain ⟨p, hplt, hpe, _⟩ := hInv.findable j h1 h2
    have hmemE : (⟨stringAt σ j, hf (σ.get (stringAt σ j)), j⟩ : MapEntry) ∈ σ.map := by
      rw [← hpe]; exact entryAt_mem _ _ hplt
    have hoccE : (⟨stringAt σ j, hf (σ.get (stringAt σ j)), j⟩ : MapEntry).r.isEmptyRef
        = false := stringAt_isEmptyRef_false hf σ hInv j h1 h2
    obtain ⟨p', hp'lt, hp'e, hp'find⟩ := hfind _ hmemE hoccE
    exact ⟨p', hp'lt, hp'e, hp'find⟩

/-- Full behaviour of a successful `Pool.put`: the invariant is preserved,
all previous associations survive, and the result is the (possibly
pre-existing) association of `s`. -/
lemma put_ok_spec (hf : Str → Nat) (σ : Pool) (s : Str) (r : PoolRef) (i : Nat)
    (σ' : Pool) (hInv : PoolInv hf σ) (h : Pool.put hf σ s = .ok r i σ') :
    PoolInv hf σ'
    ∧ (∀ s₀ r₀ i₀, PoolContains σ s₀ r₀ i₀ → PoolContains σ' s₀ r₀ i₀)
    ∧ ((s = [] ∧ r = ⟨0, 0⟩ ∧ i = 0 ∧ σ' = σ) ∨ PoolContains σ' s r i) := by
  unfold Pool.put at h
  by_cases hlen : 2 ^ 32 - 1 ≤ s.length
  · rw [if_pos hlen] at h; cases h
  rw [if_neg hlen] at h
  by_cases hnil : s = []
  · rw [if_pos hnil] at h
    cases h
    exact ⟨hInv, fun _ _ _ hx => hx, Or.inl ⟨hnil, rfl, rfl, rfl⟩⟩
  rw [if_neg hnil] at h
  cases hlook : lookupIn σ (hf s) s (probeList σ.map.length (hf s)) with
  | hit r0 i0 =>
      simp only [hlook] at h
      obtain ⟨rfl, rfl, rfl⟩ := h
      obtain ⟨q, hqP, hqocc, hqr, hqi, hqh, hqs⟩ :=
        lookupIn_hit_sound σ (hf s) s _ _ _ hlook
      have hqlt : q < σ.map.length :=
        probeList_lt _ _ (by have := hInv.map_big; omega) q hqP
      obtain ⟨a, b, c, d⟩ := hInv.entries_sound q hqlt hqocc
      refine ⟨hInv, fun _ _ _ hx => hx, Or.inr ⟨?_, ?_, ?_, hqs⟩⟩
      · rw [← hqi]; exact a
      · rw [← hqi]; exact b
      · rw [← hqi, ← hqr]; exact c.symm
  | firstEmpty q0 =>
      simp only [hlook] at h
      have habsent := absent_of_not_hit hf σ s hInv
        (fun r0 i0 hc => by rw [hlook] at hc; cases hc)
      by_cases hov : 2 ^ 32 - 1 - σ.pool.length ≤ s.length
          ∨ 2 ^ 32 - 1 - 1 ≤ σ.strings.length
      · rw [if_pos hov] at h; cases h
      rw [if_neg hov] at h
      have hpool : σ.pool.length + s.length < 2 ^ 32 - 1 := by
        have := hInv.pool_bound; omega
      have hstr : σ.strings.length + 1 < 2 ^ 32 - 1 := by omega
      obtain ⟨pre, post, hP, hpre, hq0e⟩ :=
        lookupIn_firstEmpty_decomp σ (hf s) s _ q0 hlook
      have hq0P : q0 ∈ probeList σ.map.length (hf s) := by rw [hP]; simp
      have hq0lt : q0 < σ.map.length :=
        probeList_lt _ _ (by have := hInv.map_big; omega) q0 hq0P
      have hq0find : FindableIn σ.map (probeList σ.map.length (hf s)) q0 :=
        ⟨pre, post, hP, hpre⟩
      by_cases hgrow : σ.map.length / 8 * 5 ≤ σ.strings.length
      · -- occupancy-triggered growth
        rw [if_pos (Or.inr hgrow)] at h
        cases hre : rehashFold (makeMap (σ.map.length / 8 * 11)) σ.map with
        | none => simp only [hre] at h; cases h
        | some m₂ =>
            simp only [hre] at h
            cases hpe : probeFirstEmpty m₂ m₂.length (hf s) with
            | none => simp only [hpe] at h; cases h
            | some q =>
                simp only [hpe] at h
                obtain ⟨rfl, rfl, rfl⟩ := h
                obtain ⟨hq1, hq2, hq3⟩ := probeFirstEmpty_spec _ _ _ _ hpe
                obtain ⟨hblen, hbsound, hbfind⟩ := grow_base_facts hf σ m₂ hInv hre
                obtain ⟨hi1, hi2, hi3⟩ := insert_spec hf σ s m₂ q hInv hnil hpool hstr
                  habsent hblen hq1 hq2 hbsound hbfind hq3
                exact ⟨hi1, hi3, Or.inr hi2⟩
      · -- no growth: insert at the first empty probe slot
        rw [if_neg (by simpa using hgrow)] at h
        obtain ⟨rfl, rfl, rfl⟩ := h
        obtain ⟨hbsound, hbfind⟩ := own_base_facts hf σ hInv
        obtain ⟨hi1, hi2, hi3⟩ := insert_spec hf σ s σ.map q0 hInv hnil hpool hstr
          habsent hInv.map_big hq0lt hq0e hbsound hbfind hq0find
        exact ⟨hi1, hi3, Or.inr hi2⟩
  | exhausted =>
      simp only [hlook] at h
      have habsent := absent_of_not_hit hf σ s hInv
        (fun r0 i0 hc => by rw [hlook] at hc; cases hc)
      by_cases hov : 2 ^ 32 - 1 - σ.pool.length ≤ s.length
          ∨ 2 ^ 32 - 1 - 1 ≤ σ.strings.length
      · rw [if_pos hov] at h; cases h
      rw [if_neg hov] at h
      have hpool : σ.pool.length + s.length < 2 ^ 32 - 1 := by
        have := hInv.pool_bound; omega
      have hstr : σ.strings.length + 1 < 2 ^ 32 - 1 := by omega
      cases hre : rehashFold (makeMap (σ.map.length / 8 * 11)) σ.map with
      | none => simp only [hre] at h; cases h
      | some m₂ =>
          simp only [hre] at h
          cases hpe : probeFirstEmpty m₂ m₂.length (hf s) with
          | none => simp only [hpe] at h; cases h
          | some q =>
              simp only [hpe] at h
              obtain ⟨rfl, rfl, rfl⟩ := h
              obtain ⟨hq1, hq2, hq3⟩ := probeFirstEmpty_spec _ _ _ _ hpe
              obtain ⟨hblen, hbsound, hbfind⟩ := grow_base_facts hf σ m₂ hInv hre
              obtain ⟨hi1, hi2, hi3⟩ := insert_spec hf σ s m₂ q hInv hnil hpool hstr
                habsent hblen hq1 hq2 hbsound hbfind hq3
              exact ⟨hi1, hi3, Or.inr hi2⟩

lemma put_error_id (hf : Str → Nat) (σ : Pool) (s : Str) (σ'' : Pool)
    (h : Pool.put hf σ s = .error σ'') : σ'' = σ := by
  unfold Pool.put at h
  by_cases hlen : 2 ^ 32 - 1 ≤ s.length
  · rw [if_pos hlen] at h; cases h; rfl
  rw [if_neg hlen] at h
  by_cases hnil : s = []
  · rw [if_pos hnil] at h; cases h
  rw [if_neg hnil] at h
  cases hlook : lookupIn σ (hf s) s (probeList σ.map.length (hf s)) with
  | hit r0 i0 => simp only [hlook] at h; cases h
  | firstEmpty q0 =>
      simp only [hlook] at h
      by_cases hov : 2 ^ 32 - 1 - σ.pool.length ≤ s.length
          ∨ 2 ^ 32 - 1 - 1 ≤ σ.strings.length
      · rw [if_pos hov] at h; cases h; rfl
      rw [if_neg hov] at h
      by_cases hgrow : σ.map.length / 8 * 5 ≤ σ.strings.length
      · rw [if_pos (Or.inr hgrow)] at h
        cases hre : rehashFold (makeMap (σ.map.length / 8 * 11)) σ.map with
        | none => simp only [hre] at h; cases h
        | some m₂ =>
            simp only [hre] at h
            cases hpe : probeFirstEmpty m₂ m₂.length (hf s) with
            | none => simp only [hpe] at h; cases h
            | some q => simp only [hpe] at h; cases h
      · rw [if_neg (by simpa using hgrow)] at h
        cases h
  | exhausted =>
      simp only [hlook] at h
      by_cases hov : 2 ^ 32 - 1 - σ.pool.length ≤ s.length
          ∨ 2 ^ 32 - 1 - 1 ≤ σ.strings.length
      · rw [if_pos hov] at h; cases h; rfl
      rw [if_neg hov] at h
      cases hre : rehashFold (makeMap (σ.map.length / 8 * 11)) σ.map with
      | none => simp only [hre] at h; cases h
      | some m₂ =>
          simp only [hre] at h
          cases hpe : probeFirstEmpty m₂ m₂.length (hf s) with
          | none => simp only [hpe] at h; cases h
          | some q => simp only [hpe] at h; cases h

lemma putMany_preserve (hf : Str → Nat) :
    ∀ (ts : List Str) (σ σ'' : Pool),
      PoolInv hf σ → putMany hf σ ts = some σ'' →
      PoolInv hf σ''
      ∧ ∀ s₀ r₀ i₀, PoolContains σ s₀ r₀ i₀ → PoolContains σ'' s₀ r₀ i₀ := by
  intro ts
  induction ts with
  | nil =>
      intro σ σ'' hInv h
      rw [putMany] at h
      cases h
      exact ⟨hInv, fun _ _ _ hx => hx⟩
  | cons t ts ih =>
      intro σ σ'' hInv h
      rw [putMany] at h
      cases hp : Pool.put hf σ t with
      | panic => rw [hp] at h; cases h
      | error σ₁ =>
          rw [hp] at h
          have hid := put_error_id hf σ t σ₁ hp
          subst hid
          exact ih _ σ'' hInv h
      | ok r₁ i₁ σ₁ =>
          rw [hp] at h
          obtain ⟨hInv₁, hpres, _⟩ := put_ok_spec hf σ t r₁ i₁ σ₁ hInv hp
          obtain ⟨hInv₂, hpres₂⟩ := ih σ₁ σ'' hInv₁ h
          exact ⟨hInv₂, fun s₀ r₀ i₀ hc => hpres₂ _ _ _ (hpres _ _ _ hc)⟩

lemma poolInv_new (hf : Str → Nat) : PoolInv hf Pool.new := by
  refine ⟨?_, ?_, ?_, ?_, ?_, ?_, ?_, ?_, ?_⟩
  · simp [Pool.new]
  · rfl
  · rw [show Pool.new.map = makeMap 1024 from rfl, makeMap_length]
  · norm_num [Pool.new]
  · norm_num [Pool.new]
  · intro j h1 h2
    simp [Pool.new] at h2
    omega
  · intro j j' h1 h2 h3 h4 h5
    simp [Pool.new] at h2
    omega
  · intro q hq hocc
    rw [show Pool.new.map = makeMap 1024 from rfl, entryAt_makeMap] at hocc
    cases hocc
  · intro j h1 h2
    simp [Pool.new] at h2
    omega

lemma handleStdoutRest_event_isTest (st : RunDeqpState) (now : Nat) (l : Str) :
    ∀ ev ∈ (handleStdoutRest st now l).2, ev.isTest = true := by
  intro ev hev
  unfold handleStdoutRest at hev
  cases h : (stripLead testMarker l).orElse
      (fun _ => (stripLead testCasePre l).bind (stripTrail testCaseSuf)) with
  | none =>
      rw [h] at hev
      split at hev
      · simp_all
      · split at hev <;> simp at hev
  | some name =>
      rw [h] at hev
      simp only [Option.mem_def, Option.map_eq_some'] at hev
      obtain ⟨p, hp, rfl⟩ := hev
      rfl

lemma handleStdoutLine_event_isTest (st : RunDeqpState) (now : Nat) (l : LineResult) :
    ∀ ev ∈ (handleStdoutLine st now l).2, ev.isTest = true := by
  intro ev hev
  match l with
  | .error e => simp [handleStdoutLine] at hev
  | .ok none => simp [handleStdoutLine] at hev
  | .ok (some l) =>
      by_cases hd : st.tests_done
      · simp [handleStdoutLine, hd] at hev
      · rw [Bool.not_eq_true] at hd
        cases h1 : stripLead twoSpaces l with
        | none =>
            simp only [handleStdoutLine, hd, Bool.false_eq_true, if_false, h1] at hev
            exact handleStdoutRest_event_isTest st now l ev hev
        | some r0 =>
            cases h2 : findVariant r0 with
            | none =>
                simp only [handleStdoutLine, hd, Bool.false_eq_true, if_false, h1, h2] at hev
                exact handleStdoutRest_event_isTest st now l ev hev
            | some p =>
                obtain ⟨res, rest⟩ := p
                cases h3 : st.current_test with
                | none =>
                    simp [handleStdoutLine, hd, h1, h2, h3, handleStdoutError] at hev
                | some q =>
                    obtain ⟨nm, stt⟩ := q
                    simp [handleStdoutLine, hd, h1, h2, h3] at hev
                    subst hev
                    simp [DeqpEvent.isTest]

lemma stepSelect_event_isTest (st : RunDeqpState) (e : SelectEvent)
    (st' : RunDeqpState) (ev : DeqpEvent)
    (h : stepSelect st e = some (st', some ev)) : ev.isTest = true := by
  cases e with
  | stdoutLine now l =>
      have hall := handleStdoutLine_event_isTest st now l ev
      simp only [stepSelect, Option.some_inj] at h
      rw [h] at hall
      exact hall (by simp)
  | stderrLine l => simp [stepSelect] at h
  | childExit r =>
      cases r with
      | ok s =>
          by_cases hs : s.success <;> simp [stepSelect, hs] at h
      | error e => simp [stepSelect] at h
  | timeout =>
      by_cases hc : st.child <;> simp [stepSelect, hc] at h

lemma loopExit_kind (st : RunDeqpState) (n : Nat) :
    (loopExit st n).2.isTest = true ∨ (loopExit st n).2.isFinishedEv = true := by
  cases h : st.current_test with
  | none => right; simp [loopExit, h, DeqpEvent.isFinishedEv]
  | some p => left; obtain ⟨a, b⟩ := p; simp [loopExit, h, DeqpEvent.isTest]

lemma runNext_loopExit (st : RunDeqpState) (evs : List SelectEvent) (n : Nat)
    (hl : ¬loopCond st = true) :
    runNext st evs n = .event (loopExit st n).1 (loopExit st n).2 evs := by
  obtain ⟨evs0⟩ : Nonempty (List SelectEvent) := ⟨[]⟩
  cases evs with
  | nil =>
      unfold runNext
      rw [if_neg hl]
  | cons ev evs =>
      unfold runNext
      rw [if_neg hl]

lemma runNext_cons (st : RunDeqpState) (ev : SelectEvent) (evs : List SelectEvent)
    (n : Nat) (hl : loopCond st = true) :
    runNext st (ev :: evs) n =
      if canFire st ev = true then
        match stepSelect st ev with
        | none => NextOutcome.panic
        | some (st₁, some ev₁) => NextOutcome.event st₁ ev₁ evs
        | some (st₁, none) => runNext st₁ evs n
      else runNext st evs n := by
  conv_lhs => rw [runNext]
  rw [if_pos hl]

lemma runNext_nil (st : RunDeqpState) (n : Nat) (hl : loopCond st = true) :
    runNext st [] n = .stuck st := by
  unfold runNext
  rw [if_pos hl]

lemma runNext_event_kind :
    ∀ (evs : List SelectEvent) (st : RunDeqpState) (n : Nat) (st' : RunDeqpState)
      (e : DeqpEvent) (rest : List SelectEvent),
      runNext st evs n = .event st' e rest → e.isTest = true ∨ e.isFinishedEv = true := by
  intro evs
  induction evs with
  | nil =>
      intro st n st' e rest h
      by_cases hl : loopCond st = true
      · rw [runNext_nil st n hl] at h
        exact absurd h (by simp)
      · rw [runNext_loopExit st [] n hl] at h
        injection h with h1 h2 h3
        subst h2
        exact loopExit_kind st n
  | cons ev evs ih =>
      intro st n st' e rest h
      by_cases hl : loopCond st = true
      · rw [runNext_cons st ev evs n hl] at h
        by_cases hc : canFire st ev = true
        · rw [if_pos hc] at h
          cases hs : stepSelect st ev with
          | none => rw [hs] at h; exact absurd h (by simp)
          | some p =>
              obtain ⟨st₁, oev⟩ := p
              cases oev with
              | none => rw [hs] at h; exact ih st₁ n st' e rest h
              | some ev₁ =>
                  rw [hs] at h
                  injection h with h1 h2 h3
                  subst h2
                  exact Or.inl (stepSelect_event_isTest st ev st₁ ev₁ hs)
        · rw [if_neg hc] at h
          exact ih st n st' e rest h
      · rw [runNext_loopExit st (ev :: evs) n hl] at h
        injection h with h1 h2 h3
        subst h2
        exact loopExit_kind st n

lemma runStream_shape :
    ∀ (fuel : Nat) (st : RunDeqpState) (evs : List SelectEvent) (n : Nat)
      (l : List DeqpEvent),
      runStream fuel st evs n = some l →
      l ≠ []
      ∧ (∀ e ∈ l.dropLast, e.isTest = true)
      ∧ l.getLast?.map DeqpEvent.isFinishedEv = some true
      ∧ l.countP (fun e => e.isLaunch) = 0
      ∧ l.countP (fun e => e.isFinishedEv) = 1 := by
  intro fuel
  induction fuel with
  | zero =>
      intro st evs n l h
      simp [runStream] at h
  | succ fuel ih =>
      intro st evs n l h
      unfold runStream at h
      cases hn : runNext st evs n with
      | panic => rw [hn] at h; exact absurd h (by simp)
      | stuck s => rw [hn] at h; exact absurd h (by simp)
      | event st' e rest =>
          rw [hn] at h
          cases e with
          | Launch pid =>
              rcases runNext_event_kind evs st n st' (.Launch pid) rest hn with hk | hk <;>
                simp [DeqpEvent.isTest, DeqpEvent.isFinishedEv] at hk
          | Finished err so se =>
              simp only [Option.some_inj] at h
              subst h
              refine ⟨by simp, by simp, by simp [DeqpEvent.isFinishedEv], ?_, ?_⟩
              · simp [List.countP_cons, DeqpEvent.isLaunch]
              · simp [List.countP_cons, DeqpEvent.isFinishedEv]
          | Test name start dur res =>
              simp only [Option.map_eq_some'] at h
              obtain ⟨l', hl', rfl⟩ := h
              obtain ⟨hne, hmid, hlast, hcl, hcf⟩ := ih st' rest n l' hl'
              obtain ⟨b, l'', rfl⟩ : ∃ b l'', l' = b :: l'' := by
                cases l' with
                | nil => exact absurd rfl hne
                | cons b t => exact ⟨b, t, rfl⟩
              refine ⟨by simp, ?_, ?_, ?_, ?_⟩
              · intro e he
                rw [List.dropLast_cons₂] at he
                rcases List.mem_cons.1 he with rfl | he
                · rfl
                · exact hmid e he
              · rwa [List.getLast?_cons_cons]
              · simp only [List.countP_cons, DeqpEvent.isLaunch] at hcl ⊢
                simpa using hcl
              · simp only [List.countP_cons, DeqpEvent.isFinishedEv] at hcf ⊢
                simpa using hcf

/-- C9: every stream produced by `run_deqp` after a successful spawn (for
any event interleaving and any fuel that lets the loop finish) starts with
exactly one `Launch`, ends with exactly one `Finished`, and every event
strictly between them is a `Test` event; `Test` events are emitted in the
order the interleaving delivers the child's result lines. -/
theorem claim_C9 (pid : Nat) (st : RunDeqpState) (fuel : Nat)
    (evs : List SelectEvent) (exitNow : Nat) (out : List DeqpEvent)
    (h : runDeqpGen (.ok (pid, st)) fuel evs exitNow = some out) :
    out.head? = some (.Launch pid)
    ∧ (∀ e ∈ out.tail.dropLast, e.isTest = true)
    ∧ out.getLast?.map DeqpEvent.isFinishedEv = some true
    ∧ out.countP (fun e => e.isLaunch) = 1
    ∧ out.countP (fun e => e.isFinishedEv) = 1 := by
  simp only [runDeqpGen, Option.map_eq_some'] at h
  obtain ⟨l, hl, rfl⟩ := h
  obtain ⟨hne, hmid, hlast, hcl, hcf⟩ := runStream_shape fuel st evs exitNow l hl
  obtain ⟨b, l'', rfl⟩ : ∃ b l'', l = b :: l'' := by
    cases l with
    | nil => exact absurd rfl hne
    | cons b t => exact ⟨b, t, rfl⟩
  refine ⟨rfl, by simpa using hmid, ?_, ?_, ?_⟩
  · rwa [List.getLast?_cons_cons]
  · simp only [List.countP_cons, DeqpEvent.isLaunch] at hcl ⊢
    simpa using hcl
  · simp only [List.countP_cons, DeqpEvent.isFinishedEv] at hcf ⊢
    simpa using hcf

set_option maxHeartbeats 1000000 in
/-- C9, witness: the concrete interleaving `evsC9` (one passing test, then
`DONE!`, reader end-of-stream, clean exit) produces exactly
`[Launch, Test, Finished]`. -/
theorem claim_C9_witness :
    outC9.head? = some (.Launch 42)
    ∧ (∀ e ∈ outC9.tail.dropLast, e.isTest = true)
    ∧ outC9.getLast?.map DeqpEvent.isFinishedEv = some true
    ∧ outC9.countP (fun e => e.isLaunch) = 1
    ∧ outC9.countP (fun e => e.isFinishedEv) = 1 :=
  claim_C9 42 initialRunDeqpState 5 evsC9 9 outC9 (by decide)

/-- C4: evaluation of the two timeout scenarios.  First conjunct: when the
timeout fires while the child handle is still present (the child may be
crashing concurrently; a `DeqpFatalError` cause is already latched), the
cause is overwritten by `Timeout` and the stream ends with
`Finished { error = Timeout }`.  Second conjunct (the failing input): when
the child's non-zero exit was already reaped — the only way a `Crash` cause
can be latched — a subsequent timeout firing panics on
`self.child.take().unwrap()` instead of latching `Timeout`; no `Finished`
event is produced at all, contradicting the claim. -/
theorem claim_C4 :
    runStream 2 stC4race [.timeout] 9 = some [.Finished (some .Timeout) [] []]
    ∧ runStream 2 stC4reaped [.timeout] 9 = none :=
  ⟨rfl, rfl⟩

/-- C6: evaluation at the failing input.  With the child already exited
(handle cleared by the exit arm, which latched `Crash{137}`) and the stderr
reader still draining, the select loop is still running; when the timeout
fires, `RunDeqpState::next` panics on `self.child.take().unwrap()`. -/
theorem claim_C6 : runNext stC6 [.timeout] 0 = .panic := rfl

/-- C10: a stdout result line (two spaces followed by a known variant
token) arriving while no test is open produces no `Test` event; the stdout
reader is dropped and a `ParseError` cause is latched if none is latched
yet; and once the loop exits with that cause still latched, the `Finished`
event reports `error = ParseError`. -/
theorem claim_C10 (st : RunDeqpState) (now : Nat) (l r rest0 : Str)
    (v : TestResultType)
    (hdone : st.tests_done = false)
    (hopen : st.current_test = none)
    (hsp : stripLead twoSpaces l = some r)
    (hv : findVariant r = some (v, rest0)) :
    handleStdoutLine st now (.ok (some l)) =
      ({ st with
          stdout := st.stdout ++ l ++ ['\n']
          stdout_reader := false
          crash := if st.crash.isNone then some .ParseError else st.crash }, none)
    ∧ ∀ (s₂ : RunDeqpState) (evs : List SelectEvent) (exitNow : Nat),
        loopCond s₂ = false → s₂.current_test = none →
        s₂.crash = some .ParseError →
        runNext s₂ evs exitNow =
          .event { s₂ with crash := none, stdout := [], stderr := [] }
            (.Finished (some .ParseError) s₂.stdout s₂.stderr) evs := by
  constructor
  · simp [handleStdoutLine, handleStdoutError, hdone, hopen, hsp, hv]
  · intro s₂ evs exitNow h1 h2 h3
    unfold runNext
    rw [h1]
    simp [loopExit, h2, h3]

/-- C10, witness: the result line `"  Fail"` at state `stC10` (no open
test, no latched cause), and the loop exit at state `stC10b`. -/
theorem claim_C10_witness :
    handleStdoutLine stC10 3 (.ok (some ("  Fail".toList))) =
      ({ stC10 with
          stdout := "  Fail\n".toList
          stdout_reader := false
          crash := some .ParseError }, none)
    ∧ runNext stC10b [] 7 =
        .event { stC10b with crash := none, stdout := [], stderr := [] }
          (.Finished (some .ParseError) ("x\n".toList) []) [] :=
  ⟨(claim_C10 stC10 3 ("  Fail".toList) ("Fail".toList) [] .Fail
      rfl rfl rfl rfl).1,
   (claim_C10 stC10 3 ("  Fail".toList) ("Fail".toList) [] .Fail
      rfl rfl rfl rfl).2 stC10b [] 7 rfl rfl rfl⟩

/-- C7: once `put(s)` has returned `(r, i)` on a reachable pool, every
later `put(s)` — after arbitrarily many intervening insertions of other
strings, including ones that grow the hash table — returns exactly the same
`(r, i)` without modifying the pool; and `put("")` always returns the empty
ref and index 0 on any pool. -/
theorem claim_C7 (hf : Str → Nat) (σ : Pool) (s : Str) (r : PoolRef) (i : Nat)
    (σ' σ'' : Pool) (ts : List Str)
    (hInv : PoolInv hf σ)
    (h1 : Pool.put hf σ s = .ok r i σ')
    (h2 : putMany hf σ' ts = some σ'') :
    Pool.put hf σ'' s = .ok r i σ''
    ∧ ∀ σp : Pool, Pool.put hf σp [] = .ok ⟨0, 0⟩ 0 σp := by
  have hempty : ∀ σp : Pool, Pool.put hf σp [] = .ok ⟨0, 0⟩ 0 σp := by
    intro σp
    unfold Pool.put
    rw [if_neg (by norm_num), if_pos rfl]
  obtain ⟨hInv', _, hdisj⟩ := put_ok_spec hf σ s r i σ' hInv h1
  obtain ⟨hInv'', hpres⟩ := putMany_preserve hf ts σ' σ'' hInv' h2
  rcases hdisj with ⟨rfl, rfl, rfl, rfl⟩ | hc
  · exact ⟨hempty σ'', hempty⟩
  · exact ⟨put_hit hf σ'' s r i hInv'' (hpres _ _ _ hc), hempty⟩

set_option maxHeartbeats 4000000 in
set_option maxRecDepth 100000 in
/-- C7, witness: interning `"a"`, then `"b"`, into a fresh pool; repeating
`put("a")` returns the original `(Ref {0,1}, Idx 1)` unchanged, and
`put("")` returns the empty ref and index 0. -/
theorem claim_C7_witness :
    Pool.put hfW σC7b ("a".toList) = .ok ⟨0, 1⟩ 1 σC7b
    ∧ Pool.put hfW σC7b [] = .ok ⟨0, 0⟩ 0 σC7b :=
  have h := claim_C7 hfW Pool.new ("a".toList) ⟨0, 1⟩ 1 σC7a σC7b ["b".toList]
    (poolInv_new hfW) (by decide) (by decide)
  ⟨h.1, h.2 σC7b⟩

/-! ### Suite helper lemmas -/

lemma unpack_test (ti : Nat) (h : ti < 2 ^ 31) : unpack ti = .test ti := by
  unfold unpack
  rw [if_pos h]

lemma unpack_group (ci : Nat) (h : ci < 2 ^ 30) : unpack (2 ^ 31 + ci) = .group ci := by
  have h1 : ¬(2 ^ 31 + ci < 2 ^ 31) := by omega
  have h2 : 2 ^ 31 + ci ≠ 2 ^ 32 - 1 := by omega
  unfold unpack
  rw [if_neg h1, if_pos h2, Nat.add_sub_cancel_left]

lemma unpack_none_val : unpack (2 ^ 32 - 1) = .none := by
  unfold unpack
  rw [if_neg (by norm_num), if_neg (by norm_num)]

lemma pushChild_length (gs : List SuiteGroup) (gi c : Nat) :
    (pushChild gs gi c).length = gs.length := by
  simp [pushChild]

lemma pushChild_getD_ne (gs : List SuiteGroup) (gi c x : Nat) (h : x ≠ gi) :
    (pushChild gs gi c).getD x default = gs.getD x default := by
  unfold pushChild
  rw [List.getD_eq_getElem?_getD, List.getElem?_set_ne (by omega),
    ← List.getD_eq_getElem?_getD]

lemma pushChild_getD_self (gs : List SuiteGroup) (gi c : Nat) (h : gi < gs.length) :
    (pushChild gs gi c).getD gi default =
      { gs.getD gi default with
        children := (gs.getD gi default).children ++ [c] } := by
  unfold pushChild
  rw [List.getD_eq_getElem?_getD, List.getElem?_set_self (by omega)]
  rfl

lemma getD_append_lt {α : Type} [Inhabited α] (l t : List α) (x : Nat)
    (h : x < l.length) : (l ++ t).getD x default = l.getD x default := by
  rw [List.getD_append _ _ _ _ h]

lemma getD_append_len {α : Type} [Inhabited α] (l : List α) (a : α) :
    (l ++ [a]).getD l.length default = a := by
  rw [List.getD_append_right _ _ _ _ (le_refl _)]
  simp

lemma getD_oob {α : Type} [Inhabited α] (l : List α) (x : Nat)
    (h : l.length ≤ x) : l.getD x default = default :=
  List.getD_eq_default _ _ h

lemma isPrefixOf_eq_take : ∀ (sep p : Str), sep.isPrefixOf p = true →
    sep ++ p.drop sep.length = p := by
  intro sep
  induction sep with
  | nil => intro p _; simp
  | cons a as ih =>
      intro p h
      cases p with
      | nil => simp [List.isPrefixOf] at h
      | cons b bs =>
          simp only [List.isPrefixOf, Bool.and_eq_true, beq_iff_eq] at h
          obtain ⟨rfl, h2⟩ := h
          simpa using ih bs h2

lemma splitOnce_nil (sep : Str) (h : sep ≠ []) : splitOnce sep [] = none := by
  unfold splitOnce
  cases sep with
  | nil => exact absurd rfl h
  | cons a as => rfl

lemma splitOnce_eq (sep : Str) : ∀ p n r, splitOnce sep p = some (n, r) →
    p = n ++ sep ++ r := by
  intro p
  induction p with
  | nil =>
      intro n r h
      unfold splitOnce at h
      by_cases hp : sep.isPrefixOf ([] : Str)
      · rw [if_pos hp] at h
        have hsep : sep = [] := by
          cases sep with
          | nil => rfl
          | cons a as => simp [List.isPrefixOf] at hp
        obtain ⟨rfl, rfl⟩ : ([] : Str) = n ∧ ([] : Str) = r := by
          cases h; exact ⟨rfl, rfl⟩
        simp [hsep]
      · rw [if_neg hp] at h
        cases h
  | cons c rest ih =>
      intro n r h
      unfold splitOnce at h
      by_cases hp : sep.isPrefixOf (c :: rest)
      · rw [if_pos hp] at h
        obtain ⟨rfl, rfl⟩ : ([] : Str) = n ∧ (c :: rest).drop sep.length = r := by
          cases h; exact ⟨rfl, rfl⟩
        simpa using (isPrefixOf_eq_take sep (c :: rest) hp).symm
      · rw [if_neg hp] at h
        cases hsp : splitOnce sep rest with
        | none => rw [hsp] at h; cases h
        | some pr =>
            obtain ⟨n', r'⟩ := pr
            rw [hsp] at h
            obtain ⟨rfl, rfl⟩ : c :: n' = n ∧ r' = r := by
              cases h; exact ⟨rfl, rfl⟩
            simpa using ih n' _ hsp

lemma splitOnce_lt (sep p n r : Str) (hsep : sep ≠ [])
    (h : splitOnce sep p = some (n, r)) : r.length < p.length := by
  have he := splitOnce_eq sep p n r h
  subst he
  have : 0 < sep.length := List.length_pos.mpr hsep
  simp [List.length_append]
  omega

lemma splitSegs_ne_nil (sep : Str) (fuel : Nat) (p : Str) :
    splitSegs sep fuel p ≠ [] := by
  cases fuel with
  | zero => simp [splitSegs]
  | succ f =>
      unfold splitSegs
      cases hsp : splitOnce sep p with
      | none => simp
      | some pr => obtain ⟨n, r⟩ := pr; simp

lemma splitSegs_fuel_congr (sep : Str) (hsep : sep ≠ []) :
    ∀ bound f f' p, p.length ≤ bound → p.length < f → p.length < f' →
      splitSegs sep f p = splitSegs sep f' p := by
  intro bound
  induction bound with
  | zero =>
      intro f f' p hb hf hf'
      cases f with
      | zero => omega
      | succ a =>
          cases f' with
          | zero => omega
          | succ b =>
              have hp : p = [] := List.length_eq_zero.mp (by omega)
              subst hp
              simp only [splitSegs, splitOnce_nil sep hsep]
  | succ m ih =>
      intro f f' p hb hf hf'
      cases f with
      | zero => omega
      | succ a =>
          cases f' with
          | zero => omega
          | succ b =>
              cases hsp : splitOnce sep p with
              | none => simp only [splitSegs, hsp]
              | some pr =>
                  obtain ⟨n, r⟩ := pr
                  have hr := splitOnce_lt sep p n r hsep hsp
                  simp only [splitSegs, hsp]
                  rw [ih a b r (by omega) (by omega) (by omega)]

lemma splitSegs_fuel (sep : Str) (hsep : sep ≠ []) (f : Nat) (p : Str)
    (h : p.length < f) : splitSegs sep f p = splitFull sep p :=
  splitSegs_fuel_congr sep hsep p.length f (p.length + 1) p (le_refl _) h
    (Nat.lt_succ_self _)

lemma splitFull_cons (sep p n r : Str) (hsep : sep ≠ [])
    (h : splitOnce sep p = some (n, r)) :
    splitFull sep p = n :: splitFull sep r := by
  have hr := splitOnce_lt sep p n r hsep h
  have h1 : splitSegs sep (p.length + 1) p = n :: splitSegs sep p.length r := by
    simp only [splitSegs, h]
  rw [show splitFull sep p = splitSegs sep (p.length + 1) p from rfl, h1,
    splitSegs_fuel sep hsep p.length r (by omega)]

lemma splitFull_single (sep p : Str) (h : splitOnce sep p = none) :
    splitFull sep p = [p] := by
  have h1 : splitSegs sep (p.length + 1) p = [p] := by
    simp only [splitSegs, h]
  exact h1

lemma intersperse_append_last {α : Type} (sep : α) :
    ∀ (l : List α) (a : α), l ≠ [] →
      List.intersperse sep (l ++ [a]) = List.intersperse sep l ++ [sep, a] := by
  intro l
  induction l with
  | nil => intro a h; exact absurd rfl h
  | cons x xs ih =>
      intro a _
      cases xs with
      | nil => rfl
      | cons y t =>
          have : (x :: y :: t) ++ [a] = x :: y :: (t ++ [a]) := by simp
          rw [this, List.intersperse_cons_cons, List.intersperse_cons_cons]
          have ht : y :: (t ++ [a]) = (y :: t) ++ [a] := by simp
          rw [ht, ih a (by simp)]
          simp

lemma intersperse_reverse {α : Type} (sep : α) :
    ∀ l : List α, (List.intersperse sep l).reverse = List.intersperse sep l.reverse := by
  intro l
  induction l with
  | nil => rfl
  | cons x xs ih =>
      cases xs with
      | nil => rfl
      | cons y t =>
          rw [List.intersperse_cons_cons, List.reverse_cons, List.reverse_cons, ih]
          have h1 : (y :: t).reverse ≠ [] := by simp
          rw [show (x :: y :: t).reverse = (y :: t).reverse ++ [x] from by simp]
          rw [intersperse_append_last sep _ x h1]
          simp

lemma map_intersperse_lengths : ∀ (l : List Str) (sep : Str),
    (List.intersperse sep l).map List.length
      = List.intersperse sep.length (l.map List.length) := by
  intro l
  induction l with
  | nil => intro sep; rfl
  | cons x xs ih =>
      intro sep
      cases xs with
      | nil => rfl
      | cons y t =>
          simp only [List.map_cons, List.intersperse_cons_cons, ih sep]

lemma flatten_intersperse_split (sep : Str) (hsep : sep ≠ []) :
    ∀ bound p, p.length ≤ bound →
      (List.intersperse sep (splitFull sep p)).flatten = p := by
  intro bound
  induction bound with
  | zero =>
      intro p hb
      have hp : p = [] := List.length_eq_zero.mp (by omega)
      subst hp
      rw [splitFull_single sep [] (splitOnce_nil sep hsep)]
      rfl
  | succ m ih =>
      intro p hb
      cases hsp : splitOnce sep p with
      | none =>
          rw [splitFull_single sep p hsp]
          simp
      | some pr =>
          obtain ⟨n, r⟩ := pr
          have hr := splitOnce_lt sep p n r hsep hsp
          rw [splitFull_cons sep p n r hsep hsp]
          obtain ⟨x, xs, hx⟩ : ∃ x xs, splitFull sep r = x :: xs := by
            cases hq : splitFull sep r with
            | nil => exact absurd hq (by unfold splitFull; exact splitSegs_ne_nil sep _ r)
            | cons x xs => exact ⟨x, xs, rfl⟩
          rw [hx, List.intersperse_cons_cons, List.flatten_cons, List.flatten_cons, ← hx]
          rw [ih r (by omega)]
          rw [← List.append_assoc]
          exact (splitOnce_eq sep p n r hsp).symm

lemma writeAt_length (buf p : Str) (b : Nat) (h : b + p.length ≤ buf.length) :
    (writeAt buf b p).length = buf.length := by
  unfold writeAt
  rw [List.length_append, List.length_append, List.length_take, List.length_drop]
  omega

lemma writeAt_drop (buf p : Str) (b : Nat) (h : b + p.length ≤ buf.length) :
    (writeAt buf b p).drop b = p ++ buf.drop (b + p.length) := by
  unfold writeAt
  have h1 : (buf.take b).drop b = [] := by
    apply List.drop_eq_nil_of_le
    rw [List.length_take]
    omega
  rw [List.drop_append_of_le_length (by rw [List.length_append, List.length_take]; omega),
    List.drop_append_of_le_length (by rw [List.length_take]; omega), h1, List.nil_append]

lemma fillLoop_spec : ∀ (parts : List Str) (buf : Str) (e : Nat),
    (parts.map List.length).sum = e → e ≤ buf.length →
    fillLoop buf e parts = parts.reverse.flatten ++ buf.drop e := by
  intro parts
  induction parts with
  | nil =>
      intro buf e hsum hle
      have he : e = 0 := by simpa using hsum.symm
      subst he
      simp [fillLoop]
  | cons p rest ih =>
      intro buf e hsum hle
      simp only [List.map_cons, List.sum_cons] at hsum
      have hple : p.length ≤ e := by omega
      unfold fillLoop
      rw [ih (writeAt buf (e - p.length) p) (e - p.length) (by omega)
        (by rw [writeAt_length buf p _ (by omega)]; omega)]
      rw [writeAt_drop buf p (e - p.length) (by omega)]
      rw [show e - p.length + p.length = e from by omega]
      simp [List.flatten_append]

lemma put_nil (hf : Str → Nat) (σ : Pool) : Pool.put hf σ [] = .ok ⟨0, 0⟩ 0 σ := by
  unfold Pool.put
  rw [if_neg (by simp), if_pos rfl]

lemma put_ok_lt (hf : Str → Nat) (σ : Pool) (s : Str) (r : PoolRef) (i : Nat)
    (σ' : Pool) (h : Pool.put hf σ s = .ok r i σ') (hlt : i < σ.strings.length) :
    σ' = σ := by
  unfold Pool.put at h
  by_cases hlen : 2 ^ 32 - 1 ≤ s.length
  · rw [if_pos hlen] at h; cases h
  rw [if_neg hlen] at h
  by_cases hnil : s = []
  · rw [if_pos hnil] at h; cases h; rfl
  rw [if_neg hnil] at h
  cases hlook : lookupIn σ (hf s) s (probeList σ.map.length (hf s)) with
  | hit r0 i0 => simp only [hlook] at h; obtain ⟨rfl, rfl, rfl⟩ := h; rfl
  | firstEmpty q0 =>
      simp only [hlook] at h
      by_cases hov : 2 ^ 32 - 1 - σ.pool.length ≤ s.length
          ∨ 2 ^ 32 - 1 - 1 ≤ σ.strings.length
      · rw [if_pos hov] at h; cases h
      rw [if_neg hov] at h
      by_cases hgrow : σ.map.length / 8 * 5 ≤ σ.strings.length
      · rw [if_pos (Or.inr hgrow)] at h
        cases hre : rehashFold (makeMap (σ.map.length / 8 * 11)) σ.map with
        | none => simp only [hre] at h; cases h
        | some m₂ =>
            simp only [hre] at h
            cases hpe : probeFirstEmpty m₂ m₂.length (hf s) with
            | none => simp only [hpe] at h; cases h
            | some q =>
                simp only [hpe] at h
                obtain ⟨rfl, rfl, rfl⟩ := h
                omega
      · rw [if_neg (by simpa using hgrow)] at h
        obtain ⟨rfl, rfl, rfl⟩ := h
        omega
  | exhausted =>
      simp only [hlook] at h
      by_cases hov : 2 ^ 32 - 1 - σ.pool.length ≤ s.length
          ∨ 2 ^ 32 - 1 - 1 ≤ σ.strings.length
      · rw [if_pos hov] at h; cases h
      rw [if_neg hov] at h
      cases hre : rehashFold (makeMap (σ.map.length / 8 * 11)) σ.map with
      | none => simp only [hre] at h; cases h
      | some m₂ =>
          simp only [hre] at h
          cases hpe : probeFirstEmpty m₂ m₂.length (hf s) with
          | none => simp only [hpe] at h; cases h
          | some q =>
              simp only [hpe] at h
              obtain ⟨rfl, rfl, rfl⟩ := h
              omega

lemma put_ok_growth (hf : Str → Nat) (σ : Pool) (s : Str) (r : PoolRef) (i : Nat)
    (σ' : Pool) (h : Pool.put hf σ s = .ok r i σ') :
    σ'.pool.length ≤ σ.pool.length + s.length
    ∧ σ'.strings.length ≤ σ.strings.length + 1 := by
  unfold Pool.put at h
  by_cases hlen : 2 ^ 32 - 1 ≤ s.length
  · rw [if_pos hlen] at h; cases h
  rw [if_neg hlen] at h
  by_cases hnil : s = []
  · rw [if_pos hnil] at h; cases h; omega
  rw [if_neg hnil] at h
  cases hlook : lookupIn σ (hf s) s (probeList σ.map.length (hf s)) with
  | hit r0 i0 => simp only [hlook] at h; obtain ⟨rfl, rfl, rfl⟩ := h; omega
  | firstEmpty q0 =>
      simp only [hlook] at h
      by_cases hov : 2 ^ 32 - 1 - σ.pool.length ≤ s.length
          ∨ 2 ^ 32 - 1 - 1 ≤ σ.strings.length
      · rw [if_pos hov] at h; cases h
      rw [if_neg hov] at h
      by_cases hgrow : σ.map.length / 8 * 5 ≤ σ.strings.length
      · rw [if_pos (Or.inr hgrow)] at h
        cases hre : rehashFold (makeMap (σ.map.length / 8 * 11)) σ.map with
        | none => simp only [hre] at h; cases h
        | some m₂ =>
            simp only [hre] at h
            cases hpe : probeFirstEmpty m₂ m₂.length (hf s) with
            | none => simp only [hpe] at h; cases h
            | some q =>
                simp only [hpe] at h
                obtain ⟨rfl, rfl, rfl⟩ := h
                simp [List.length_append]
      · rw [if_neg (by simpa using hgrow)] at h
        obtain ⟨rfl, rfl, rfl⟩ := h
        simp [List.length_append]
  | exhausted =>
      simp only [hlook] at h
      by_cases hov : 2 ^ 32 - 1 - σ.pool.length ≤ s.length
          ∨ 2 ^ 32 - 1 - 1 ≤ σ.strings.length
      · rw [if_pos hov] at h; cases h
      rw [if_neg hov] at h
      cases hre : rehashFold (makeMap (σ.map.length / 8 * 11)) σ.map with
      | none => simp only [hre] at h; cases h
      | some m₂ =>
          simp only [hre] at h
          cases hpe : probeFirstEmpty m₂ m₂.length (hf s) with
          | none => simp only [hpe] at h; cases h
          | some q =>
              simp only [hpe] at h
              obtain ⟨rfl, rfl, rfl⟩ := h
              simp [List.length_append]

lemma put_error_conditions (hf : Str → Nat) (σ : Pool) (s : Str) (σ'' : Pool)
    (h : Pool.put hf σ s = .error σ'') :
    2 ^ 32 - 1 ≤ s.length
    ∨ 2 ^ 32 - 1 - σ.pool.length ≤ s.length
    ∨ 2 ^ 32 - 1 - 1 ≤ σ.strings.length := by
  unfold Pool.put at h
  by_cases hlen : 2 ^ 32 - 1 ≤ s.length
  · exact Or.inl hlen
  rw [if_neg hlen] at h
  by_cases hnil : s = []
  · rw [if_pos hnil] at h; cases h
  rw [if_neg hnil] at h
  cases hlook : lookupIn σ (hf s) s (probeList σ.map.length (hf s)) with
  | hit r0 i0 => simp only [hlook] at h; cases h
  | firstEmpty q0 =>
      simp only [hlook] at h
      by_cases hov : 2 ^ 32 - 1 - σ.pool.length ≤ s.length
          ∨ 2 ^ 32 - 1 - 1 ≤ σ.strings.length
      · exact Or.inr hov
      rw [if_neg hov] at h
      by_cases hgrow : σ.map.length / 8 * 5 ≤ σ.strings.length
      · rw [if_pos (Or.inr hgrow)] at h
        cases hre : rehashFold (makeMap (σ.map.length / 8 * 11)) σ.map with
        | none => simp only [hre] at h; cases h
        | some m₂ =>
            simp only [hre] at h
            cases hpe : probeFirstEmpty m₂ m₂.length (hf s) with
            | none => simp only [hpe] at h; cases h
            | some q => simp only [hpe] at h; cases h
      · rw [if_neg (by simpa using hgrow)] at h
        cases h
  | exhausted =>
      simp only [hlook] at h
      by_cases hov : 2 ^ 32 - 1 - σ.pool.length ≤ s.length
          ∨ 2 ^ 32 - 1 - 1 ≤ σ.strings.length
      · exact Or.inr hov
      rw [if_neg hov] at h
      cases hre : rehashFold (makeMap (σ.map.length / 8 * 11)) σ.map with
      | none => simp only [hre] at h; cases h
      | some m₂ =>
          simp only [hre] at h
          cases hpe : probeFirstEmpty m₂ m₂.length (hf s) with
          | none => simp only [hpe] at h; cases h
          | some q => simp only [hpe] at h; cases h

lemma resolveP_zero (hf : Str → Nat) (σ : Pool) (hInv : PoolInv hf σ) :
    resolveP σ 0 = [] := by
  unfold resolveP
  rw [hInv.strings_zero]
  simp [Pool.get]

lemma resolveP_ne_nil (hf : Str → Nat) (σ : Pool) (hInv : PoolInv hf σ) (i : Nat)
    (h1 : 1 ≤ i) (h2 : i < σ.strings.length) : resolveP σ i ≠ [] := by
  have hro := hInv.ref_ok i h1 h2
  have hl := get_length hf σ hInv i h1 h2
  intro h0
  have h0' : σ.get (stringAt σ i) = [] := h0
  rw [h0'] at hl
  simp at hl
  omega

lemma resolveP_inj (hf : Str → Nat) (σ : Pool) (hInv : PoolInv hf σ) (i j : Nat)
    (hi : i < σ.strings.length) (hj : j < σ.strings.length)
    (h : resolveP σ i = resolveP σ j) : i = j := by
  by_cases h1 : 1 ≤ i
  · by_cases h2 : 1 ≤ j
    · by_contra hne
      exact hInv.distinct i j h1 hi h2 hj hne h
    · have hj0 : j = 0 := by omega
      subst hj0
      rw [resolveP_zero hf σ hInv] at h
      exact absurd h (resolveP_ne_nil hf σ hInv i h1 hi)
  · have hi0 : i = 0 := by omega
    subst hi0
    by_cases h2 : 1 ≤ j
    · rw [resolveP_zero hf σ hInv] at h
      exact absurd h.symm (resolveP_ne_nil hf σ hInv j h2 hj)
    · omega

lemma contains_preserve_resolve (hf : Str → Nat) (σ σ' : Pool)
    (hInv : PoolInv hf σ) (hInv' : PoolInv hf σ')
    (hpres : ∀ s₀ r₀ i₀, PoolContains σ s₀ r₀ i₀ → PoolContains σ' s₀ r₀ i₀) :
    (∀ i, i < σ.strings.length → resolveP σ' i = resolveP σ i)
    ∧ σ.strings.length ≤ σ'.strings.length := by
  constructor
  · intro i hi
    by_cases h1 : 1 ≤ i
    · have hc : PoolContains σ (resolveP σ i) (stringAt σ i) i := ⟨h1, hi, rfl, rfl⟩
      obtain ⟨_, _, hstr, hget⟩ := hpres _ _ _ hc
      show σ'.get (stringAt σ' i) = _
      rw [hstr, hget]
    · have hi0 : i = 0 := by omega
      subst hi0
      rw [resolveP_zero hf σ' hInv', resolveP_zero hf σ hInv]
  · by_cases hlen : σ.strings.length ≤ 1
    · have h0 : 0 < σ'.strings.length := List.length_pos.mpr hInv'.strings_ne
      omega
    · have hc : PoolContains σ (resolveP σ (σ.strings.length - 1))
          (stringAt σ (σ.strings.length - 1)) (σ.strings.length - 1) :=
        ⟨by omega, by omega, rfl, rfl⟩
      obtain ⟨_, hlt, _, _⟩ := hpres _ _ _ hc
      omega

lemma put_ok_facts (hf : Str → Nat) (σ : Pool) (s : Str) (r : PoolRef) (i : Nat)
    (σ' : Pool) (hInv : PoolInv hf σ) (h : Pool.put hf σ s = .ok r i σ') :
    PoolInv hf σ'
    ∧ σ.strings.length ≤ σ'.strings.length
    ∧ (∀ j, j < σ.strings.length → resolveP σ' j = resolveP σ j)
    ∧ i < σ'.strings.length
    ∧ resolveP σ' i = s
    ∧ (s ≠ [] → 1 ≤ i)
    ∧ (∀ s₀ r₀ i₀, PoolContains σ s₀ r₀ i₀ → PoolContains σ' s₀ r₀ i₀) := by
  obtain ⟨hInv', hpres, hca⟩ := put_ok_spec hf σ s r i σ' hInv h
  obtain ⟨hres, hmono⟩ := contains_preserve_resolve hf σ σ' hInv hInv' hpres
  refine ⟨hInv', hmono, hres, ?_, ?_, ?_, hpres⟩
  · rcases hca with ⟨_, _, rfl, rfl⟩ | hc
    · exact lt_of_lt_of_le (List.length_pos.mpr hInv.strings_ne) hmono
    · exact hc.2.1
  · rcases hca with ⟨hs, _, rfl, rfl⟩ | hc
    · rw [resolveP_zero hf _ hInv, hs]
    · obtain ⟨_, _, hstr, hget⟩ := hc
      show σ'.get (stringAt σ' i) = _
      rw [hstr, hget]
  · rcases hca with ⟨hs, _, rfl, rfl⟩ | hc
    · intro hne; exact absurd hs hne
    · intro _; exact hc.1

lemma ancestorsFuel_none (s : Suite) (f : Nat) : ancestorsFuel s f .none = [] := by
  cases f <;> rfl

lemma ancestors_fuel_stable (hf : Str → Nat) (s : Suite) (hInv : SuiteInv hf s) :
    ∀ gi, gi < s.groups.length → ∀ f f', gi < f → gi < f' →
      ancestorsFuel s f (.group gi) = ancestorsFuel s f' (.group gi) := by
  intro gi
  induction gi using Nat.strong_induction_on with
  | _ gi ih =>
      intro hgi f f' hf1 hf2
      cases f with
      | zero => omega
      | succ a =>
          cases f' with
          | zero => omega
          | succ b =>
              simp only [ancestorsFuel]
              congr 1
              by_cases h0 : gi = 0
              · subst h0
                rw [hInv.root_parent, unpack_none_val, ancestorsFuel_none,
                  ancestorsFuel_none]
              · obtain ⟨pg, hpg, hlt⟩ := hInv.group_parent gi (by omega) hgi
                rw [hpg]
                exact ih pg hlt (by omega) a b (by omega) (by omega)

lemma ancestors_ext (hf : Str → Nat) (s s' : Suite) (hInv : SuiteInv hf s)
    (hp : ∀ gi, gi < s.groups.length →
      (s'.groups.getD gi default).parent = (s.groups.getD gi default).parent) :
    ∀ gi, gi < s.groups.length → ∀ f,
      ancestorsFuel s' f (.group gi) = ancestorsFuel s f (.group gi) := by
  intro gi
  induction gi using Nat.strong_induction_on with
  | _ gi ih =>
      intro hgi f
      cases f with
      | zero => rfl
      | succ a =>
          simp only [ancestorsFuel]
          congr 1
          rw [hp gi hgi]
          by_cases h0 : gi = 0
          · subst h0
            rw [hInv.root_parent, unpack_none_val, ancestorsFuel_none,
              ancestorsFuel_none]
          · obtain ⟨pg, hpg, hlt⟩ := hInv.group_parent gi (by omega) hgi
            rw [hpg]
            exact ih pg hlt (by omega) a

lemma ancestors_le (hf : Str → Nat) (s : Suite) (hInv : SuiteInv hf s) :
    ∀ gi, gi < s.groups.length → ∀ f x, x ∈ ancestorsFuel s f (.group gi) →
      x ≤ gi := by
  intro gi
  induction gi using Nat.strong_induction_on with
  | _ gi ih =>
      intro hgi f x hx
      cases f with
      | zero => simp [ancestorsFuel] at hx
      | succ a =>
          simp only [ancestorsFuel, List.mem_cons] at hx
          rcases hx with rfl | hx
          · exact le_refl _
          · by_cases h0 : gi = 0
            · subst h0
              rw [hInv.root_parent, unpack_none_val, ancestorsFuel_none] at hx
              simp at hx
            · obtain ⟨pg, hpg, hlt⟩ := hInv.group_parent gi (by omega) hgi
              rw [hpg] at hx
              exact le_trans (ih pg hlt (by omega) a x hx) (le_of_lt hlt)

lemma ancestors_start_group (hf : Str → Nat) (s : Suite) (hInv : SuiteInv hf s)
    (g : Nat) (hg : g < s.groups.length) :
    ancestorsFuel s s.groups.length (.group g)
      = g :: ancestorsFuel s s.groups.length
          (unpack (s.groups.getD g default).parent) := by
  obtain ⟨len, hlen⟩ : ∃ a, s.groups.length = a + 1 :=
    ⟨s.groups.length - 1, by have := hInv.groups_ne; omega⟩
  have hstep : ancestorsFuel s (len + 1) (.group g)
      = g :: ancestorsFuel s len (unpack (s.groups.getD g default).parent) := rfl
  rw [hlen, hstep]
  congr 1
  by_cases hg0 : g = 0
  · subst hg0
    rw [hInv.root_parent, unpack_none_val, ancestorsFuel_none, ancestorsFuel_none]
  · obtain ⟨pg, hpg, hlt⟩ := hInv.group_parent g (by omega) hg
    rw [hpg]
    exact ancestors_fuel_stable hf s hInv pg (by omega) len (len + 1)
      (by omega) (by omega)

lemma nameChain_test (hf : Str → Nat) (s : Suite) (hInv : SuiteInv hf s)
    (ti g : Nat) (hg : g < s.groups.length)
    (hpar : unpack (s.tests.getD ti default).parent = .group g) :
    nameChainIdx s (.test ti)
      = (s.tests.getD ti default).name :: nameChainIdx s (.group g) := by
  have h1 : nameChainIdx s (.test ti)
      = [(s.tests.getD ti default).name]
        ++ (ancestorsFuel s s.groups.length
            (unpack (s.tests.getD ti default).parent)).map
          (fun gi => (s.groups.getD gi default).name) := rfl
  have h2 : nameChainIdx s (.group g)
      = [(s.groups.getD g default).name]
        ++ (ancestorsFuel s s.groups.length
            (unpack (s.groups.getD g default).parent)).map
          (fun gi => (s.groups.getD gi default).name) := rfl
  rw [h1, h2, hpar, ancestors_start_group hf s hInv g hg]
  simp

lemma nameChain_group (hf : Str → Nat) (s : Suite) (hInv : SuiteInv hf s)
    (ci g : Nat) (hg : g < s.groups.length)
    (hpar : unpack (s.groups.getD ci default).parent = .group g) :
    nameChainIdx s (.group ci)
      = (s.groups.getD ci default).name :: nameChainIdx s (.group g) := by
  have h1 : nameChainIdx s (.group ci)
      = [(s.groups.getD ci default).name]
        ++ (ancestorsFuel s s.groups.length
            (unpack (s.groups.getD ci default).parent)).map
          (fun gi => (s.groups.getD gi default).name) := rfl
  have h2 : nameChainIdx s (.group g)
      = [(s.groups.getD g default).name]
        ++ (ancestorsFuel s s.groups.length
            (unpack (s.groups.getD g default).parent)).map
          (fun gi => (s.groups.getD gi default).name) := rfl
  rw [h1, h2, hpar, ancestors_start_group hf s hInv g hg]
  simp

lemma nameChain_root (hf : Str → Nat) (s : Suite) (hInv : SuiteInv hf s) :
    nameChainIdx s (.group 0) = [0] := by
  have h1 : nameChainIdx s (.group 0)
      = [(s.groups.getD 0 default).name]
        ++ (ancestorsFuel s s.groups.length
            (unpack (s.groups.getD 0 default).parent)).map
          (fun gi => (s.groups.getD gi default).name) := rfl
  rw [h1, hInv.root_parent, unpack_none_val, ancestorsFuel_none, hInv.root_name]
  rfl

lemma nameChain_group_ext (hf : Str → Nat) (s s' : Suite) (hInv : SuiteInv hf s)
    (hlen : s.groups.length ≤ s'.groups.length)
    (hp : ∀ gi, gi < s.groups.length →
      (s'.groups.getD gi default).parent = (s.groups.getD gi default).parent)
    (hn : ∀ gi, gi < s.groups.length →
      (s'.groups.getD gi default).name = (s.groups.getD gi default).name) :
    ∀ gi, gi < s.groups.length →
      nameChainIdx s' (.group gi) = nameChainIdx s (.group gi) := by
  intro gi hgi
  have h1 : nameChainIdx s' (.group gi)
      = [(s'.groups.getD gi default).name]
        ++ (ancestorsFuel s' s'.groups.length
            (unpack (s'.groups.getD gi default).parent)).map
          (fun x => (s'.groups.getD x default).name) := rfl
  have h2 : nameChainIdx s (.group gi)
      = [(s.groups.getD gi default).name]
        ++ (ancestorsFuel s s.groups.length
            (unpack (s.groups.getD gi default).parent)).map
          (fun x => (s.groups.getD x default).name) := rfl
  rw [h1, h2, hn gi hgi, hp gi hgi]
  congr 1
  by_cases h0 : gi = 0
  · subst h0
    rw [hInv.root_parent, unpack_none_val, ancestorsFuel_none, ancestorsFuel_none]
    rfl
  · obtain ⟨pg, hpg, hlt⟩ := hInv.group_parent gi (by omega) hgi
    rw [hpg]
    rw [ancestors_ext hf s s' hInv hp pg (by omega) s'.groups.length]
    rw [ancestors_fuel_stable hf s hInv pg (by omega) s'.groups.length
      s.groups.length (by omega) (by omega)]
    apply List.map_congr_left
    intro x hx
    have hxle : x ≤ pg := ancestors_le hf s hInv pg (by omega) _ x hx
    exact hn x (by omega)

lemma childNameIdx_test (s : Suite) (c ti : Nat) (h : unpack c = .test ti) :
    childNameIdx s c = (s.tests.getD ti default).name := by
  simp only [childNameIdx, h]

lemma childNameIdx_group (s : Suite) (c ci : Nat) (h : unpack c = .group ci) :
    childNameIdx s c = (s.groups.getD ci default).name := by
  simp only [childNameIdx, h]

lemma pairwise_name_inj (s : Suite) (l : List Nat)
    (hpw : l.Pairwise fun c c' => childNameIdx s c ≠ childNameIdx s c') :
    ∀ a ∈ l, ∀ b ∈ l, childNameIdx s a = childNameIdx s b → a = b := by
  intro a ha b hb heq
  by_contra hne
  have hsymm : Symmetric fun c c' => childNameIdx s c ≠ childNameIdx s c' :=
    fun x y h e => h e.symm
  exact List.Pairwise.forall hsymm hpw ha hb hne heq

lemma scanNT_found (s : Suite) (nameIdx : Nat) :
    ∀ l, (∀ c ∈ l, unpack c ≠ .none) →
      l.Pairwise (fun c c' => childNameIdx s c ≠ childNameIdx s c') →
      ∀ c₀, c₀ ∈ l → ∀ ci, unpack c₀ = .group ci →
      (s.groups.getD ci default).name = nameIdx →
      scanNonTerminal s nameIdx l = .foundGroup ci := by
  intro l
  induction l with
  | nil => intro _ _ c₀ h; simp at h
  | cons c rest ih =>
      intro hnone hpw c₀ hc₀ ci hup hname
      rcases List.mem_cons.mp hc₀ with rfl | hmem
      · simp only [scanNonTerminal, hup]
        rw [if_pos hname]
      · have hcn : childNameIdx s c ≠ nameIdx := by
          intro he
          have h2 : childNameIdx s c₀ = nameIdx := by
            rw [childNameIdx_group s c₀ ci hup]; exact hname
          exact (List.pairwise_cons.mp hpw).1 c₀ hmem (he.trans h2.symm)
        cases hu : unpack c with
        | none => exact absurd hu (hnone c (List.mem_cons_self _ _))
        | test ti =>
            simp only [scanNonTerminal, hu]
            rw [if_neg (fun he => hcn ((childNameIdx_test s c ti hu).trans he))]
            exact ih (fun x hx => hnone x (List.mem_cons_of_mem _ hx))
              (List.pairwise_cons.mp hpw).2 c₀ hmem ci hup hname
        | group gi =>
            simp only [scanNonTerminal, hu]
            rw [if_neg (fun he => hcn ((childNameIdx_group s c gi hu).trans he))]
            exact ih (fun x hx => hnone x (List.mem_cons_of_mem _ hx))
              (List.pairwise_cons.mp hpw).2 c₀ hmem ci hup hname

lemma scanNT_conflict (s : Suite) (nameIdx : Nat) :
    ∀ l, (∀ c ∈ l, unpack c ≠ .none) →
      l.Pairwise (fun c c' => childNameIdx s c ≠ childNameIdx s c') →
      ∀ c₀, c₀ ∈ l → ∀ ti, unpack c₀ = .test ti →
      (s.tests.getD ti default).name = nameIdx →
      scanNonTerminal s nameIdx l = .conflict := by
  intro l
  induction l with
  | nil => intro _ _ c₀ h; simp at h
  | cons c rest ih =>
      intro hnone hpw c₀ hc₀ ti hup hname
      rcases List.mem_cons.mp hc₀ with rfl | hmem
      · simp only [scanNonTerminal, hup]
        rw [if_pos hname]
      · have hcn : childNameIdx s c ≠ nameIdx := by
          intro he
          have h2 : childNameIdx s c₀ = nameIdx := by
            rw [childNameIdx_test s c₀ ti hup]; exact hname
          exact (List.pairwise_cons.mp hpw).1 c₀ hmem (he.trans h2.symm)
        cases hu : unpack c with
        | none => exact absurd hu (hnone c (List.mem_cons_self _ _))
        | test ti' =>
            simp only [scanNonTerminal, hu]
            rw [if_neg (fun he => hcn ((childNameIdx_test s c ti' hu).trans he))]
            exact ih (fun x hx => hnone x (List.mem_cons_of_mem _ hx))
              (List.pairwise_cons.mp hpw).2 c₀ hmem ti hup hname
        | group gi =>
            simp only [scanNonTerminal, hu]
            rw [if_neg (fun he => hcn ((childNameIdx_group s c gi hu).trans he))]
            exact ih (fun x hx => hnone x (List.mem_cons_of_mem _ hx))
              (List.pairwise_cons.mp hpw).2 c₀ hmem ti hup hname

lemma scanT_found (s : Suite) (nameIdx : Nat) :
    ∀ l, (∀ c ∈ l, unpack c ≠ .none) →
      l.Pairwise (fun c c' => childNameIdx s c ≠ childNameIdx s c') →
      ∀ c₀, c₀ ∈ l → ∀ ti, unpack c₀ = .test ti →
      (s.tests.getD ti default).name = nameIdx →
      scanTerminal s nameIdx l = .okTest ti := by
  intro l
  induction l with
  | nil => intro _ _ c₀ h; simp at h
  | cons c rest ih =>
      intro hnone hpw c₀ hc₀ ti hup hname
      rcases List.mem_cons.mp hc₀ with rfl | hmem
      · simp only [scanTerminal, hup]
        rw [if_pos hname]
      · have hcn : childNameIdx s c ≠ nameIdx := by
          intro he
          have h2 : childNameIdx s c₀ = nameIdx := by
            rw [childNameIdx_test s c₀ ti hup]; exact hname
          exact (List.pairwise_cons.mp hpw).1 c₀ hmem (he.trans h2.symm)
        cases hu : unpack c with
        | none => exact absurd hu (hnone c (List.mem_cons_self _ _))
        | test ti' =>
            simp only [scanTerminal, hu]
            rw [if_neg (fun he => hcn ((childNameIdx_test s c ti' hu).trans he))]
            exact ih (fun x hx => hnone x (List.mem_cons_of_mem _ hx))
              (List.pairwise_cons.mp hpw).2 c₀ hmem ti hup hname
        | group gi =>
            simp only [scanTerminal, hu]
            rw [if_neg (fun he => hcn ((childNameIdx_group s c gi hu).trans he))]
            exact ih (fun x hx => hnone x (List.mem_cons_of_mem _ hx))
              (List.pairwise_cons.mp hpw).2 c₀ hmem ti hup hname

lemma scanT_conflict (s : Suite) (nameIdx : Nat) :
    ∀ l, (∀ c ∈ l, unpack c ≠ .none) →
      l.Pairwise (fun c c' => childNameIdx s c ≠ childNameIdx s c') →
      ∀ c₀, c₀ ∈ l → ∀ ci, unpack c₀ = .group ci →
      (s.groups.getD ci default).name = nameIdx →
      scanTerminal s nameIdx l = .conflict := by
  intro l
  induction l with
  | nil => intro _ _ c₀ h; simp at h
  | cons c rest ih =>
      intro hnone hpw c₀ hc₀ ci hup hname
      rcases List.mem_cons.mp hc₀ with rfl | hmem
      · simp only [scanTerminal, hup]
        rw [if_pos hname]
      · have hcn : childNameIdx s c ≠ nameIdx := by
          intro he
          have h2 : childNameIdx s c₀ = nameIdx := by
            rw [childNameIdx_group s c₀ ci hup]; exact hname
          exact (List.pairwise_cons.mp hpw).1 c₀ hmem (he.trans h2.symm)
        cases hu : unpack c with
        | none => exact absurd hu (hnone c (List.mem_cons_self _ _))
        | test ti' =>
            simp only [scanTerminal, hu]
            rw [if_neg (fun he => hcn ((childNameIdx_test s c ti' hu).trans he))]
            exact ih (fun x hx => hnone x (List.mem_cons_of_mem _ hx))
              (List.pairwise_cons.mp hpw).2 c₀ hmem ci hup hname
        | group gi =>
            simp only [scanTerminal, hu]
            rw [if_neg (fun he => hcn ((childNameIdx_group s c gi hu).trans he))]
            exact ih (fun x hx => hnone x (List.mem_cons_of_mem _ hx))
              (List.pairwise_cons.mp hpw).2 c₀ hmem ci hup hname

lemma scanNT_conflict_inv (s : Suite) (nameIdx : Nat) :
    ∀ l, scanNonTerminal s nameIdx l = .conflict →
      ∃ c ∈ l, ∃ ti, unpack c = .test ti
        ∧ (s.tests.getD ti default).name = nameIdx := by
  intro l
  induction l with
  | nil => intro h; cases h
  | cons c rest ih =>
      intro h
      simp only [scanNonTerminal] at h
      cases hu : unpack c with
      | none => simp only [hu] at h; cases h
      | test ti =>
          simp only [hu] at h
          by_cases hif : (s.tests.getD ti default).name = nameIdx
          · exact ⟨c, List.mem_cons_self _ _, ti, hu, hif⟩
          · rw [if_neg hif] at h
            obtain ⟨c', hm, ti', hup, hn⟩ := ih h
            exact ⟨c', List.mem_cons_of_mem _ hm, ti', hup, hn⟩
      | group gi =>
          simp only [hu] at h
          by_cases hif : (s.groups.getD gi default).name = nameIdx
          · rw [if_pos hif] at h; cases h
          · rw [if_neg hif] at h
            obtain ⟨c', hm, ti', hup, hn⟩ := ih h
            exact ⟨c', List.mem_cons_of_mem _ hm, ti', hup, hn⟩

lemma scanNT_found_inv (s : Suite) (nameIdx : Nat) :
    ∀ l ci, scanNonTerminal s nameIdx l = .foundGroup ci →
      ∃ c ∈ l, unpack c = .group ci
        ∧ (s.groups.getD ci default).name = nameIdx := by
  intro l
  induction l with
  | nil => intro ci h; cases h
  | cons c rest ih =>
      intro ci h
      simp only [scanNonTerminal] at h
      cases hu : unpack c with
      | none => simp only [hu] at h; cases h
      | test ti =>
          simp only [hu] at h
          by_cases hif : (s.tests.getD ti default).name = nameIdx
          · rw [if_pos hif] at h; cases h
          · rw [if_neg hif] at h
            obtain ⟨c', hm, hup, hn⟩ := ih ci h
            exact ⟨c', List.mem_cons_of_mem _ hm, hup, hn⟩
      | group gi =>
          simp only [hu] at h
          by_cases hif : (s.groups.getD gi default).name = nameIdx
          · rw [if_pos hif] at h
            cases h
            exact ⟨c, List.mem_cons_self _ _, hu, hif⟩
          · rw [if_neg hif] at h
            obtain ⟨c', hm, hup, hn⟩ := ih ci h
            exact ⟨c', List.mem_cons_of_mem _ hm, hup, hn⟩

lemma scanNT_notFound_inv (s : Suite) (nameIdx : Nat) :
    ∀ l, scanNonTerminal s nameIdx l = .notFound →
      ∀ c ∈ l, childNameIdx s c ≠ nameIdx := by
  intro l
  induction l with
  | nil => intro _ c hc; simp at hc
  | cons c rest ih =>
      intro h c' hc'
      simp only [scanNonTerminal] at h
      cases hu : unpack c with
      | none => simp only [hu] at h; cases h
      | test ti =>
          simp only [hu] at h
          by_cases hif : (s.tests.getD ti default).name = nameIdx
          · rw [if_pos hif] at h; cases h
          · rw [if_neg hif] at h
            rcases List.mem_cons.mp hc' with rfl | hmem
            · rw [childNameIdx_test s c' ti hu]; exact hif
            · exact ih h c' hmem
      | group gi =>
          simp only [hu] at h
          by_cases hif : (s.groups.getD gi default).name = nameIdx
          · rw [if_pos hif] at h; cases h
          · rw [if_neg hif] at h
            rcases List.mem_cons.mp hc' with rfl | hmem
            · rw [childNameIdx_group s c' gi hu]; exact hif
            · exact ih h c' hmem

lemma scanT_found_inv (s : Suite) (nameIdx : Nat) :
    ∀ l ti, scanTerminal s nameIdx l = .okTest ti →
      ∃ c ∈ l, unpack c = .test ti
        ∧ (s.tests.getD ti default).name = nameIdx := by
  intro l
  induction l with
  | nil => intro ti h; cases h
  | cons c rest ih =>
      intro ti h
      simp only [scanTerminal] at h
      cases hu : unpack c with
      | none => simp only [hu] at h; cases h
      | test ti' =>
          simp only [hu] at h
          by_cases hif : (s.tests.getD ti' default).name = nameIdx
          · rw [if_pos hif] at h
            cases h
            exact ⟨c, List.mem_cons_self _ _, hu, hif⟩
          · rw [if_neg hif] at h
            obtain ⟨c', hm, hup, hn⟩ := ih ti h
            exact ⟨c', List.mem_cons_of_mem _ hm, hup, hn⟩
      | group gi =>
          simp only [hu] at h
          by_cases hif : (s.groups.getD gi default).name = nameIdx
          · rw [if_pos hif] at h; cases h
          · rw [if_neg hif] at h
            obtain ⟨c', hm, hup, hn⟩ := ih ti h
            exact ⟨c', List.mem_cons_of_mem _ hm, hup, hn⟩

lemma scanT_conflict_inv (s : Suite) (nameIdx : Nat) :
    ∀ l, scanTerminal s nameIdx l = .conflict →
      ∃ c ∈ l, ∃ ci, unpack c = .group ci
        ∧ (s.groups.getD ci default).name = nameIdx := by
  intro l
  induction l with
  | nil => intro h; cases h
  | cons c rest ih =>
      intro h
      simp only [scanTerminal] at h
      cases hu : unpack c with
      | none => simp only [hu] at h; cases h
      | test ti =>
          simp only [hu] at h
          by_cases hif : (s.tests.getD ti default).name = nameIdx
          · rw [if_pos hif] at h; cases h
          · rw [if_neg hif] at h
            obtain ⟨c', hm, ci', hup, hn⟩ := ih h
            exact ⟨c', List.mem_cons_of_mem _ hm, ci', hup, hn⟩
      | group gi =>
          simp only [hu] at h
          by_cases hif : (s.groups.getD gi default).name = nameIdx
          · exact ⟨c, List.mem_cons_self _ _, gi, hu, hif⟩
          · rw [if_neg hif] at h
            obtain ⟨c', hm, ci', hup, hn⟩ := ih h
            exact ⟨c', List.mem_cons_of_mem _ hm, ci', hup, hn⟩

lemma scanT_notFound_inv (s : Suite) (nameIdx : Nat) :
    ∀ l, scanTerminal s nameIdx l = .notFound →
      ∀ c ∈ l, childNameIdx s c ≠ nameIdx := by
  intro l
  induction l with
  | nil => intro _ c hc; simp at hc
  | cons c rest ih =>
      intro h c' hc'
      simp only [scanTerminal] at h
      cases hu : unpack c with
      | none => simp only [hu] at h; cases h
      | test ti =>
          simp only [hu] at h
          by_cases hif : (s.tests.getD ti default).name = nameIdx
          · rw [if_pos hif] at h; cases h
          · rw [if_neg hif] at h
            rcases List.mem_cons.mp hc' with rfl | hmem
            · rw [childNameIdx_test s c' ti hu]; exact hif
            · exact ih h c' hmem
      | group gi =>
          simp only [hu] at h
          by_cases hif : (s.groups.getD gi default).name = nameIdx
          · rw [if_pos hif] at h; cases h
          · rw [if_neg hif] at h
            rcases List.mem_cons.mp hc' with rfl | hmem
            · rw [childNameIdx_group s c' gi hu]; exact hif
            · exact ih h c' hmem

lemma pack_group_inv (ci x : Nat) (h : AnyRef.pack (.group ci) = some x) :
    ci < 2 ^ 30 ∧ x = 2 ^ 31 + ci := by
  simp only [AnyRef.pack] at h
  by_cases hc : ci < 2 ^ 30
  · rw [if_pos hc] at h
    cases h
    exact ⟨hc, rfl⟩
  · rw [if_neg hc] at h
    cases h

lemma pack_test_inv (ti x : Nat) (h : AnyRef.pack (.test ti) = some x) :
    ti < 2 ^ 31 ∧ x = ti := by
  simp only [AnyRef.pack] at h
  by_cases hc : ti < 2 ^ 31
  · rw [if_pos hc] at h
    cases h
    exact ⟨hc, rfl⟩
  · rw [if_neg hc] at h
    cases h

lemma pack_group_eq (ci : Nat) (h : ci < 2 ^ 30) :
    AnyRef.pack (.group ci) = some (2 ^ 31 + ci) := by
  simp only [AnyRef.pack]
  rw [if_pos h]

lemma pack_test_eq (ti : Nat) (h : ti < 2 ^ 31) :
    AnyRef.pack (.test ti) = some ti := by
  simp only [AnyRef.pack]
  rw [if_pos h]

lemma suiteStep_refl (s : Suite) : SuiteStep s s :=
  ⟨rfl, le_refl _, le_refl _, fun _ _ => rfl, fun _ _ => rfl⟩

lemma suiteStep_trans {s₁ s₂ s₃ : Suite} (h1 : SuiteStep s₁ s₂)
    (h2 : SuiteStep s₂ s₃) : SuiteStep s₁ s₃ :=
  ⟨h2.sep_eq.trans h1.sep_eq,
   le_trans h1.groups_mono h2.groups_mono,
   le_trans h1.strings_mono h2.strings_mono,
   fun i hi => (h2.resolve_stable i (lt_of_lt_of_le hi h1.strings_mono)).trans
     (h1.resolve_stable i hi),
   fun gi hgi => (h2.chain_stable gi (lt_of_lt_of_le hgi h1.groups_mono)).trans
     (h1.chain_stable gi hgi)⟩

lemma suiteInv_new (hf : Str → Nat) (sep : Str) : SuiteInv hf (Suite.new sep) := by
  refine ⟨poolInv_new hf, ?_, rfl, rfl, ?_, ?_, ?_, ?_, ?_⟩
  · simp [Suite.new]
  · intro gi h1 h2
    simp [Suite.new] at h2
    omega
  · intro gi h1 h2
    simp [Suite.new] at h2
    omega
  · intro ti h
    simp [Suite.new] at h
  · intro g hg c hc
    have hg0 : g = 0 := by simp [Suite.new] at hg; omega
    subst hg0
    simp [Suite.new] at hc
  · intro g hg
    have hg0 : g = 0 := by simp [Suite.new] at hg; omega
    subst hg0
    simp [Suite.new]

lemma suite_pool_step (hf : Str → Nat) (s : Suite) (str : Str) (r : PoolRef)
    (i : Nat) (σ' : Pool) (hInv : SuiteInv hf s)
    (hput : Pool.put hf s.name_pool str = .ok r i σ') :
    SuiteInv hf { s with name_pool := σ' }
    ∧ SuiteStep s { s with name_pool := σ' } := by
  obtain ⟨hInv', hmono, hres, hi, hresi, hpos, hpres⟩ :=
    put_ok_facts hf s.name_pool str r i σ' hInv.pool_inv hput
  constructor
  · refine ⟨hInv', hInv.groups_ne, hInv.root_parent, hInv.root_name,
      hInv.group_parent, ?_, ?_, hInv.children_sound, hInv.children_names⟩
    · intro gi h1 h2
      obtain ⟨a, b⟩ := hInv.group_name gi h1 h2
      exact ⟨a, lt_of_lt_of_le b hmono⟩
    · intro ti h
      exact lt_of_lt_of_le (hInv.test_name ti h) hmono
  · refine ⟨rfl, le_refl _, hmono, hres, ?_⟩
    intro gi hgi
    exact nameChain_group_ext hf s { s with name_pool := σ' } hInv (le_refl _)
      (fun _ _ => rfl) (fun _ _ => rfl) gi hgi

lemma createGroup_spec (hf : Str → Nat) (s : Suite) (g nameIdx : Nat)
    (hInv : SuiteInv hf s) (hg : g < s.groups.length) (hg30 : g < 2 ^ 30)
    (hk30 : s.groups.length < 2 ^ 30)
    (hn1 : 1 ≤ nameIdx) (hn2 : nameIdx < s.name_pool.strings.length)
    (hfresh : ∀ c ∈ (s.groups.getD g default).children,
      childNameIdx s c ≠ nameIdx) :
    SuiteInv hf (createGroup s g nameIdx)
    ∧ SuiteStep s (createGroup s g nameIdx)
    ∧ (createGroup s g nameIdx).groups.length = s.groups.length + 1
    ∧ (createGroup s g nameIdx).groups.getD s.groups.length default
        = { children := [], parent := 2 ^ 31 + g, name := nameIdx } := by
  have hgroups : (createGroup s g nameIdx).groups
      = pushChild s.groups g (2 ^ 31 + s.groups.length)
        ++ [{ children := [], parent := 2 ^ 31 + g, name := nameIdx }] := rfl
  have hlen2 : (createGroup s g nameIdx).groups.length = s.groups.length + 1 := by
    rw [hgroups, List.length_append, pushChild_length]
    rfl
  have hnew : (createGroup s g nameIdx).groups.getD s.groups.length default
      = { children := [], parent := 2 ^ 31 + g, name := nameIdx } := by
    rw [hgroups]
    nth_rewrite 2 [← pushChild_length s.groups g (2 ^ 31 + s.groups.length)]
    exact getD_append_len (pushChild s.groups g (2 ^ 31 + s.groups.length))
      { children := [], parent := 2 ^ 31 + g, name := nameIdx }
  have hold : ∀ gi, gi < s.groups.length → gi ≠ g →
      (createGroup s g nameIdx).groups.getD gi default
        = s.groups.getD gi default := by
    intro gi h1 h2
    rw [hgroups, getD_append_lt _ _ _ (by rw [pushChild_length]; exact h1),
      pushChild_getD_ne _ _ _ _ h2]
  have holdg : (createGroup s g nameIdx).groups.getD g default
      = { s.groups.getD g default with
          children := (s.groups.getD g default).children
            ++ [2 ^ 31 + s.groups.length] } := by
    rw [hgroups, getD_append_lt _ _ _ (by rw [pushChild_length]; exact hg),
      pushChild_getD_self _ _ _ hg]
  have hpar : ∀ gi, gi < s.groups.length →
      ((createGroup s g nameIdx).groups.getD gi default).parent
        = (s.groups.getD gi default).parent := by
    intro gi h1
    by_cases h2 : gi = g
    · subst h2; rw [holdg]
    · rw [hold gi h1 h2]
  have hnm : ∀ gi, gi < s.groups.length →
      ((createGroup s g nameIdx).groups.getD gi default).name
        = (s.groups.getD gi default).name := by
    intro gi h1
    by_cases h2 : gi = g
    · subst h2; rw [holdg]
    · rw [hold gi h1 h2]
  have hcn : ∀ c, (∀ ci, unpack c = .group ci → ci < s.groups.length) →
      childNameIdx (createGroup s g nameIdx) c = childNameIdx s c := by
    intro c hc
    cases hu : unpack c with
    | none => simp only [childNameIdx, hu]
    | test ti => simp only [childNameIdx, hu]; rfl
    | group ci => simp only [childNameIdx, hu]; exact hnm ci (hc ci hu)
  have hsound := hInv.children_sound
  have hshape : ∀ g', g' < s.groups.length →
      ∀ c ∈ (s.groups.getD g' default).children,
      ∀ ci, unpack c = .group ci → ci < s.groups.length := by
    intro g' hgi c hc ci hu
    rcases hsound g' hgi c hc with ⟨ti, h1, h2, _, _⟩ | ⟨ci', h1, h2, _, h4, _⟩
    · rw [h1, unpack_test ti h2] at hu; cases hu
    · have he : unpack c = .group ci' := by rw [h1]; exact unpack_group ci' h2
      rw [he] at hu
      cases hu
      exact h4
  refine ⟨⟨hInv.pool_inv, ?_, ?_, ?_, ?_, ?_, ?_, ?_, ?_⟩, ?_, hlen2, hnew⟩
  · rw [hlen2]; omega
  · rw [hpar 0 hInv.groups_ne]; exact hInv.root_parent
  · rw [hnm 0 hInv.groups_ne]; exact hInv.root_name
  · intro gi h1 h2
    rw [hlen2] at h2
    by_cases hgi : gi < s.groups.length
    · obtain ⟨pg, hpg, hlt⟩ := hInv.group_parent gi h1 hgi
      exact ⟨pg, by rw [hpar gi hgi]; exact hpg, hlt⟩
    · have hgl : gi = s.groups.length := by omega
      subst hgl
      refine ⟨g, ?_, hg⟩
      rw [hnew]
      exact unpack_group g hg30
  · intro gi h1 h2
    rw [hlen2] at h2
    by_cases hgi : gi < s.groups.length
    · obtain ⟨a, b⟩ := hInv.group_name gi h1 hgi
      rw [hnm gi hgi]
      exact ⟨a, b⟩
    · have hgl : gi = s.groups.length := by omega
      subst hgl
      rw [hnew]
      exact ⟨hn1, hn2⟩
  · intro ti h
    exact hInv.test_name ti h
  · intro g' hg' c hc
    rw [hlen2] at hg'
    by_cases hgi : g' < s.groups.length
    · by_cases hgg : g' = g
      · subst hgg
        rw [holdg] at hc
        have hc' : c ∈ (s.groups.getD g' default).children
            ∨ c = 2 ^ 31 + s.groups.length := by
          simpa using hc
        rcases hc' with hc' | rfl
        · rcases hsound g' hgi c hc' with ⟨ti, h1, h2, h3, h4⟩
            | ⟨ci, h1, h2, h3, h4, h5⟩
          · exact Or.inl ⟨ti, h1, h2, h3, h4⟩
          · exact Or.inr ⟨ci, h1, h2, h3, by rw [hlen2]; omega,
              by rw [hpar ci h4]; exact h5⟩
        · exact Or.inr ⟨s.groups.length, rfl, hk30, hgi, by rw [hlen2]; omega,
            by rw [hnew]; exact unpack_group g' hg30⟩
      · rw [hold g' hgi hgg] at hc
        rcases hsound g' hgi c hc with ⟨ti, h1, h2, h3, h4⟩
          | ⟨ci, h1, h2, h3, h4, h5⟩
        · exact Or.inl ⟨ti, h1, h2, h3, h4⟩
        · exact Or.inr ⟨ci, h1, h2, h3, by rw [hlen2]; omega,
            by rw [hpar ci h4]; exact h5⟩
    · have hgl : g' = s.groups.length := by omega
      subst hgl
      rw [hnew] at hc
      simp at hc
  · intro g' hg'
    rw [hlen2] at hg'
    by_cases hgi : g' < s.groups.length
    · by_cases hgg : g' = g
      · subst hgg
        rw [holdg]
        show ((s.groups.getD g' default).children
            ++ [2 ^ 31 + s.groups.length]).Pairwise _
        apply List.pairwise_append.mpr
        refine ⟨?_, by simp, ?_⟩
        · apply List.Pairwise.imp_of_mem ?_ (hInv.children_names g' hgi)
          intro a b ha hb hab
          rw [hcn a (hshape g' hgi a ha), hcn b (hshape g' hgi b hb)]
          exact hab
        · intro a ha b hb
          have hb' : b = 2 ^ 31 + s.groups.length := by simpa using hb
          subst hb'
          rw [hcn a (hshape g' hgi a ha)]
          have hnn : childNameIdx (createGroup s g' nameIdx)
              (2 ^ 31 + s.groups.length) = nameIdx := by
            rw [childNameIdx_group _ _ _ (unpack_group _ hk30), hnew]
          rw [hnn]
          exact hfresh a ha
      · rw [hold g' hgi hgg]
        apply List.Pairwise.imp_of_mem ?_ (hInv.children_names g' hgi)
        intro a b ha hb hab
        rw [hcn a (hshape g' hgi a ha), hcn b (hshape g' hgi b hb)]
        exact hab
    · have hgl : g' = s.groups.length := by omega
      subst hgl
      rw [hnew]
      exact List.Pairwise.nil
  · refine ⟨rfl, by rw [hlen2]; omega, le_refl _, fun _ _ => rfl, ?_⟩
    intro gi hgi
    exact nameChain_group_ext hf s (createGroup s g nameIdx) hInv
      (by rw [hlen2]; omega) hpar hnm gi hgi

lemma createTest_spec (hf : Str → Nat) (s : Suite) (g nameIdx : Nat)
    (hInv : SuiteInv hf s) (hg : g < s.groups.length) (hg30 : g < 2 ^ 30)
    (ht31 : s.tests.length < 2 ^ 31)
    (hn2 : nameIdx < s.name_pool.strings.length)
    (hfresh : ∀ c ∈ (s.groups.getD g default).children,
      childNameIdx s c ≠ nameIdx) :
    SuiteInv hf (createTest s g nameIdx)
    ∧ SuiteStep s (createTest s g nameIdx)
    ∧ (createTest s g nameIdx).tests.length = s.tests.length + 1
    ∧ (createTest s g nameIdx).tests.getD s.tests.length default
        = { parent := 2 ^ 31 + g, name := nameIdx } := by
  have hgroups : (createTest s g nameIdx).groups
      = pushChild s.groups g s.tests.length := rfl
  have htests : (createTest s g nameIdx).tests
      = s.tests ++ [{ parent := 2 ^ 31 + g, name := nameIdx }] := rfl
  have hglen : (createTest s g nameIdx).groups.length = s.groups.length := by
    rw [hgroups, pushChild_length]
  have htlen : (createTest s g nameIdx).tests.length = s.tests.length + 1 := by
    rw [htests, List.length_append]
    rfl
  have hnewt : (createTest s g nameIdx).tests.getD s.tests.length default
      = { parent := 2 ^ 31 + g, name := nameIdx } := by
    rw [htests]
    exact getD_append_len s.tests { parent := 2 ^ 31 + g, name := nameIdx }
  have holdt : ∀ ti, ti < s.tests.length →
      (createTest s g nameIdx).tests.getD ti default
        = s.tests.getD ti default := by
    intro ti h1
    rw [htests, getD_append_lt _ _ _ h1]
  have hold : ∀ gi, gi ≠ g →
      (createTest s g nameIdx).groups.getD gi default
        = s.groups.getD gi default := by
    intro gi h2
    rw [hgroups, pushChild_getD_ne _ _ _ _ h2]
  have holdg : (createTest s g nameIdx).groups.getD g default
      = { s.groups.getD g default with
          children := (s.groups.getD g default).children ++ [s.tests.length] } := by
    rw [hgroups, pushChild_getD_self _ _ _ hg]
  have hpar : ∀ gi,
      ((createTest s g nameIdx).groups.getD gi default).parent
        = (s.groups.getD gi default).parent := by
    intro gi
    by_cases h2 : gi = g
    · subst h2; rw [holdg]
    · rw [hold gi h2]
  have hnm : ∀ gi,
      ((createTest s g nameIdx).groups.getD gi default).name
        = (s.groups.getD gi default).name := by
    intro gi
    by_cases h2 : gi = g
    · subst h2; rw [holdg]
    · rw [hold gi h2]
  have hcn : ∀ c, (∀ ti, unpack c = .test ti → ti < s.tests.length) →
      childNameIdx (createTest s g nameIdx) c = childNameIdx s c := by
    intro c hc
    cases hu : unpack c with
    | none => simp only [childNameIdx, hu]
    | test ti =>
        simp only [childNameIdx, hu]
        rw [holdt ti (hc ti hu)]
    | group ci => simp only [childNameIdx, hu]; exact hnm ci
  have hsound := hInv.children_sound
  have hshape : ∀ g', g' < s.groups.length →
      ∀ c ∈ (s.groups.getD g' default).children,
      ∀ ti, unpack c = .test ti → ti < s.tests.length := by
    intro g' hgi c hc ti hu
    rcases hsound g' hgi c hc with ⟨ti', h1, h2, h3, _⟩ | ⟨ci', h1, h2, _, _, _⟩
    · have he : unpack c = .test ti' := by rw [h1]; exact unpack_test ti' h2
      rw [he] at hu
      cases hu
      exact h3
    · rw [h1, unpack_group ci' h2] at hu; cases hu
  refine ⟨⟨hInv.pool_inv, ?_, ?_, ?_, ?_, ?_, ?_, ?_, ?_⟩, ?_, htlen, hnewt⟩
  · rw [hglen]; exact hInv.groups_ne
  · rw [hpar 0]; exact hInv.root_parent
  · rw [hnm 0]; exact hInv.root_name
  · intro gi h1 h2
    rw [hglen] at h2
    obtain ⟨pg, hpg, hlt⟩ := hInv.group_parent gi h1 h2
    exact ⟨pg, by rw [hpar gi]; exact hpg, hlt⟩
  · intro gi h1 h2
    rw [hglen] at h2
    obtain ⟨a, b⟩ := hInv.group_name gi h1 h2
    rw [hnm gi]
    exact ⟨a, b⟩
  · intro ti h
    rw [htlen] at h
    by_cases hti : ti < s.tests.length
    · rw [holdt ti hti]
      exact hInv.test_name ti hti
    · have hl : ti = s.tests.length := by omega
      subst hl
      rw [hnewt]
      exact hn2
  · intro g' hg' c hc
    rw [hglen] at hg'
    by_cases hgg : g' = g
    · subst hgg
      rw [holdg] at hc
      have hc' : c ∈ (s.groups.getD g' default).children
          ∨ c = s.tests.length := by
        simpa using hc
      rcases hc' with hc' | rfl
      · rcases hsound g' hg' c hc' with ⟨ti, h1, h2, h3, h4⟩
          | ⟨ci, h1, h2, h3, h4, h5⟩
        · exact Or.inl ⟨ti, h1, h2, by rw [htlen]; omega,
            by rw [holdt ti h3]; exact h4⟩
        · exact Or.inr ⟨ci, h1, h2, h3, by rw [hglen]; exact h4,
            by rw [hpar ci]; exact h5⟩
      · exact Or.inl ⟨s.tests.length, rfl, ht31, by rw [htlen]; omega,
          by rw [hnewt]; exact unpack_group g' hg30⟩
    · rw [hold g' hgg] at hc
      rcases hsound g' hg' c hc with ⟨ti, h1, h2, h3, h4⟩
        | ⟨ci, h1, h2, h3, h4, h5⟩
      · exact Or.inl ⟨ti, h1, h2, by rw [htlen]; omega,
          by rw [holdt ti h3]; exact h4⟩
      · exact Or.inr ⟨ci, h1, h2, h3, by rw [hglen]; exact h4,
          by rw [hpar ci]; exact h5⟩
  · intro g' hg'
    rw [hglen] at hg'
    by_cases hgg : g' = g
    · subst hgg
      rw [holdg]
      show ((s.groups.getD g' default).children ++ [s.tests.length]).Pairwise _
      apply List.pairwise_append.mpr
      refine ⟨?_, by simp, ?_⟩
      · apply List.Pairwise.imp_of_mem ?_ (hInv.children_names g' hg')
        intro a b ha hb hab
        rw [hcn a (hshape g' hg' a ha), hcn b (hshape g' hg' b hb)]
        exact hab
      · intro a ha b hb
        have hb' : b = s.tests.length := by simpa using hb
        subst hb'
        rw [hcn a (hshape g' hg' a ha)]
        have hnn : childNameIdx (createTest s g' nameIdx) s.tests.length
            = nameIdx := by
          rw [childNameIdx_test _ _ _ (unpack_test _ ht31), hnewt]
        rw [hnn]
        exact hfresh a ha
    · rw [hold g' hgg]
      apply List.Pairwise.imp_of_mem ?_ (hInv.children_names g' hg')
      intro a b ha hb hab
      rw [hcn a (hshape g' hg' a ha), hcn b (hshape g' hg' b hb)]
      exact hab
  · refine ⟨rfl, by rw [hglen], le_refl _, fun _ _ => rfl, ?_⟩
    intro gi hgi
    exact nameChain_group_ext hf s (createTest s g nameIdx) hInv
      (by rw [hglen]) (fun x _ => hpar x) (fun x _ => hnm x) gi hgi

/-! ### Unfolding lemmas for `Suite.putAux` -/

lemma putAux_zero (hf : Str → Nat) (s : Suite) (g : Nat) (p : Str) :
    Suite.putAux hf 0 s g p = .panic := rfl

lemma putAux_emptySeg (hf : Str → Nat) (fuel : Nat) (s : Suite) (g : Nat)
    (p n r : Str) (hsp : splitOnce s.separator p = some (n, r)) (hn : n = []) :
    Suite.putAux hf (fuel + 1) s g p = .error s := by
  simp only [Suite.putAux, hsp]
  rw [if_pos hn]

lemma putAux_poolPanic (hf : Str → Nat) (fuel : Nat) (s : Suite) (g : Nat)
    (p n r : Str) (hsp : splitOnce s.separator p = some (n, r)) (hn : n ≠ [])
    (hput : Pool.put hf s.name_pool n = .panic) :
    Suite.putAux hf (fuel + 1) s g p = .panic := by
  simp only [Suite.putAux, hsp]
  rw [if_neg hn]
  simp only [hput]

lemma putAux_poolError (hf : Str → Nat) (fuel : Nat) (s : Suite) (g : Nat)
    (p n r : Str) (p'' : Pool)
    (hsp : splitOnce s.separator p = some (n, r)) (hn : n ≠ [])
    (hput : Pool.put hf s.name_pool n = .error p'') :
    Suite.putAux hf (fuel + 1) s g p = .error { s with name_pool := p'' } := by
  simp only [Suite.putAux, hsp]
  rw [if_neg hn]
  simp only [hput]

lemma putAux_scanPanic (hf : Str → Nat) (fuel : Nat) (s : Suite) (g : Nat)
    (p n r : Str) (r₀ : PoolRef) (nameIdx : Nat) (p' : Pool)
    (hsp : splitOnce s.separator p = some (n, r)) (hn : n ≠ [])
    (hput : Pool.put hf s.name_pool n = .ok r₀ nameIdx p')
    (hscan : scanNonTerminal { s with name_pool := p' } nameIdx
      (s.groups.getD g default).children = .panicked) :
    Suite.putAux hf (fuel + 1) s g p = .panic := by
  simp only [Suite.putAux, hsp]
  rw [if_neg hn]
  simp only [hput, hscan]

lemma putAux_scanConflict (hf : Str → Nat) (fuel : Nat) (s : Suite) (g : Nat)
    (p n r : Str) (r₀ : PoolRef) (nameIdx : Nat) (p' : Pool)
    (hsp : splitOnce s.separator p = some (n, r)) (hn : n ≠ [])
    (hput : Pool.put hf s.name_pool n = .ok r₀ nameIdx p')
    (hscan : scanNonTerminal { s with name_pool := p' } nameIdx
      (s.groups.getD g default).children = .conflict) :
    Suite.putAux hf (fuel + 1) s g p = .error { s with name_pool := p' } := by
  simp only [Suite.putAux, hsp]
  rw [if_neg hn]
  simp only [hput, hscan]

lemma putAux_scanFound (hf : Str → Nat) (fuel : Nat) (s : Suite) (g : Nat)
    (p n r : Str) (r₀ : PoolRef) (nameIdx ci : Nat) (p' : Pool)
    (hsp : splitOnce s.separator p = some (n, r)) (hn : n ≠ [])
    (hput : Pool.put hf s.name_pool n = .ok r₀ nameIdx p')
    (hscan : scanNonTerminal { s with name_pool := p' } nameIdx
      (s.groups.getD g default).children = .foundGroup ci) :
    Suite.putAux hf (fuel + 1) s g p
      = Suite.putAux hf fuel { s with name_pool := p' } ci r := by
  simp only [Suite.putAux, hsp]
  rw [if_neg hn]
  simp only [hput, hscan]

lemma putAux_cap (hf : Str → Nat) (fuel : Nat) (s : Suite) (g : Nat)
    (p n r : Str) (r₀ : PoolRef) (nameIdx : Nat) (p' : Pool)
    (hsp : splitOnce s.separator p = some (n, r)) (hn : n ≠ [])
    (hput : Pool.put hf s.name_pool n = .ok r₀ nameIdx p')
    (hscan : scanNonTerminal { s with name_pool := p' } nameIdx
      (s.groups.getD g default).children = .notFound)
    (hcap : s.groups.length = 2 ^ 32 - 1) :
    Suite.putAux hf (fuel + 1) s g p = .error { s with name_pool := p' } := by
  simp only [Suite.putAux, hsp]
  rw [if_neg hn]
  simp only [hput, hscan]
  rw [if_pos hcap]

lemma putAux_create (hf : Str → Nat) (fuel : Nat) (s : Suite) (g : Nat)
    (p n r : Str) (r₀ : PoolRef) (nameIdx : Nat) (p' : Pool)
    (hsp : splitOnce s.separator p = some (n, r)) (hn : n ≠ [])
    (hput : Pool.put hf s.name_pool n = .ok r₀ nameIdx p')
    (hscan : scanNonTerminal { s with name_pool := p' } nameIdx
      (s.groups.getD g default).children = .notFound)
    (hcap : s.groups.length ≠ 2 ^ 32 - 1) :
    Suite.putAux hf (fuel + 1) s g p
      = match AnyRef.pack (.group s.groups.length), AnyRef.pack (.group g) with
        | some pc, some pp =>
            Suite.putAux hf fuel
              { s with
                groups := pushChild s.groups g pc
                  ++ [{ children := [], parent := pp, name := nameIdx }]
                name_pool := p' }
              s.groups.length r
        | _, _ => .panic := by
  simp only [Suite.putAux, hsp]
  rw [if_neg hn]
  simp only [hput, hscan]
  rw [if_neg hcap]

lemma putAux_term_poolPanic (hf : Str → Nat) (fuel : Nat) (s : Suite) (g : Nat)
    (p : Str) (hsp : splitOnce s.separator p = none)
    (hput : Pool.put hf s.name_pool p = .panic) :
    Suite.putAux hf (fuel + 1) s g p = .panic := by
  simp only [Suite.putAux, hsp]
  simp only [hput]

lemma putAux_term_poolError (hf : Str → Nat) (fuel : Nat) (s : Suite) (g : Nat)
    (p : Str) (p'' : Pool) (hsp : splitOnce s.separator p = none)
    (hput : Pool.put hf s.name_pool p = .error p'') :
    Suite.putAux hf (fuel + 1) s g p = .error { s with name_pool := p'' } := by
  simp only [Suite.putAux, hsp]
  simp only [hput]

lemma putAux_term_scanPanic (hf : Str → Nat) (fuel : Nat) (s : Suite) (g : Nat)
    (p : Str) (r₀ : PoolRef) (nameIdx : Nat) (p' : Pool)
    (hsp : splitOnce s.separator p = none)
    (hput : Pool.put hf s.name_pool p = .ok r₀ nameIdx p')
    (hscan : scanTerminal { s with name_pool := p' } nameIdx
      (s.groups.getD g default).children = .panicked) :
    Suite.putAux hf (fuel + 1) s g p = .panic := by
  simp only [Suite.putAux, hsp]
  simp only [hput, hscan]

lemma putAux_term_hit (hf : Str → Nat) (fuel : Nat) (s : Suite) (g : Nat)
    (p : Str) (r₀ : PoolRef) (nameIdx ti : Nat) (p' : Pool)
    (hsp : splitOnce s.separator p = none)
    (hput : Pool.put hf s.name_pool p = .ok r₀ nameIdx p')
    (hscan : scanTerminal { s with name_pool := p' } nameIdx
      (s.groups.getD g default).children = .okTest ti) :
    Suite.putAux hf (fuel + 1) s g p = .ok ti { s with name_pool := p' } := by
  simp only [Suite.putAux, hsp]
  simp only [hput, hscan]

lemma putAux_term_conflict (hf : Str → Nat) (fuel : Nat) (s : Suite) (g : Nat)
    (p : Str) (r₀ : PoolRef) (nameIdx : Nat) (p' : Pool)
    (hsp : splitOnce s.separator p = none)
    (hput : Pool.put hf s.name_pool p = .ok r₀ nameIdx p')
    (hscan : scanTerminal { s with name_pool := p' } nameIdx
      (s.groups.getD g default).children = .conflict) :
    Suite.putAux hf (fuel + 1) s g p = .error { s with name_pool := p' } := by
  simp only [Suite.putAux, hsp]
  simp only [hput, hscan]

lemma putAux_term_cap (hf : Str → Nat) (fuel : Nat) (s : Suite) (g : Nat)
    (p : Str) (r₀ : PoolRef) (nameIdx : Nat) (p' : Pool)
    (hsp : splitOnce s.separator p = none)
    (hput : Pool.put hf s.name_pool p = .ok r₀ nameIdx p')
    (hscan : scanTerminal { s with name_pool := p' } nameIdx
      (s.groups.getD g default).children = .notFound)
    (hcap : s.tests.length = 2 ^ 32 - 1) :
    Suite.putAux hf (fuel + 1) s g p = .error { s with name_pool := p' } := by
  simp only [Suite.putAux, hsp]
  simp only [hput, hscan]
  rw [if_pos hcap]

lemma putAux_term_create (hf : Str → Nat) (fuel : Nat) (s : Suite) (g : Nat)
    (p : Str) (r₀ : PoolRef) (nameIdx : Nat) (p' : Pool)
    (hsp : splitOnce s.separator p = none)
    (hput : Pool.put hf s.name_pool p = .ok r₀ nameIdx p')
    (hscan : scanTerminal { s with name_pool := p' } nameIdx
      (s.groups.getD g default).children = .notFound)
    (hcap : s.tests.length ≠ 2 ^ 32 - 1) :
    Suite.putAux hf (fuel + 1) s g p
      = match AnyRef.pack (.test s.tests.length), AnyRef.pack (.group g) with
        | some pt, some pp =>
            .ok s.tests.length
              { s with
                groups := pushChild s.groups g pt
                tests := s.tests ++ [{ parent := pp, name := nameIdx }]
                name_pool := p' }
        | _, _ => .panic := by
  simp only [Suite.putAux, hsp]
  simp only [hput, hscan]
  rw [if_neg hcap]

lemma children_not_none (hf : Str → Nat) (s : Suite) (hInv : SuiteInv hf s)
    (g : Nat) (hg : g < s.groups.length) :
    ∀ c ∈ (s.groups.getD g default).children, unpack c ≠ .none := by
  intro c hc
  rcases hInv.children_sound g hg c hc with ⟨ti, h1, h2, _, _⟩ | ⟨ci, h1, h2, _, _, _⟩
  · rw [h1, unpack_test ti h2]
    intro h
    exact AnyRef.noConfusion h
  · rw [h1, unpack_group ci h2]
    intro h
    exact AnyRef.noConfusion h

lemma child_test_facts (hf : Str → Nat) (s : Suite) (hInv : SuiteInv hf s)
    (g : Nat) (hg : g < s.groups.length) (c ti : Nat)
    (hc : c ∈ (s.groups.getD g default).children) (hu : unpack c = .test ti) :
    ti < s.tests.length
    ∧ unpack (s.tests.getD ti default).parent = .group g := by
  rcases hInv.children_sound g hg c hc with ⟨ti', h1, h2, h3, h4⟩
    | ⟨ci', h1, h2, _, _, _⟩
  · have he : unpack c = .test ti' := by rw [h1]; exact unpack_test ti' h2
    rw [he] at hu
    cases hu
    exact ⟨h3, h4⟩
  · rw [h1, unpack_group ci' h2] at hu
    cases hu

lemma child_group_facts (hf : Str → Nat) (s : Suite) (hInv : SuiteInv hf s)
    (g : Nat) (hg : g < s.groups.length) (c ci : Nat)
    (hc : c ∈ (s.groups.getD g default).children) (hu : unpack c = .group ci) :
    1 ≤ ci ∧ ci < s.groups.length
    ∧ unpack (s.groups.getD ci default).parent = .group g := by
  rcases hInv.children_sound g hg c hc with ⟨ti', h1, h2, _, _⟩
    | ⟨ci', h1, h2, h3, h4, h5⟩
  · rw [h1, unpack_test ti' h2] at hu
    cases hu
  · have he : unpack c = .group ci' := by rw [h1]; exact unpack_group ci' h2
    rw [he] at hu
    cases hu
    exact ⟨by omega, h4, h5⟩

lemma fresh_children_nil (s : Suite) (g nameIdx : Nat) (pc pp : Nat) (p' : Pool) :
    (({ s with
        groups := pushChild s.groups g pc
          ++ [{ children := [], parent := pp, name := nameIdx }]
        name_pool := p' } : Suite).groups.getD s.groups.length default).children
      = [] := by
  show ((pushChild s.groups g pc
      ++ [({ children := [], parent := pp, name := nameIdx } : SuiteGroup)]).getD
        s.groups.length default).children = []
  rw [← pushChild_length s.groups g pc,
    getD_append_len (pushChild s.groups g pc)
      ({ children := [], parent := pp, name := nameIdx } : SuiteGroup)]

lemma fresh_ok_no_laterEmpty (hf : Str → Nat) (sep : Str) :
    ∀ p, LaterEmpty sep p → ∀ fuel (s : Suite) g t s', s.separator = sep →
      (s.groups.getD g default).children = [] →
      Suite.putAux hf fuel s g p ≠ .ok t s' := by
  intro p hle
  induction hle with
  | @here p n r hsp hn =>
      intro fuel s g t s' hsepe hch h
      cases fuel with
      | zero => rw [putAux_zero] at h; cases h
      | succ f =>
          rw [putAux_emptySeg hf f s g p n r (by rw [hsepe]; exact hsp) hn] at h
          cases h
  | @there p n r hsp hle ih =>
      intro fuel s g t s' hsepe hch h
      cases fuel with
      | zero => rw [putAux_zero] at h; cases h
      | succ f =>
          have hsp' : splitOnce s.separator p = some (n, r) := by
            rw [hsepe]; exact hsp
          by_cases hn : n = []
          · rw [putAux_emptySeg hf f s g p n r hsp' hn] at h
            cases h
          · cases hput : Pool.put hf s.name_pool n with
            | panic =>
                rw [putAux_poolPanic hf f s g p n r hsp' hn hput] at h
                cases h
            | error p'' =>
                rw [putAux_poolError hf f s g p n r p'' hsp' hn hput] at h
                cases h
            | ok r₀ nameIdx p' =>
                have hscan : scanNonTerminal { s with name_pool := p' } nameIdx
                    (s.groups.getD g default).children = .notFound := by
                  rw [hch]; rfl
                by_cases hcap : s.groups.length = 2 ^ 32 - 1
                · rw [putAux_cap hf f s g p n r r₀ nameIdx p' hsp' hn hput
                    hscan hcap] at h
                  cases h
                · rw [putAux_create hf f s g p n r r₀ nameIdx p' hsp' hn hput
                    hscan hcap] at h
                  cases hpc : AnyRef.pack (.group s.groups.length) with
                  | none => simp only [hpc] at h; cases h
                  | some pc =>
                      cases hpp : AnyRef.pack (.group g) with
                      | none => simp only [hpc, hpp] at h; cases h
                      | some pp =>
                          simp only [hpc, hpp] at h
                          exact ih f
                            { s with
                              groups := pushChild s.groups g pc
                                ++ [{ children := [], parent := pp,
                                      name := nameIdx }]
                              name_pool := p' }
                            s.groups.length t s' hsepe
                            (fresh_children_nil s g nameIdx pc pp p') h

lemma fresh_error_laterEmpty (hf : Str → Nat) :
    ∀ fuel (s : Suite) g (p : Str) s'',
      s.separator ≠ [] →
      (s.groups.getD g default).children = [] →
      s.name_pool.pool.length + p.length < 2 ^ 32 - 1 →
      s.name_pool.strings.length + p.length + 1 < 2 ^ 32 - 1 →
      s.groups.length + p.length ≤ 2 ^ 30 →
      s.tests.length < 2 ^ 31 →
      Suite.putAux hf fuel s g p = .error s'' →
      LaterEmpty s.separator p := by
  intro fuel
  induction fuel with
  | zero =>
      intro s g p s'' _ _ _ _ _ _ h
      rw [putAux_zero] at h
      cases h
  | succ f ih =>
      intro s g p s'' hsep hch hpb hsb hgb htb h
      cases hsp : splitOnce s.separator p with
      | some pr =>
          obtain ⟨n, r⟩ := pr
          by_cases hn : n = []
          · exact LaterEmpty.here hsp hn
          · have hple := splitOnce_eq s.separator p n r hsp
            have hlen : p.length = n.length + s.separator.length + r.length := by
              rw [hple, List.length_append, List.length_append]
            have hsep1 : 1 ≤ s.separator.length := List.length_pos.mpr hsep
            have hn1 : 1 ≤ n.length := List.length_pos.mpr hn
            cases hput : Pool.put hf s.name_pool n with
            | panic =>
                rw [putAux_poolPanic hf f s g p n r hsp hn hput] at h
                cases h
            | error p'' =>
                rcases put_error_conditions hf s.name_pool n p'' hput
                  with h1 | h1 | h1 <;> omega
            | ok r₀ nameIdx p' =>
                have hscan : scanNonTerminal { s with name_pool := p' } nameIdx
                    (s.groups.getD g default).children = .notFound := by
                  rw [hch]; rfl
                by_cases hcap : s.groups.length = 2 ^ 32 - 1
                · omega
                · rw [putAux_create hf f s g p n r r₀ nameIdx p' hsp hn hput
                    hscan hcap] at h
                  cases hpc : AnyRef.pack (.group s.groups.length) with
                  | none => simp only [hpc] at h; cases h
                  | some pc =>
                      cases hpp : AnyRef.pack (.group g) with
                      | none => simp only [hpc, hpp] at h; cases h
                      | some pp =>
                          simp only [hpc, hpp] at h
                          obtain ⟨hgr1, hgr2⟩ :=
                            put_ok_growth hf s.name_pool n r₀ nameIdx p' hput
                          refine LaterEmpty.there hsp (ih
                            { s with
                              groups := pushChild s.groups g pc
                                ++ [{ children := [], parent := pp,
                                      name := nameIdx }]
                              name_pool := p' }
                            s.groups.length r s'' hsep
                            (fresh_children_nil s g nameIdx pc pp p')
                            ?_ ?_ ?_ htb h)
                          · show p'.pool.length + r.length < 2 ^ 32 - 1
                            omega
                          · show p'.strings.length + r.length + 1 < 2 ^ 32 - 1
                            omega
                          · show (pushChild s.groups g pc ++ ([{ children := [], parent := pp, name := nameIdx }] : List SuiteGroup)).length + r.length ≤ 2 ^ 30
                            rw [List.length_append, pushChild_length]
                            have hone : ([{ children := [], parent := pp, name := nameIdx }] : List SuiteGroup).length = 1 := rfl
                            omega
      | none =>
          cases hput : Pool.put hf s.name_pool p with
          | panic =>
              rw [putAux_term_poolPanic hf f s g p hsp hput] at h
              cases h
          | error p'' =>
              rcases put_error_conditions hf s.name_pool p p'' hput
                with h1 | h1 | h1 <;> omega
          | ok r₀ nameIdx p' =>
              have hscan : scanTerminal { s with name_pool := p' } nameIdx
                  (s.groups.getD g default).children = .notFound := by
                rw [hch]; rfl
              by_cases hcap : s.tests.length = 2 ^ 32 - 1
              · omega
              · rw [putAux_term_create hf f s g p r₀ nameIdx p' hsp hput
                  hscan hcap] at h
                cases hpt : AnyRef.pack (.test s.tests.length) with
                | none => simp only [hpt] at h; cases h
                | some pt =>
                    cases hpp : AnyRef.pack (.group g) with
                    | none => simp only [hpt, hpp] at h; cases h
                    | some pp => simp only [hpt, hpp] at h; cases h

lemma testAtWalk_ok (hf : Str → Nat) (s : Suite) :
    ∀ {g p ti}, TestAtWalk s g p ti → SuiteInv hf s → g < s.groups.length →
      s.separator ≠ [] → ∀ fuel, p.length < fuel →
      Suite.putAux hf fuel s g p = .ok ti s := by
  intro g p ti hw
  induction hw with
  | @here g p ti hsp hct =>
      intro hInv hg hsep fuel hfuel
      obtain ⟨f, rfl⟩ : ∃ f, fuel = f + 1 := ⟨fuel - 1, by omega⟩
      obtain ⟨c, hcmem, hu, hres⟩ := hct
      simp only [resolve] at hres
      obtain ⟨hti, hpart⟩ := child_test_facts hf s hInv g hg c ti hcmem hu
      have hnlt := hInv.test_name ti hti
      by_cases hp0 : p = []
      · subst hp0
        have hname0 : (s.tests.getD ti default).name = 0 := by
          by_contra hne
          exact resolveP_ne_nil hf s.name_pool hInv.pool_inv _ (by omega) hnlt hres
        have hput : Pool.put hf s.name_pool [] = .ok ⟨0, 0⟩ 0 s.name_pool :=
          put_nil hf s.name_pool
        have hscan : scanTerminal { s with name_pool := s.name_pool } 0
            (s.groups.getD g default).children = .okTest ti :=
          scanT_found s 0 _ (children_not_none hf s hInv g hg)
            (hInv.children_names g hg) c hcmem ti hu hname0
        rw [putAux_term_hit hf f s g [] ⟨0, 0⟩ 0 ti s.name_pool hsp hput hscan]
      · have hn1 : 1 ≤ (s.tests.getD ti default).name := by
          by_contra h0
          have h00 : (s.tests.getD ti default).name = 0 := by omega
          rw [h00, resolveP_zero hf s.name_pool hInv.pool_inv] at hres
          exact hp0 hres.symm
        have hcont : PoolContains s.name_pool p
            (stringAt s.name_pool (s.tests.getD ti default).name)
            (s.tests.getD ti default).name := ⟨hn1, hnlt, rfl, hres⟩
        have hput := put_hit hf s.name_pool p _ _ hInv.pool_inv hcont
        have hscan : scanTerminal { s with name_pool := s.name_pool }
            (s.tests.getD ti default).name
            (s.groups.getD g default).children = .okTest ti :=
          scanT_found s _ _ (children_not_none hf s hInv g hg)
            (hInv.children_names g hg) c hcmem ti hu rfl
        rw [putAux_term_hit hf f s g p _ _ ti s.name_pool hsp hput hscan]
  | @descend g p n r ci ti hsp hn hcg hw ih =>
      intro hInv hg hsep fuel hfuel
      obtain ⟨f, rfl⟩ : ∃ f, fuel = f + 1 := ⟨fuel - 1, by omega⟩
      obtain ⟨c, hcmem, hu, hres⟩ := hcg
      simp only [resolve] at hres
      obtain ⟨hci1, hciL, hparci⟩ := child_group_facts hf s hInv g hg c ci hcmem hu
      obtain ⟨ha, hb⟩ := hInv.group_name ci hci1 hciL
      have hcont : PoolContains s.name_pool n
          (stringAt s.name_pool (s.groups.getD ci default).name)
          (s.groups.getD ci default).name := ⟨ha, hb, rfl, hres⟩
      have hput := put_hit hf s.name_pool n _ _ hInv.pool_inv hcont
      have hscan : scanNonTerminal { s with name_pool := s.name_pool }
          (s.groups.getD ci default).name
          (s.groups.getD g default).children = .foundGroup ci :=
        scanNT_found s _ _ (children_not_none hf s hInv g hg)
          (hInv.children_names g hg) c hcmem ci hu rfl
      rw [putAux_scanFound hf f s g p n r _ _ ci s.name_pool hsp hn hput hscan]
      have hr : r.length < f := by
        have hple := splitOnce_eq s.separator p n r hsp
        have h1 : 1 ≤ s.separator.length := List.length_pos.mpr hsep
        have h2 : 1 ≤ n.length := List.length_pos.mpr hn
        have h3 : p.length = n.length + s.separator.length + r.length := by
          rw [hple, List.length_append, List.length_append]
        omega
      exact ih hInv hciL hsep f hr

lemma errWalk_not_ok (hf : Str → Nat) (s : Suite) :
    ∀ {g p}, ErrWalk s g p → SuiteInv hf s → g < s.groups.length →
      s.separator ≠ [] → ∀ fuel t s', Suite.putAux hf fuel s g p ≠ .ok t s' := by
  intro g p hw
  induction hw with
  | @emptySeg g p n r hsp hn =>
      intro hInv hg hsep fuel t s' h
      cases fuel with
      | zero => rw [putAux_zero] at h; cases h
      | succ f => rw [putAux_emptySeg hf f s g p n r hsp hn] at h; cases h
  | @testConflict g p n r ti hsp hn hct =>
      intro hInv hg hsep fuel t s' h
      cases fuel with
      | zero => rw [putAux_zero] at h; cases h
      | succ f =>
          obtain ⟨c, hcmem, hu, hres⟩ := hct
          simp only [resolve] at hres
          obtain ⟨hti, _⟩ := child_test_facts hf s hInv g hg c ti hcmem hu
          have hnlt := hInv.test_name ti hti
          have hn1 : 1 ≤ (s.tests.getD ti default).name := by
            by_contra h0
            have h00 : (s.tests.getD ti default).name = 0 := by omega
            rw [h00, resolveP_zero hf s.name_pool hInv.pool_inv] at hres
            exact hn hres.symm
          have hcont : PoolContains s.name_pool n
              (stringAt s.name_pool (s.tests.getD ti default).name)
              (s.tests.getD ti default).name := ⟨hn1, hnlt, rfl, hres⟩
          have hput := put_hit hf s.name_pool n _ _ hInv.pool_inv hcont
          have hscan : scanNonTerminal { s with name_pool := s.name_pool }
              (s.tests.getD ti default).name
              (s.groups.getD g default).children = .conflict :=
            scanNT_conflict s _ _ (children_not_none hf s hInv g hg)
              (hInv.children_names g hg) c hcmem ti hu rfl
          rw [putAux_scanConflict hf f s g p n r _ _ s.name_pool hsp hn
            hput hscan] at h
          cases h
  | @descend g p n r ci hsp hn hnt hcg hsub ih =>
      intro hInv hg hsep fuel t s' h
      cases fuel with
      | zero => rw [putAux_zero] at h; cases h
      | succ f =>
          obtain ⟨c, hcmem, hu, hres⟩ := hcg
          simp only [resolve] at hres
          obtain ⟨hci1, hciL, hparci⟩ :=
            child_group_facts hf s hInv g hg c ci hcmem hu
          obtain ⟨ha, hb⟩ := hInv.group_name ci hci1 hciL
          have hcont : PoolContains s.name_pool n
              (stringAt s.name_pool (s.groups.getD ci default).name)
              (s.groups.getD ci default).name := ⟨ha, hb, rfl, hres⟩
          have hput := put_hit hf s.name_pool n _ _ hInv.pool_inv hcont
          have hscan : scanNonTerminal { s with name_pool := s.name_pool }
              (s.groups.getD ci default).name
              (s.groups.getD g default).children = .foundGroup ci :=
            scanNT_found s _ _ (children_not_none hf s hInv g hg)
              (hInv.children_names g hg) c hcmem ci hu rfl
          rw [putAux_scanFound hf f s g p n r _ _ ci s.name_pool hsp hn
            hput hscan] at h
          exact ih hInv hciL hsep f t s' h
  | @freshEmpty g p n r hsp hn hnt hng hle =>
      intro hInv hg hsep fuel t s' h
      cases fuel with
      | zero => rw [putAux_zero] at h; cases h
      | succ f =>
          cases hput : Pool.put hf s.name_pool n with
          | panic =>
              rw [putAux_poolPanic hf f s g p n r hsp hn hput] at h
              cases h
          | error p'' =>
              rw [putAux_poolError hf f s g p n r p'' hsp hn hput] at h
              cases h
          | ok r₀ nameIdx p' =>
              obtain ⟨hInvP, hmono, hres, hiL, hresi, hpos, _⟩ :=
                put_ok_facts hf s.name_pool n r₀ nameIdx p' hInv.pool_inv hput
              cases hscan : scanNonTerminal { s with name_pool := p' } nameIdx
                  (s.groups.getD g default).children with
              | panicked =>
                  rw [putAux_scanPanic hf f s g p n r r₀ nameIdx p' hsp hn
                    hput hscan] at h
                  cases h
              | conflict =>
                  rw [putAux_scanConflict hf f s g p n r r₀ nameIdx p' hsp hn
                    hput hscan] at h
                  cases h
              | foundGroup ci =>
                  obtain ⟨c, hcmem, hu, hname⟩ :=
                    scanNT_found_inv { s with name_pool := p' } nameIdx _ ci hscan
                  have hname' : (s.groups.getD ci default).name = nameIdx := hname
                  obtain ⟨hci1, hciL, _⟩ :=
                    child_group_facts hf s hInv g hg c ci hcmem hu
                  have hblt := (hInv.group_name ci hci1 hciL).2
                  have hnciL : nameIdx < s.name_pool.strings.length := by
                    rw [← hname']; exact hblt
                  refine absurd ?_ (hng ci)
                  refine ⟨c, hcmem, hu, ?_⟩
                  show resolveP s.name_pool (s.groups.getD ci default).name = n
                  rw [hname', ← hres nameIdx hnciL]
                  exact hresi
              | notFound =>
                  by_cases hcap : s.groups.length = 2 ^ 32 - 1
                  · rw [putAux_cap hf f s g p n r r₀ nameIdx p' hsp hn hput
                      hscan hcap] at h
                    cases h
                  · rw [putAux_create hf f s g p n r r₀ nameIdx p' hsp hn hput
                      hscan hcap] at h
                    cases hpc : AnyRef.pack (.group s.groups.length) with
                    | none => simp only [hpc] at h; cases h
                    | some pc =>
                        cases hpp : AnyRef.pack (.group g) with
                        | none => simp only [hpc, hpp] at h; cases h
                        | some pp =>
                            simp only [hpc, hpp] at h
                            exact fresh_ok_no_laterEmpty hf s.separator r hle f
                              { s with
                                groups := pushChild s.groups g pc
                                  ++ [{ children := [], parent := pp,
                                        name := nameIdx }]
                                name_pool := p' }
                              s.groups.length t s' rfl
                              (fresh_children_nil s g nameIdx pc pp p') h
  | @groupConflict g p ci hsp hcg =>
      intro hInv hg hsep fuel t s' h
      cases fuel with
      | zero => rw [putAux_zero] at h; cases h
      | succ f =>
          obtain ⟨c, hcmem, hu, hres⟩ := hcg
          simp only [resolve] at hres
          obtain ⟨hci1, hciL, _⟩ := child_group_facts hf s hInv g hg c ci hcmem hu
          obtain ⟨ha, hb⟩ := hInv.group_name ci hci1 hciL
          have hcont : PoolContains s.name_pool p
              (stringAt s.name_pool (s.groups.getD ci default).name)
              (s.groups.getD ci default).name := ⟨ha, hb, rfl, hres⟩
          have hput := put_hit hf s.name_pool p _ _ hInv.pool_inv hcont
          have hscan : scanTerminal { s with name_pool := s.name_pool }
              (s.groups.getD ci default).name
              (s.groups.getD g default).children = .conflict :=
            scanT_conflict s _ _ (children_not_none hf s hInv g hg)
              (hInv.children_names g hg) c hcmem ci hu rfl
          rw [putAux_term_conflict hf f s g p _ _ s.name_pool hsp hput hscan] at h
          cases h

lemma putAux_error_walk (hf : Str → Nat) :
    ∀ fuel (s : Suite) g (p : Str) s'',
      SuiteInv hf s → g < s.groups.length → s.separator ≠ [] →
      s.name_pool.pool.length + p.length < 2 ^ 32 - 1 →
      s.name_pool.strings.length + p.length + 1 < 2 ^ 32 - 1 →
      s.groups.length + p.length ≤ 2 ^ 30 →
      s.tests.length < 2 ^ 31 →
      Suite.putAux hf fuel s g p = .error s'' →
      ErrWalk s g p := by
  intro fuel
  induction fuel with
  | zero =>
      intro s g p s'' _ _ _ _ _ _ _ h
      rw [putAux_zero] at h
      cases h
  | succ f ih =>
      intro s g p s'' hInv hg hsep hpb hsb hgb htb h
      cases hsp : splitOnce s.separator p with
      | some pr =>
          obtain ⟨n, r⟩ := pr
          by_cases hn : n = []
          · exact ErrWalk.emptySeg hsp hn
          · have hple := splitOnce_eq s.separator p n r hsp
            have hlen : p.length = n.length + s.separator.length + r.length := by
              rw [hple, List.length_append, List.length_append]
            have hsep1 : 1 ≤ s.separator.length := List.length_pos.mpr hsep
            have hn1 : 1 ≤ n.length := List.length_pos.mpr hn
            cases hput : Pool.put hf s.name_pool n with
            | panic =>
                rw [putAux_poolPanic hf f s g p n r hsp hn hput] at h
                cases h
            | error p'' =>
                rcases put_error_conditions hf s.name_pool n p'' hput
                  with h1 | h1 | h1 <;> omega
            | ok r₀ nameIdx p' =>
                obtain ⟨hInvP, hmono, hres, hiL, hresi, hpos, _⟩ :=
                  put_ok_facts hf s.name_pool n r₀ nameIdx p' hInv.pool_inv hput
                cases hscan : scanNonTerminal { s with name_pool := p' } nameIdx
                    (s.groups.getD g default).children with
                | panicked =>
                    rw [putAux_scanPanic hf f s g p n r r₀ nameIdx p' hsp hn
                      hput hscan] at h
                    cases h
                | conflict =>
                    obtain ⟨c, hcmem, ti, hu, hname⟩ :=
                      scanNT_conflict_inv { s with name_pool := p' } nameIdx _ hscan
                    have hname' : (s.tests.getD ti default).name = nameIdx := hname
                    obtain ⟨hti, _⟩ := child_test_facts hf s hInv g hg c ti hcmem hu
                    have hnlt := hInv.test_name ti hti
                    have hct : ChildTestStr s g n ti := by
                      refine ⟨c, hcmem, hu, ?_⟩
                      show resolveP s.name_pool (s.tests.getD ti default).name = n
                      rw [hname', ← hres nameIdx (by rw [← hname']; exact hnlt)]
                      exact hresi
                    exact ErrWalk.testConflict hsp hn hct
                | foundGroup ci =>
                    obtain ⟨c, hcmem, hu, hname⟩ :=
                      scanNT_found_inv { s with name_pool := p' } nameIdx _ ci hscan
                    have hname' : (s.groups.getD ci default).name = nameIdx := hname
                    obtain ⟨hci1, hciL, _⟩ :=
                      child_group_facts hf s hInv g hg c ci hcmem hu
                    obtain ⟨ha, hb⟩ := hInv.group_name ci hci1 hciL
                    have hplt : nameIdx < s.name_pool.strings.length := by
                      rw [← hname']; exact hb
                    have hid := put_ok_lt hf s.name_pool n r₀ nameIdx p' hput hplt
                    subst hid
                    rw [putAux_scanFound hf f s g p n r r₀ nameIdx ci
                      s.name_pool hsp hn hput hscan] at h
                    have h' : Suite.putAux hf f s ci r = .error s'' := h
                    have hsub := ih s ci r s'' hInv hciL hsep (by omega)
                      (by omega) (by omega) htb h'
                    refine ErrWalk.descend hsp hn ?_ ⟨c, hcmem, hu, ?_⟩ hsub
                    · intro ti hct
                      obtain ⟨c', hcm', hu', hres'⟩ := hct
                      simp only [resolve] at hres'
                      obtain ⟨hti, _⟩ :=
                        child_test_facts hf s hInv g hg c' ti hcm' hu'
                      have hnlt := hInv.test_name ti hti
                      have hbn : resolveP s.name_pool
                          (s.groups.getD ci default).name = n := by
                        rw [hname']; exact hresi
                      have heqn : (s.tests.getD ti default).name
                          = (s.groups.getD ci default).name :=
                        resolveP_inj hf s.name_pool hInv.pool_inv _ _ hnlt hb
                          (hres'.trans hbn.symm)
                      have hcn' : childNameIdx s c' = childNameIdx s c := by
                        rw [childNameIdx_test s c' ti hu',
                          childNameIdx_group s c ci hu]
                        exact heqn
                      have hcc := pairwise_name_inj s _ (hInv.children_names g hg)
                        c' hcm' c hcmem hcn'
                      rw [hcc, hu] at hu'
                      cases hu'
                    · show resolveP s.name_pool (s.groups.getD ci default).name = n
                      rw [hname']
                      exact hresi
                | notFound =>
                    by_cases hcap : s.groups.length = 2 ^ 32 - 1
                    · omega
                    · rw [putAux_create hf f s g p n r r₀ nameIdx p' hsp hn hput
                        hscan hcap] at h
                      have hk30 : s.groups.length < 2 ^ 30 := by omega
                      have hg30 : g < 2 ^ 30 := by omega
                      simp only [pack_group_eq s.groups.length hk30,
                        pack_group_eq g hg30] at h
                      have hninv := scanNT_notFound_inv { s with name_pool := p' }
                        nameIdx _ hscan
                      obtain ⟨hgr1, hgr2⟩ :=
                        put_ok_growth hf s.name_pool n r₀ nameIdx p' hput
                      have hnt : ∀ ti, ¬ChildTestStr s g n ti := by
                        intro ti hct
                        obtain ⟨c', hcm', hu', hres'⟩ := hct
                        simp only [resolve] at hres'
                        obtain ⟨hti, _⟩ :=
                          child_test_facts hf s hInv g hg c' ti hcm' hu'
                        have hnlt := hInv.test_name ti hti
                        have hres'' : resolveP p' (s.tests.getD ti default).name = n := by
                          rw [hres _ hnlt]; exact hres'
                        have heqn : (s.tests.getD ti default).name = nameIdx :=
                          resolveP_inj hf p' hInvP _ _
                            (lt_of_lt_of_le hnlt hmono) hiL
                            (hres''.trans hresi.symm)
                        have hni := hninv c' hcm'
                        have hni' : childNameIdx s c' ≠ nameIdx := hni
                        exact hni' (by rw [childNameIdx_test s c' ti hu']; exact heqn)
                      have hng : ∀ ci, ¬ChildGroupStr s g n ci := by
                        intro ci hcg
                        obtain ⟨c', hcm', hu', hres'⟩ := hcg
                        simp only [resolve] at hres'
                        obtain ⟨hci1, hciL, _⟩ :=
                          child_group_facts hf s hInv g hg c' ci hcm' hu'
                        have hblt := (hInv.group_name ci hci1 hciL).2
                        have hres'' : resolveP p' (s.groups.getD ci default).name = n := by
                          rw [hres _ hblt]; exact hres'
                        have heqn : (s.groups.getD ci default).name = nameIdx :=
                          resolveP_inj hf p' hInvP _ _
                            (lt_of_lt_of_le hblt hmono) hiL
                            (hres''.trans hresi.symm)
                        have hni := hninv c' hcm'
                        have hni' : childNameIdx s c' ≠ nameIdx := hni
                        exact hni' (by rw [childNameIdx_group s c' ci hu']; exact heqn)
                      refine ErrWalk.freshEmpty hsp hn hnt hng ?_
                      have hlater := fresh_error_laterEmpty hf f
                        { s with
                          groups := pushChild s.groups g (2 ^ 31 + s.groups.length)
                            ++ [{ children := [], parent := 2 ^ 31 + g,
                                  name := nameIdx }]
                          name_pool := p' }
                        s.groups.length r s'' hsep
                        (fresh_children_nil s g nameIdx _ _ p')
                        (by show p'.pool.length + r.length < 2 ^ 32 - 1; omega)
                        (by show p'.strings.length + r.length + 1 < 2 ^ 32 - 1; omega)
                        (by
                          show (pushChild s.groups g (2 ^ 31 + s.groups.length)
                            ++ ([{ children := [], parent := 2 ^ 31 + g, name := nameIdx }] : List SuiteGroup)).length + r.length ≤ 2 ^ 30
                          rw [List.length_append, pushChild_length]
                          have hone : ([{ children := [], parent := 2 ^ 31 + g, name := nameIdx }] : List SuiteGroup).length = 1 := rfl
                          omega)
                        htb h
                      exact hlater
      | none =>
          cases hput : Pool.put hf s.name_pool p with
          | panic =>
              rw [putAux_term_poolPanic hf f s g p hsp hput] at h
              cases h
          | error p'' =>
              rcases put_error_conditions hf s.name_pool p p'' hput
                with h1 | h1 | h1 <;> omega
          | ok r₀ nameIdx p' =>
              obtain ⟨hInvP, hmono, hres, hiL, hresi, hpos, _⟩ :=
                put_ok_facts hf s.name_pool p r₀ nameIdx p' hInv.pool_inv hput
              cases hscan : scanTerminal { s with name_pool := p' } nameIdx
                  (s.groups.getD g default).children with
              | panicked =>
                  rw [putAux_term_scanPanic hf f s g p r₀ nameIdx p' hsp
                    hput hscan] at h
                  cases h
              | okTest ti =>
                  rw [putAux_term_hit hf f s g p r₀ nameIdx ti p' hsp
                    hput hscan] at h
                  cases h
              | conflict =>
                  obtain ⟨c, hcmem, ci, hu, hname⟩ :=
                    scanT_conflict_inv { s with name_pool := p' } nameIdx _ hscan
                  have hname' : (s.groups.getD ci default).name = nameIdx := hname
                  obtain ⟨hci1, hciL, _⟩ :=
                    child_group_facts hf s hInv g hg c ci hcmem hu
                  obtain ⟨ha, hb⟩ := hInv.group_name ci hci1 hciL
                  have hplt : nameIdx < s.name_pool.strings.length := by
                    rw [← hname']; exact hb
                  have hid := put_ok_lt hf s.name_pool p r₀ nameIdx p' hput hplt
                  subst hid
                  refine ErrWalk.groupConflict hsp ⟨c, hcmem, hu, ?_⟩
                  show resolveP s.name_pool (s.groups.getD ci default).name = p
                  rw [hname']
                  exact hresi
              | notFound =>
                  by_cases hcap : s.tests.length = 2 ^ 32 - 1
                  · omega
                  · rw [putAux_term_create hf f s g p r₀ nameIdx p' hsp hput
                      hscan hcap] at h
                    have hg30 : g < 2 ^ 30 := by omega
                    simp only [pack_test_eq s.tests.length htb,
                      pack_group_eq g hg30] at h
                    cases h

lemma putAux_ok_spec (hf : Str → Nat) :
    ∀ fuel (s : Suite) g (p : Str) t s',
      SuiteInv hf s → g < s.groups.length → s.separator ≠ [] →
      Suite.putAux hf fuel s g p = .ok t s' →
      SuiteInv hf s'
      ∧ SuiteStep s s'
      ∧ t < s'.tests.length
      ∧ ∃ idxs : List Nat,
          idxs ≠ []
          ∧ (∀ i ∈ idxs, i < s'.name_pool.strings.length)
          ∧ (∀ i ∈ idxs.dropLast, 1 ≤ i)
          ∧ idxs.map (resolveP s'.name_pool) = splitFull s.separator p
          ∧ nameChainIdx s' (.test t) = idxs.reverse ++ nameChainIdx s (.group g) := by
  intro fuel
  induction fuel with
  | zero =>
      intro s g p t s' _ _ _ h
      rw [putAux_zero] at h
      cases h
  | succ f ih =>
      intro s g p t s' hInv hg hsep h
      cases hsp : splitOnce s.separator p with
      | some pr =>
          obtain ⟨n, r⟩ := pr
          by_cases hn : n = []
          · rw [putAux_emptySeg hf f s g p n r hsp hn] at h
            cases h
          · cases hput : Pool.put hf s.name_pool n with
            | panic =>
                rw [putAux_poolPanic hf f s g p n r hsp hn hput] at h
                cases h
            | error p'' =>
                rw [putAux_poolError hf f s g p n r p'' hsp hn hput] at h
                cases h
            | ok r₀ nameIdx p' =>
                obtain ⟨hInvP, hmono, hres, hiL, hresi, hpos, _⟩ :=
                  put_ok_facts hf s.name_pool n r₀ nameIdx p' hInv.pool_inv hput
                obtain ⟨hInvS1, hStep1⟩ :=
                  suite_pool_step hf s n r₀ nameIdx p' hInv hput
                cases hscan : scanNonTerminal { s with name_pool := p' } nameIdx
                    (s.groups.getD g default).children with
                | panicked =>
                    rw [putAux_scanPanic hf f s g p n r r₀ nameIdx p' hsp hn
                      hput hscan] at h
                    cases h
                | conflict =>
                    rw [putAux_scanConflict hf f s g p n r r₀ nameIdx p' hsp hn
                      hput hscan] at h
                    cases h
                | foundGroup ci =>
                    obtain ⟨c, hcmem, hu, hname⟩ :=
                      scanNT_found_inv { s with name_pool := p' } nameIdx _ ci hscan
                    have hname' : (s.groups.getD ci default).name = nameIdx := hname
                    obtain ⟨hci1, hciL, hparci⟩ :=
                      child_group_facts hf s hInv g hg c ci hcmem hu
                    obtain ⟨ha, hb⟩ := hInv.group_name ci hci1 hciL
                    have hplt : nameIdx < s.name_pool.strings.length := by
                      rw [← hname']; exact hb
                    have hid := put_ok_lt hf s.name_pool n r₀ nameIdx p' hput hplt
                    subst hid
                    rw [putAux_scanFound hf f s g p n r r₀ nameIdx ci
                      s.name_pool hsp hn hput hscan] at h
                    have h' : Suite.putAux hf f s ci r = .ok t s' := h
                    obtain ⟨hInv', hStep, htlt, idxs', hne', hbound', hpos',
                      hmapres', hchain'⟩ := ih s ci r t s' hInv hciL hsep h'
                    refine ⟨hInv', hStep, htlt, nameIdx :: idxs', by simp,
                      ?_, ?_, ?_, ?_⟩
                    · intro i hi
                      rcases List.mem_cons.mp hi with rfl | hi
                      · exact lt_of_lt_of_le hplt hStep.strings_mono
                      · exact hbound' i hi
                    · obtain ⟨y, l', rfl⟩ : ∃ y l', idxs' = y :: l' := by
                        cases idxs' with
                        | nil => exact absurd rfl hne'
                        | cons y l' => exact ⟨y, l', rfl⟩
                      intro i hi
                      rw [List.dropLast_cons₂] at hi
                      rcases List.mem_cons.mp hi with rfl | hi
                      · exact hpos hn
                      · exact hpos' i hi
                    · rw [List.map_cons, hmapres',
                        splitFull_cons s.separator p n r hsep hsp]
                      congr 1
                      rw [hStep.resolve_stable nameIdx hplt]
                      exact hresi
                    · rw [hchain', nameChain_group hf s hInv ci g hg hparci, hname']
                      simp [List.reverse_cons, List.append_assoc]
                | notFound =>
                    by_cases hcap : s.groups.length = 2 ^ 32 - 1
                    · rw [putAux_cap hf f s g p n r r₀ nameIdx p' hsp hn hput
                        hscan hcap] at h
                      cases h
                    · rw [putAux_create hf f s g p n r r₀ nameIdx p' hsp hn hput
                        hscan hcap] at h
                      cases hpc : AnyRef.pack (.group s.groups.length) with
                      | none => simp only [hpc] at h; cases h
                      | some pc =>
                          cases hpp : AnyRef.pack (.group g) with
                          | none => simp only [hpc, hpp] at h; cases h
                          | some pp =>
                              simp only [hpc, hpp] at h
                              obtain ⟨hk30, rfl⟩ := pack_group_inv _ _ hpc
                              obtain ⟨hg30, rfl⟩ := pack_group_inv _ _ hpp
                              have hn1 : 1 ≤ nameIdx := hpos hn
                              have hfresh : ∀ c ∈ (({ s with name_pool := p' } : Suite).groups.getD g default).children,
                                  childNameIdx { s with name_pool := p' } c ≠ nameIdx :=
                                scanNT_notFound_inv { s with name_pool := p' } nameIdx _ hscan
                              obtain ⟨hInv2, hStep2, hlen2, hnew2⟩ :=
                                createGroup_spec hf { s with name_pool := p' } g
                                  nameIdx hInvS1 hg hg30 hk30 hn1 hiL hfresh
                              have hs1len : ({ s with name_pool := p' } : Suite).groups.length = s.groups.length := rfl
                              have h' : Suite.putAux hf f
                                  (createGroup { s with name_pool := p' } g nameIdx)
                                  s.groups.length r = .ok t s' := h
                              have hgL : s.groups.length
                                  < (createGroup { s with name_pool := p' } g nameIdx).groups.length := by
                                rw [hlen2, hs1len]
                                omega
                              obtain ⟨hInv', hStep3, htlt, idxs', hne', hbound',
                                hpos', hmapres', hchain'⟩ :=
                                ih (createGroup { s with name_pool := p' } g nameIdx)
                                  s.groups.length r t s' hInv2 hgL hsep h'
                              have hStep : SuiteStep s s' :=
                                suiteStep_trans (suiteStep_trans hStep1 hStep2) hStep3
                              refine ⟨hInv', hStep, htlt, nameIdx :: idxs', by simp,
                                ?_, ?_, ?_, ?_⟩
                              · intro i hi
                                rcases List.mem_cons.mp hi with rfl | hi
                                · exact lt_of_lt_of_le hiL
                                    (le_trans hStep2.strings_mono hStep3.strings_mono)
                                · exact hbound' i hi
                              · obtain ⟨y, l', rfl⟩ : ∃ y l', idxs' = y :: l' := by
                                  cases idxs' with
                                  | nil => exact absurd rfl hne'
                                  | cons y l' => exact ⟨y, l', rfl⟩
                                intro i hi
                                rw [List.dropLast_cons₂] at hi
                                rcases List.mem_cons.mp hi with rfl | hi
                                · exact hn1
                                · exact hpos' i hi
                              · rw [List.map_cons, hmapres',
                                  splitFull_cons s.separator p n r hsep hsp]
                                congr 1
                                rw [hStep3.resolve_stable nameIdx
                                  (lt_of_lt_of_le hiL hStep2.strings_mono),
                                  hStep2.resolve_stable nameIdx hiL]
                                exact hresi
                              · rw [hchain']
                                have hnew2' : (createGroup { s with name_pool := p' } g nameIdx).groups.getD
                                    s.groups.length default
                                    = { children := [], parent := 2 ^ 31 + g,
                                        name := nameIdx } := hnew2
                                have hparnew : unpack ((createGroup { s with name_pool := p' } g nameIdx).groups.getD
                                    s.groups.length default).parent = .group g := by
                                  rw [hnew2']
                                  exact unpack_group g hg30
                                rw [nameChain_group hf
                                  (createGroup { s with name_pool := p' } g nameIdx)
                                  hInv2 s.groups.length g
                                  (by rw [hlen2, hs1len]; omega) hparnew]
                                rw [show ((createGroup { s with name_pool := p' } g nameIdx).groups.getD
                                    s.groups.length default).name = nameIdx from by rw [hnew2']]
                                rw [hStep2.chain_stable g hg, hStep1.chain_stable g hg]
                                simp [List.reverse_cons, List.append_assoc]
      | none =>
          cases hput : Pool.put hf s.name_pool p with
          | panic =>
              rw [putAux_term_poolPanic hf f s g p hsp hput] at h
              cases h
          | error p'' =>
              rw [putAux_term_poolError hf f s g p p'' hsp hput] at h
              cases h
          | ok r₀ nameIdx p' =>
              obtain ⟨hInvP, hmono, hres, hiL, hresi, hpos, _⟩ :=
                put_ok_facts hf s.name_pool p r₀ nameIdx p' hInv.pool_inv hput
              obtain ⟨hInvS1, hStep1⟩ :=
                suite_pool_step hf s p r₀ nameIdx p' hInv hput
              cases hscan : scanTerminal { s with name_pool := p' } nameIdx
                  (s.groups.getD g default).children with
              | panicked =>
                  rw [putAux_term_scanPanic hf f s g p r₀ nameIdx p' hsp
                    hput hscan] at h
                  cases h
              | conflict =>
                  rw [putAux_term_conflict hf f s g p r₀ nameIdx p' hsp
                    hput hscan] at h
                  cases h
              | okTest ti =>
                  rw [putAux_term_hit hf f s g p r₀ nameIdx ti p' hsp
                    hput hscan] at h
                  cases h
                  obtain ⟨c, hcmem, hu, hname⟩ :=
                    scanT_found_inv { s with name_pool := p' } nameIdx _ t hscan
                  obtain ⟨hti, hpart⟩ := child_test_facts hf s hInv g hg c t hcmem hu
                  refine ⟨hInvS1, hStep1, hti, [nameIdx], by simp, ?_, ?_, ?_, ?_⟩
                  · intro i hi
                    have hi' : i = nameIdx := by simpa using hi
                    subst hi'
                    exact hiL
                  · intro i hi
                    simp at hi
                  · rw [splitFull_single s.separator p hsp]
                    simp [hresi]
                  · rw [nameChain_test hf { s with name_pool := p' } hInvS1 t g
                      hg hpart, hname, hStep1.chain_stable g hg]
                    simp
              | notFound =>
                  by_cases hcap : s.tests.length = 2 ^ 32 - 1
                  · rw [putAux_term_cap hf f s g p r₀ nameIdx p' hsp hput
                      hscan hcap] at h
                    cases h
                  · rw [putAux_term_create hf f s g p r₀ nameIdx p' hsp hput
                      hscan hcap] at h
                    cases hpt : AnyRef.pack (.test s.tests.length) with
                    | none => simp only [hpt] at h; cases h
                    | some pt =>
                        cases hpp : AnyRef.pack (.group g) with
                        | none => simp only [hpt, hpp] at h; cases h
                        | some pp =>
                            simp only [hpt, hpp] at h
                            obtain ⟨ht31, rfl⟩ := pack_test_inv _ _ hpt
                            obtain ⟨hg30, rfl⟩ := pack_group_inv _ _ hpp
                            cases h
                            have hfresh : ∀ c ∈ (({ s with name_pool := p' } : Suite).groups.getD g default).children,
                                childNameIdx { s with name_pool := p' } c ≠ nameIdx :=
                              scanT_notFound_inv { s with name_pool := p' } nameIdx _ hscan
                            obtain ⟨hInv3, hStep2, htlen3, hnewt3⟩ :=
                              createTest_spec hf { s with name_pool := p' } g
                                nameIdx hInvS1 hg hg30 ht31 hiL hfresh
                            have hs1tlen : ({ s with name_pool := p' } : Suite).tests.length = s.tests.length := rfl
                            refine ⟨hInv3, suiteStep_trans hStep1 hStep2, ?_,
                              [nameIdx], by simp, ?_, ?_, ?_, ?_⟩
                            · show s.tests.length
                                < (createTest { s with name_pool := p' } g nameIdx).tests.length
                              rw [htlen3, hs1tlen]
                              omega
                            · intro i hi
                              have hi' : i = nameIdx := by simpa using hi
                              rw [hi']
                              show nameIdx
                                < (createTest { s with name_pool := p' } g nameIdx).name_pool.strings.length
                              exact lt_of_lt_of_le hiL hStep2.strings_mono
                            · intro i hi
                              simp at hi
                            · rw [splitFull_single s.separator p hsp]
                              simp [hresi]
                            · show nameChainIdx (createTest { s with name_pool := p' } g nameIdx)
                                  (.test s.tests.length)
                                = [nameIdx].reverse ++ nameChainIdx s (.group g)
                              have hnewt3' : (createTest { s with name_pool := p' } g nameIdx).tests.getD
                                  s.tests.length default
                                  = { parent := 2 ^ 31 + g, name := nameIdx } := hnewt3
                              have hpar3 : unpack ((createTest { s with name_pool := p' } g nameIdx).tests.getD
                                  s.tests.length default).parent = .group g := by
                                rw [hnewt3']
                                exact unpack_group g hg30
                              have hgl3 : g < (createTest { s with name_pool := p' } g nameIdx).groups.length := by
                                show g < (pushChild ({ s with name_pool := p' } : Suite).groups g
                                  ({ s with name_pool := p' } : Suite).tests.length).length
                                rw [pushChild_length]
                                exact hg
                              rw [nameChain_test hf
                                (createTest { s with name_pool := p' } g nameIdx)
                                hInv3 s.tests.length g hgl3 hpar3]
                              rw [show ((createTest { s with name_pool := p' } g nameIdx).tests.getD
                                  s.tests.length default).name = nameIdx from by rw [hnewt3']]
                              rw [hStep2.chain_stable g hg, hStep1.chain_stable g hg]
                              simp

lemma get_name_eval (hf : Str → Nat) (s : Suite) (hInv : SuiteInv hf s) (t : Nat)
    (hvalid : ∀ i ∈ s.iterNameIndices (.test t),
      1 ≤ i ∧ i < s.name_pool.strings.length) :
    s.get_name t =
      (List.intersperse s.separator
        ((s.iterNameIndices (.test t)).map (resolveP s.name_pool))).reverse.flatten := by
  have hnames : (s.iterNameRefs (.test t)).map (fun r => s.name_pool.get r)
      = (s.iterNameIndices (.test t)).map (resolveP s.name_pool) := by
    unfold Suite.iterNameRefs
    rw [List.map_map]
    rfl
  have hlens : (s.iterNameRefs (.test t)).map (fun r => r.num_bytes)
      = ((s.iterNameIndices (.test t)).map (resolveP s.name_pool)).map
          List.length := by
    unfold Suite.iterNameRefs
    rw [List.map_map, List.map_map]
    apply List.map_congr_left
    intro i hi
    obtain ⟨h1, h2⟩ := hvalid i hi
    show (Pool.ref_by_idx s.name_pool i).num_bytes = (resolveP s.name_pool i).length
    have hgl := get_length hf s.name_pool hInv.pool_inv i h1 h2
    rw [show resolveP s.name_pool i
      = s.name_pool.get (stringAt s.name_pool i) from rfl, hgl]
    rfl
  have hsum : ((List.intersperse s.separator
      ((s.iterNameRefs (.test t)).map (fun r => s.name_pool.get r))).map
        List.length).sum
      = (List.intersperse s.separator.length
          ((s.iterNameRefs (.test t)).map (fun r => r.num_bytes))).sum := by
    rw [map_intersperse_lengths, hnames, hlens]
  rw [show s.get_name t = fillLoop
      (List.replicate ((List.intersperse s.separator.length
        ((s.iterNameRefs (.test t)).map (fun r => r.num_bytes))).sum)
        (Char.ofNat 0))
      ((List.intersperse s.separator.length
        ((s.iterNameRefs (.test t)).map (fun r => r.num_bytes))).sum)
      (List.intersperse s.separator
        ((s.iterNameRefs (.test t)).map (fun r => s.name_pool.get r)))
    from rfl]
  rw [fillLoop_spec _ _ _ hsum (by rw [List.length_replicate])]
  rw [List.drop_eq_nil_of_le (by rw [List.length_replicate]), List.append_nil]
  rw [hnames]

set_option maxHeartbeats 4000000 in
set_option maxRecDepth 100000 in
/-- C1 counterexample: the original claim fails on the path `"a."` with
separator `"."`.  `Suite::put("a.")` succeeds (the empty terminal segment
becomes a test with the empty name under group `"a"`), but
`get_name` filters out the empty name index and returns `"a"`, not
`"a."`. -/
theorem claim_C1_counterexample :
    Suite.put hfW (Suite.new [Char.ofNat 46]) ("a.".toList) = .ok 0 sCE1
    ∧ sCE1.get_name 0 = "a".toList
    ∧ "a".toList ≠ "a.".toList :=
  ⟨by decide, by decide, by decide⟩

/-- C1 (amended): for every suite satisfying the invariant, with a
non-empty separator, and every path whose *terminal* segment is non-empty,
if `Suite::put(p)` returns `Ok(t)` then `get_name(t)` returns exactly `p`
(the separator-joined names of `t` and its non-root ancestors reconstruct
the inserted path). -/
theorem claim_C1 (hf : Str → Nat) (s : Suite) (p : Str) (t : Nat) (s' : Suite)
    (hInv : SuiteInv hf s) (hsep : s.separator ≠ [])
    (hterm : (splitFull s.separator p).getLast? ≠ some [])
    (hok : Suite.put hf s p = .ok t s') :
    s'.get_name t = p := by
  obtain ⟨hInv', hStep, htlt, idxs, hne, hbound, hposn, hmap, hchain⟩ :=
    putAux_ok_spec hf (p.length + 1) s 0 p t s' hInv hInv.groups_ne hsep hok
  have hdecomp := List.dropLast_append_getLast hne
  have hlast1 : 1 ≤ idxs.getLast hne := by
    by_contra h0
    have h00 : idxs.getLast hne = 0 := by omega
    have hmap' := hmap
    rw [← hdecomp, List.map_append] at hmap'
    have hlq : (splitFull s.separator p).getLast?
        = some (resolveP s'.name_pool (idxs.getLast hne)) := by
      rw [← hmap', show List.map (resolveP s'.name_pool) [idxs.getLast hne]
        = [resolveP s'.name_pool (idxs.getLast hne)] from rfl,
        List.getLast?_concat]
    rw [h00, resolveP_zero hf s'.name_pool hInv'.pool_inv] at hlq
    exact hterm hlq
  have hall : ∀ i ∈ idxs, 1 ≤ i := by
    intro i hi
    rw [← hdecomp] at hi
    rcases List.mem_append.mp hi with hi | hi
    · exact hposn i hi
    · have hi' : i = idxs.getLast hne := by simpa using hi
      rw [hi']
      exact hlast1
  have hfilter : s'.iterNameIndices (.test t) = idxs.reverse := by
    unfold Suite.iterNameIndices
    rw [hchain, nameChain_root hf s hInv, List.filter_append]
    have h2 : List.filter (fun n => n != 0) [0] = [] := rfl
    rw [h2, List.append_nil]
    apply List.filter_eq_self.mpr
    intro a ha
    have ha' : a ∈ idxs := List.mem_reverse.mp ha
    have := hall a ha'
    simp
    omega
  have hvalid : ∀ i ∈ s'.iterNameIndices (.test t),
      1 ≤ i ∧ i < s'.name_pool.strings.length := by
    intro i hi
    rw [hfilter, List.mem_reverse] at hi
    exact ⟨hall i hi, hbound i hi⟩
  rw [get_name_eval hf s' hInv' t hvalid, hfilter, hStep.sep_eq,
    List.map_reverse, hmap,
    intersperse_reverse s.separator (splitFull s.separator p).reverse,
    List.reverse_reverse]
  exact flatten_intersperse_split s.separator hsep p.length p (le_refl _)

set_option maxHeartbeats 4000000 in
set_option maxRecDepth 100000 in
/-- C1 witness: inserting `"a.b"` into a fresh suite with separator `"."`
yields test 0, and the amended round-trip gives `get_name` back
`"a.b"`. -/
theorem claim_C1_witness :
    Suite.put hfW (Suite.new [Char.ofNat 46]) ("a.b".toList) = .ok 0 sW
    ∧ sW.get_name 0 = "a.b".toList :=
  ⟨by decide, claim_C1 hfW (Suite.new [Char.ofNat 46]) ("a.b".toList) 0 sW
    (suiteInv_new hfW [Char.ofNat 46]) (by decide) (by decide) (by decide)⟩

set_option maxHeartbeats 4000000 in
set_option maxRecDepth 100000 in
/-- C2 counterexample: the original if-and-only-if fails on the path
`"a."` with separator `"."`: the path contains an empty segment (its
terminal one), yet `Suite::put` succeeds (only empty *non-terminal*
segments are rejected). -/
theorem claim_C2_counterexample :
    ([] ∈ splitFull [Char.ofNat 46] ("a.".toList))
    ∧ Suite.put hfW (Suite.new [Char.ofNat 46]) ("a.".toList) = .ok 0 sCE2 :=
  ⟨by decide, by decide⟩

/-- C2 (amended): for every invariant-satisfying suite below the size
limits (pool, string, group and test counts small enough for the path),
with a non-empty separator, and assuming the call does not hit the
string-pool rehash panic: `Suite::put(p)` returns an error if and only if
the declarative walk condition `ErrWalk` holds on the initial suite — a
non-terminal segment of `p` is empty, or the walk through existing
subgroups hits a child test at a non-terminal segment (a proper prefix of
`p` is the path of an existing test), or it fails deeper in an existing
subgroup, or it leaves the existing tree and a later non-terminal segment
is empty, or the terminal segment names an existing child group (`p` is
the path of an existing group).  An empty *terminal* segment is not an
error.  Moreover if the walk reaches an existing child test (`p` is the
path of an existing test `ti`), `put` returns `Ok(ti)` and leaves the
suite completely unchanged. -/
theorem claim_C2 (hf : Str → Nat) (s : Suite) (p : Str)
    (hInv : SuiteInv hf s) (hsep : s.separator ≠ [])
    (hpb : s.name_pool.pool.length + p.length < 2 ^ 32 - 1)
    (hsb : s.name_pool.strings.length + p.length + 1 < 2 ^ 32 - 1)
    (hgb : s.groups.length + p.length ≤ 2 ^ 30)
    (htb : s.tests.length < 2 ^ 31)
    (hnp : Suite.put hf s p ≠ .panic) :
    ((∃ s'', Suite.put hf s p = .error s'') ↔ ErrWalk s 0 p)
    ∧ ∀ ti, TestAtWalk s 0 p ti → Suite.put hf s p = .ok ti s := by
  constructor
  · constructor
    · rintro ⟨s'', herr⟩
      exact putAux_error_walk hf (p.length + 1) s 0 p s'' hInv hInv.groups_ne
        hsep hpb hsb hgb htb herr
    · intro hw
      cases hres : Suite.put hf s p with
      | panic => exact absurd hres hnp
      | error s'' => exact ⟨s'', rfl⟩
      | ok t s' =>
          exact absurd hres
            (errWalk_not_ok hf s hw hInv hInv.groups_ne hsep (p.length + 1) t s')
  · intro ti hw
    exact testAtWalk_ok hf s hw hInv hInv.groups_ne hsep (p.length + 1)
      (Nat.lt_succ_self _)

set_option maxHeartbeats 4000000 in
set_option maxRecDepth 100000 in
/-- C2 witness: on a fresh suite with separator `"."` and path `"a"`, the
theorem applies; in particular the error condition is equivalent to the
declarative walk condition, and an existing-test walk returns its ref
unchanged. -/
theorem claim_C2_witness :
    ((∃ s'', Suite.put hfW (Suite.new [Char.ofNat 46]) ("a".toList) = .error s'')
      ↔ ErrWalk (Suite.new [Char.ofNat 46]) 0 ("a".toList))
    ∧ ∀ ti, TestAtWalk (Suite.new [Char.ofNat 46]) 0 ("a".toList) ti →
        Suite.put hfW (Suite.new [Char.ofNat 46]) ("a".toList)
          = .ok ti (Suite.new [Char.ofNat 46]) :=
  claim_C2 hfW (Suite.new [Char.ofNat 46]) ("a".toList)
    (suiteInv_new hfW [Char.ofNat 46]) (by decide) (by decide) (by decide)
    (by decide) (by decide) (by decide)

end DeqpRunner
